import Mathlib

/-!
# Discrete image convolution: embedding of the convolution, codec and `main` sources

The three convolution strategies of the repository, its BMP codec and the argument
handling of `main` are embedded as Lean functions over an explicit model of their data:

* `int` values are integers (`Int`) and `uint8_t` values are `Fin 256`.  The `int`
  computations that an argument of the command line or a header field of a file can
  drive out of range are reduced to 32 bits (`wrapInt`): the products of the kernel size
  checks and of `main`, and in `loadBMP` the negated height, the row size and the
  allocation size.  Index arithmetic inside the loops is exact: it stays below the
  allocation sizes, which fit an `int` on every image the program can hold;
* `std::vector` is a `List`; every `operator[]` goes through `readAt` /
  `writeAt`, which fail with `ConvError.outOfBounds` outside `[0, size)`;
* `double` arithmetic is a parameter (`DoubleArith`): the embedding fixes the
  order and shape of every floating-point operation made by the code and
  nothing about its rounding, so every statement proved for all `A` holds for
  the machine arithmetic as well.  `ExactArith` is the instance used to
  evaluate concrete inputs (the values in these evaluations are small
  integers and halves, on which binary64 is exact);
* `for` loops are `forRange`; the OpenMP `parallel for` loops are embedded by
  their sequential semantics (the iterations write disjoint indices).
-/

namespace ImageConvolution

/-! ## Data model -/

/-- An 8-bit channel value (`uint8_t`). -/
abbrev Byte := Fin 256

/-- The `BMPImage` struct of `bmp_parser.h`. -/
structure BMPImage where
  width : Int
  height : Int
  data : List Byte
deriving DecidableEq

/-- Ways a call can fail to return an image. -/
inductive ConvError where
  /-- the `std::runtime_error` thrown by the kernel size check -/
  | invalidKernel
  /-- `std::vector::resize` called with a negative count -/
  | lengthError
  /-- `operator[]` outside `[0, size)` -/
  | outOfBounds
  /-- a received message longer than the posted receive count -/
  | transport
deriving DecidableEq

/-- The `double` operations used by the convolution code. -/
structure DoubleArith where
  /-- carrier of `double` -/
  F : Type
  /-- the literal `0.0` -/
  zero : F
  /-- conversion `static_cast<double>(uint8_t)` -/
  ofByte : Byte → F
  /-- addition `+` (as in `sum += t`) -/
  add : F → F → F
  /-- multiplication `*` -/
  mul : F → F → F
  /-- rounding `std::round` -/
  round : F → F
  /-- conversion `static_cast<int>(double)` -/
  toInt : F → Int

/-- Rounding of `std::round` on exact values: to the nearest integer, halfway cases away from
zero. -/
def roundHalfAway (q : ℚ) : ℚ :=
  if 0 ≤ q then ((q + 1 / 2).floor : ℚ) else -(((-q + 1 / 2).floor : Int) : ℚ)

/-- The value of an `int` expression on the machine: the exact result reduced modulo `2^32`
into `[-2^31, 2^31)`. -/
def wrapInt (n : Int) : Int := (n + 2147483648) % 4294967296 - 2147483648

/-- The conversion `static_cast<size_t>(int)`: the value modulo `2^64`. -/
def toSizeT (n : Int) : Int := n % 18446744073709551616

/-- Truncation toward zero of an exact value. -/
def truncExact (q : ℚ) : Int :=
  if 0 ≤ q then q.floor else -((-q).floor)

/-- The conversion to `int` of a truncated value `t`: `t` itself inside the range of `int`,
and outside of it `INT_MIN`, the result of the conversion instruction of x86-64 (the C++
standard leaves that case undefined). -/
def castInt (t : Int) : Int :=
  if -2147483648 ≤ t ∧ t < 2147483648 then t else -2147483648

/-- The conversion `static_cast<int>` on exact values. -/
def truncToInt (q : ℚ) : Int := castInt (truncExact q)

/-- Exact arithmetic on rationals. -/
@[reducible] def ExactArith : DoubleArith where
  F := ℚ
  zero := 0
  ofByte b := (b.val : ℚ)
  add a b := a + b
  mul a b := a * b
  round := roundHalfAway
  toInt := truncToInt

/-! ## Vectors and loops -/

/-- Read `v[i]`. -/
def readAt {α : Type} (v : List α) (i : Int) : Except ConvError α :=
  if i < 0 then .error .outOfBounds
  else
    match v[i.toNat]? with
    | some a => .ok a
    | none => .error .outOfBounds

/-- Write `v[i] = a`. -/
def writeAt {α : Type} (v : List α) (i : Int) (a : α) : Except ConvError (List α) :=
  if 0 ≤ i ∧ i.toNat < v.length then .ok (v.set i.toNat a) else .error .outOfBounds

/-- The call `data.resize(n)` on a freshly constructed (empty) byte vector: `n` zero bytes. -/
def resize (n : Int) : Except ConvError (List Byte) :=
  if n < 0 then .error .lengthError else .ok (List.replicate n.toNat 0)

/-- Run `body i` for `n` consecutive values of `i`, starting at `i`, stopping at the first
failure. -/
def forLoop {σ : Type} : Nat → Int → (Int → σ → Except ConvError σ) → σ → Except ConvError σ
  | 0, _, _, s => .ok s
  | n + 1, i, body, s =>
    match body i s with
    | .ok s' => forLoop n (i + 1) body s'
    | .error e => .error e

/-- The loop `for (int i = lo; i < hi; i++) body`. -/
def forRange {σ : Type} (lo hi : Int) (body : Int → σ → Except ConvError σ) (s : σ) :
    Except ConvError σ :=
  forLoop (hi - lo).toNat lo body s

/-! ## The convolution strategies -/

/-- The three accumulators `sumR`, `sumG`, `sumB`. -/
structure Sums (A : DoubleArith) where
  sumR : A.F
  sumG : A.F
  sumB : A.F

/-- The initial accumulators `sumR = 0.0, sumG = 0.0, sumB = 0.0`. -/
def Sums.init (A : DoubleArith) : Sums A := ⟨A.zero, A.zero, A.zero⟩

/-- The body of the innermost kernel loop once `imageX`, `imageY` and the coefficient index
are computed: skip an out-of-image tap, otherwise add `pixel * kVal` to each accumulator. -/
def accumulate (A : DoubleArith) (input : BMPImage) (kernel : List A.F)
    (imageX imageY kIndex : Int) (s : Sums A) : Except ConvError (Sums A) :=
  if imageX < 0 ∨ imageX ≥ input.width ∨ imageY < 0 ∨ imageY ≥ input.height then .ok s
  else do
    let pixelIndex := (imageY * input.width + imageX) * 3
    let pixelR ← readAt input.data (pixelIndex + 0)
    let pixelG ← readAt input.data (pixelIndex + 1)
    let pixelB ← readAt input.data (pixelIndex + 2)
    let kVal ← readAt kernel kIndex
    pure ⟨A.add s.sumR (A.mul (A.ofByte pixelR) kVal),
          A.add s.sumG (A.mul (A.ofByte pixelG) kVal),
          A.add s.sumB (A.mul (A.ofByte pixelB) kVal)⟩

/-- The expression `static_cast<uint8_t>(std::min(std::max(r, 0), 255))` on an `int` `r`. -/
def clampByte (r : Int) : Byte :=
  ⟨(min (max r 0) 255).toNat, by omega⟩

/-- The stored channel byte for an accumulator value:
`static_cast<uint8_t>(std::min(std::max(static_cast<int>(std::round(sum)), 0), 255))`. -/
def toChannel (A : DoubleArith) (sum : A.F) : Byte :=
  clampByte (A.toInt (A.round sum))

/-- The three stores to `output.data[outIndex + 0..2]` that end the per-pixel body. -/
def storePixel (A : DoubleArith) (input : BMPImage) (x y : Int) (s : Sums A)
    (out : List Byte) : Except ConvError (List Byte) := do
  let outIndex := (y * input.width + x) * 3
  let out ← writeAt out (outIndex + 0) (toChannel A s.sumR)
  let out ← writeAt out (outIndex + 1) (toChannel A s.sumG)
  writeAt out (outIndex + 2) (toChannel A s.sumB)

/-- Modelled from the spec: the variable `halfKernelWidth` that `applyConvolution` reads
without declaring it; the spec fixes it as the integer division `kernelWidth / 2`, as the
two other strategies declare it. -/
def halfKernelWidth (kernelWidth : Int) : Int := kernelWidth.tdiv 2

/-- Modelled from the spec: the variable `halfKernelHeight` that `applyConvolution` reads
without declaring it; the spec fixes it as the integer division `kernelHeight / 2`, as the
two other strategies declare it. -/
def halfKernelHeight (kernelHeight : Int) : Int := kernelHeight.tdiv 2

/-- The kernel loops of `applyConvolution` and of `applyDistributedParallelConvolution` for
the output pixel `(x, y)`: `ky` in `[0, kernelHeight)`, `kx` in `[0, kernelWidth)`. -/
def kernelLoop (A : DoubleArith) (input : BMPImage) (kernel : List A.F)
    (kernelWidth kernelHeight halfW halfH x y : Int) : Except ConvError (Sums A) :=
  forRange 0 kernelHeight (fun ky s =>
    forRange 0 kernelWidth (fun kx s =>
      let imageX := x + kx - halfW
      let imageY := y + ky - halfH
      accumulate A input kernel imageX imageY (ky * kernelWidth + kx) s) s) (Sums.init A)

/-- The kernel loops of `applyParallelConvolution` for the output pixel `(x, y)`:
`ky` in `[-halfKernelHeight, halfKernelHeight]`, `kx` in `[-halfKernelWidth, halfKernelWidth]`. -/
def kernelLoopCentered (A : DoubleArith) (input : BMPImage) (kernel : List A.F)
    (kernelWidth halfW halfH x y : Int) : Except ConvError (Sums A) :=
  forRange (-halfH) (halfH + 1) (fun ky s =>
    forRange (-halfW) (halfW + 1) (fun kx s =>
      let imageX := x + kx
      let imageY := y + ky
      accumulate A input kernel imageX imageY
        ((ky + halfH) * kernelWidth + (kx + halfW)) s) s) (Sums.init A)

/-- The function `applyConvolution` (sequential strategy). -/
def applyConvolution (A : DoubleArith) (input : BMPImage) (kernel : List A.F)
    (kernelWidth kernelHeight : Int) : Except ConvError BMPImage :=
  if (kernel.length : Int) ≠ toSizeT (wrapInt (kernelWidth * kernelHeight)) then
    .error .invalidKernel
  else do
    let data ← resize (input.width * input.height * 3)
    let data ← forRange 0 input.height (fun y out =>
      forRange 0 input.width (fun x out => do
        let s ← kernelLoop A input kernel kernelWidth kernelHeight
          (halfKernelWidth kernelWidth) (halfKernelHeight kernelHeight) x y
        storePixel A input x y s out) out) data
    pure ⟨input.width, input.height, data⟩

/-- The function `applyParallelConvolution` (shared-memory strategy). -/
def applyParallelConvolution (A : DoubleArith) (input : BMPImage) (kernel : List A.F)
    (kernelWidth kernelHeight : Int) : Except ConvError BMPImage :=
  if (kernel.length : Int) ≠ toSizeT (wrapInt (kernelWidth * kernelHeight)) then
    .error .invalidKernel
  else do
    let data ← resize (input.width * input.height * 3)
    let halfKernelWidth := kernelWidth.tdiv 2
    let halfKernelHeight := kernelHeight.tdiv 2
    let data ← forRange 0 input.height (fun y out =>
      forRange 0 input.width (fun x out => do
        let s ← kernelLoopCentered A input kernel kernelWidth
          halfKernelWidth halfKernelHeight x y
        storePixel A input x y s out) out) data
    pure ⟨input.width, input.height, data⟩

/-! ## The per-pixel contract in the words of the specification -/

/-- One term of the accumulation of channel `c` at output pixel `(x, y)`: the tap `(ky, kx)`
adds `input.data[(imageY*width+imageX)*3+c] * kernel[ky*kernelWidth+kx]` when the source
coordinates `imageX = x + kx - kernelWidth/2`, `imageY = y + ky - kernelHeight/2` lie inside
the image, and nothing otherwise. -/
def specTap (A : DoubleArith) (input : BMPImage) (kernel : List A.F)
    (kernelWidth kernelHeight x y : Int) (c : Nat) (ky kx : Int) (s : A.F) : A.F :=
  let imageX := x + kx - kernelWidth / 2
  let imageY := y + ky - kernelHeight / 2
  if 0 ≤ imageX ∧ imageX < input.width ∧ 0 ≤ imageY ∧ imageY < input.height then
    A.add s (A.mul
      (A.ofByte (input.data.getD ((imageY * input.width + imageX) * 3 + c).toNat 0))
      (kernel.getD (ky * kernelWidth + kx).toNat A.zero))
  else s

/-- The accumulation `S` of channel `c` at output pixel `(x, y)`: the sum, starting from
`0.0`, over `ky` in `[0, kernelHeight)` and `kx` in `[0, kernelWidth)` of the terms
`specTap`, taken in row-major order of the kernel. -/
def specSum (A : DoubleArith) (input : BMPImage) (kernel : List A.F)
    (kernelWidth kernelHeight x y : Int) (c : Nat) : A.F :=
  (List.range kernelHeight.toNat).foldl (fun (s : A.F) (ky : Nat) =>
    (List.range kernelWidth.toNat).foldl (fun (s : A.F) (kx : Nat) =>
      specTap A input kernel kernelWidth kernelHeight x y c ky kx s) s) A.zero

/-- The three accumulations of output pixel `(x, y)`. -/
def specSums (A : DoubleArith) (input : BMPImage) (kernel : List A.F)
    (kernelWidth kernelHeight x y : Int) : Sums A :=
  ⟨specSum A input kernel kernelWidth kernelHeight x y 0,
   specSum A input kernel kernelWidth kernelHeight x y 1,
   specSum A input kernel kernelWidth kernelHeight x y 2⟩

/-- The clamp of the specification, `clamp(r, 0, 255)`, on an integer `r`: saturation at 0
and at 255. -/
def clampSpec (r : Int) : Int :=
  if r < 0 then 0 else if 255 < r then 255 else r

/-- Channel `c` of a triple of accumulators. -/
def Sums.chan {A : DoubleArith} (s : Sums A) (c : Nat) : A.F :=
  match c with
  | 0 => s.sumR
  | 1 => s.sumG
  | _ => s.sumB

/-! ## The distributed strategy -/

/-- The local `rowsPerProcess = input.height / size`. -/
def rowsPerProcess (height size : Int) : Int := height.tdiv size

/-- The local `startRow = rank * rowsPerProcess`. -/
def startRow (height size rank : Int) : Int := rank * rowsPerProcess height size

/-- The local `endRow = (rank == size - 1) ? input.height : startRow + rowsPerProcess`. -/
def endRow (height size rank : Int) : Int :=
  if rank = size - 1 then height else startRow height size rank + rowsPerProcess height size

/-- The coordinator's `recvStartRow = i * rowsPerProcess`. -/
def recvStartRow (height size i : Int) : Int := i * rowsPerProcess height size

/-- The coordinator's
`recvEndRow = (i == size - 1) ? input.height : recvStartRow + rowsPerProcess`. -/
def recvEndRow (height size i : Int) : Int :=
  if i = size - 1 then height else recvStartRow height size i + rowsPerProcess height size

/-- The call `MPI_Send(buf.data() + offset, count, MPI_UINT8_T, ...)`: the message is the
`count` bytes of the buffer starting at `offset`. -/
def mpiSend (buf : List Byte) (offset count : Int) : Except ConvError (List Byte) :=
  if count < 0 then .error .transport
  else if offset < 0 ∨ offset + count > buf.length then .error .outOfBounds
  else .ok ((buf.drop offset.toNat).take count.toNat)

/-- The call `MPI_Recv(buf.data() + offset, count, MPI_UINT8_T, i, ...)` when the message
`msg` arrives from rank `i` (`none`: no message arrives): the message, of at most `count`
bytes, is stored in the buffer from `offset` on. -/
def mpiRecv (buf : List Byte) (offset count : Int) (msg : Option (List Byte)) :
    Except ConvError (List Byte) :=
  match msg with
  | none => .error .transport
  | some m =>
    if count < 0 ∨ (m.length : Int) > count then .error .transport
    else if offset < 0 ∨ offset + m.length > buf.length then .error .outOfBounds
    else .ok (buf.take offset.toNat ++ m ++ buf.drop (offset.toNat + m.length))

/-- The function `applyDistributedParallelConvolution` as run by the process `rank` of
`size`; `inbox i` is the message that rank `i` sends to the coordinator.  The result is the
returned image together with the message this process sends (none on the coordinator). -/
def applyDistributedParallelConvolution (A : DoubleArith) (rank size : Int)
    (inbox : Int → Option (List Byte)) (input : BMPImage) (kernel : List A.F)
    (kernelWidth kernelHeight : Int) : Except ConvError (BMPImage × Option (List Byte)) :=
  if (kernel.length : Int) ≠ toSizeT (wrapInt (kernelWidth * kernelHeight)) then
    .error .invalidKernel
  else do
    let data ← resize (input.width * input.height * 3)
    let halfKernelWidth := kernelWidth.tdiv 2
    let halfKernelHeight := kernelHeight.tdiv 2
    let data ← forRange (startRow input.height size rank) (endRow input.height size rank)
      (fun y out =>
        forRange 0 input.width (fun x out => do
          let s ← kernelLoop A input kernel kernelWidth kernelHeight
            halfKernelWidth halfKernelHeight x y
          storePixel A input x y s out) out) data
    if rank ≠ 0 then do
      let msg ← mpiSend data (startRow input.height size rank * input.width * 3)
        ((endRow input.height size rank - startRow input.height size rank) * input.width * 3)
      pure (⟨input.width, input.height, data⟩, some msg)
    else do
      let data ← forRange 1 size (fun i out =>
        mpiRecv out (recvStartRow input.height size i * input.width * 3)
          ((recvEndRow input.height size i - recvStartRow input.height size i)
            * input.width * 3) (inbox i)) data
      pure (⟨input.width, input.height, data⟩, none)

/-- The message that the process `rank` sends when it runs
`applyDistributedParallelConvolution` (none when the call fails or sends nothing). -/
def sentBy (A : DoubleArith) (size : Int) (input : BMPImage) (kernel : List A.F)
    (kernelWidth kernelHeight : Int) (rank : Int) : Option (List Byte) :=
  match applyDistributedParallelConvolution A rank size (fun _ => none) input kernel
      kernelWidth kernelHeight with
  | .ok (_, msg) => msg
  | .error _ => none

/-- A run of `size` processes that all call `applyDistributedParallelConvolution` on the
same input: the image returned on the coordinator (rank 0), which receives from every other
rank the message that rank sends. -/
def distributedRun (A : DoubleArith) (size : Int) (input : BMPImage) (kernel : List A.F)
    (kernelWidth kernelHeight : Int) : Except ConvError BMPImage :=
  match applyDistributedParallelConvolution A 0 size
      (sentBy A size input kernel kernelWidth kernelHeight) input kernel
      kernelWidth kernelHeight with
  | .ok (image, _) => .ok image
  | .error e => .error e

instance instDecidableEqExcept {ε α : Type} [DecidableEq ε] [DecidableEq α] :
    DecidableEq (Except ε α) := fun a b =>
  match a, b with
  | .ok x, .ok y =>
    if h : x = y then isTrue (by rw [h]) else isFalse (fun h' => h (Except.ok.inj h'))
  | .error x, .error y =>
    if h : x = y then isTrue (by rw [h]) else isFalse (fun h' => h (Except.error.inj h'))
  | .ok _, .error _ => isFalse (fun h => by cases h)
  | .error _, .ok _ => isFalse (fun h => by cases h)

/-! ## The tap traversals of the two kernel loops -/

/-- The kernel loops of `applyConvolution` with the body left open: `visit` receives the
source coordinates and the coefficient index of every iteration, in loop order. -/
def traverseSequential {σ : Type} (kernelWidth kernelHeight halfW halfH x y : Int)
    (visit : Int → Int → Int → σ → Except ConvError σ) (s : σ) : Except ConvError σ :=
  forRange 0 kernelHeight (fun ky s =>
    forRange 0 kernelWidth (fun kx s =>
      let imageX := x + kx - halfW
      let imageY := y + ky - halfH
      visit imageX imageY (ky * kernelWidth + kx) s) s) s

/-- The kernel loops of `applyParallelConvolution` with the body left open. -/
def traverseCentered {σ : Type} (kernelWidth halfW halfH x y : Int)
    (visit : Int → Int → Int → σ → Except ConvError σ) (s : σ) : Except ConvError σ :=
  forRange (-halfH) (halfH + 1) (fun ky s =>
    forRange (-halfW) (halfW + 1) (fun kx s =>
      let imageX := x + kx
      let imageY := y + ky
      visit imageX imageY ((ky + halfH) * kernelWidth + (kx + halfW)) s) s) s

/-- The body that records the visited source pixel and coefficient index. -/
def recordTap (imageX imageY kIndex : Int) (trace : List (Int × Int × Int)) :
    Except ConvError (List (Int × Int × Int)) :=
  .ok (trace ++ [(imageX, imageY, kIndex)])

/-! ## The argument handling of `main` -/

/-- What `main` has done when it reaches its `try` block, or how it ended before. -/
inductive ArgOutcome (A : DoubleArith) where
  /-- the call `printUsage()`: usage message and `exit(1)` -/
  | usage
  /-- an exception of `std::stoi` or `std::stod`, thrown outside the `try` block -/
  | uncaught
  /-- the `try` block is entered with these values of `mode`, `inputFileName`,
  `outputFileName`, `kernelWidth`, `kernelHeight` and `kernel` -/
  | proceed (mode inputFileName outputFileName : String) (kernelWidth kernelHeight : Int)
      (kernel : List A.F)

/-- The loop `for (int i = 6; i < argc; i++) kernel.push_back(std::stod(argv[i]))` on the
arguments still to be read; `stod` returns `none` where `std::stod` throws. -/
def parseCoefficients {F : Type} (stod : String → Option F) :
    List String → List F → Option (List F)
  | [], kernel => some kernel
  | arg :: rest, kernel =>
    match stod arg with
    | none => none
    | some v => parseCoefficients stod rest (kernel ++ [v])

/-- The statements of `main` up to its `try` block, on the argument vector `argv`
(`argc = argv.length`). `stoi` and `stod` stand for `std::stoi` and `std::stod` (`none`
where they throw) and `ninth` for the value of the expression `1.0 / 9`. The expression
`6 + kernelWidth * kernelHeight` is `int` arithmetic. -/
def mainArguments (A : DoubleArith) (stoi : String → Option Int)
    (stod : String → Option A.F) (ninth : A.F) (argv : List String) : ArgOutcome A :=
  let argc : Int := argv.length
  if argc < 4 then .usage
  else
    let mode := argv.getD 1 ""
    let inputFileName := argv.getD 2 ""
    let outputFileName := argv.getD 3 ""
    if argc ≥ 6 then
      match stoi (argv.getD 4 "") with
      | none => .uncaught
      | some kernelWidth =>
        match stoi (argv.getD 5 "") with
        | none => .uncaught
        | some kernelHeight =>
          if argc ≠ wrapInt (6 + wrapInt (kernelWidth * kernelHeight)) then .usage
          else
            match parseCoefficients stod (argv.drop 6) [] with
            | none => .uncaught
            | some kernel =>
              .proceed mode inputFileName outputFileName kernelWidth kernelHeight kernel
    else
      .proceed mode inputFileName outputFileName 3 3
        [ninth, ninth, ninth, ninth, ninth, ninth, ninth, ninth, ninth]

/-- The convolution call that `main` makes for `mode` on the loaded image (`none` for an
invalid mode, where no call is made); for `"D"` the process has the given rank, world size
and inbox. -/
def mainConvolution (A : DoubleArith) (rank size : Int) (inbox : Int → Option (List Byte))
    (mode : String) (inputImage : BMPImage) (kernel : List A.F)
    (kernelWidth kernelHeight : Int) : Option (Except ConvError BMPImage) :=
  if mode = "S" then some (applyConvolution A inputImage kernel kernelWidth kernelHeight)
  else if mode = "P" then
    some (applyParallelConvolution A inputImage kernel kernelWidth kernelHeight)
  else if mode = "D" then
    some ((applyDistributedParallelConvolution A rank size inbox inputImage kernel
      kernelWidth kernelHeight).map (fun r => r.1))
  else none

/-! ## The BMP codec (`bmp_parser.cpp`)

A file is the list of its bytes. The two header structs are packed (`#pragma pack(1)`):
14 and 40 bytes, fields in declaration order, each field little-endian as on the hosts the
program is built for. -/

/-- Ways `loadBMP` can fail. -/
inductive BmpError where
  /-- the file cannot be opened -/
  | cannotOpen
  /-- fewer than 14 bytes for the file header -/
  | fileHeaderShort
  /-- `bfType != 0x4D42` -/
  | badMagic
  /-- fewer than 40 bytes for the info header -/
  | infoHeaderShort
  /-- `biBitCount != 24` -/
  | badBitCount
  /-- `biCompression != 0` -/
  | compressed
  /-- fewer than `rowPadded` bytes when reading the row `row` -/
  | rowShort (row : Int)
  /-- a failure of a `std::vector` operation -/
  | vector (e : ConvError)
deriving DecidableEq

/-- The low byte of a number. -/
def byteOf (n : Nat) : Byte := ⟨n % 256, Nat.mod_lt n (by decide)⟩

/-- The two bytes of a `uint16_t` field. -/
def le16Bytes (v : Nat) : List Byte := [byteOf v, byteOf (v / 256)]

/-- The four bytes of a `uint32_t` field. -/
def le32Bytes (v : Nat) : List Byte :=
  [byteOf v, byteOf (v / 256), byteOf (v / 65536), byteOf (v / 16777216)]

/-- The `uint16_t` field stored at offset `off`. -/
def le16At (l : List Byte) (off : Nat) : Nat :=
  (l.getD off 0).val + 256 * (l.getD (off + 1) 0).val

/-- The `uint32_t` field stored at offset `off`. -/
def le32At (l : List Byte) (off : Nat) : Nat :=
  (l.getD off 0).val + 256 * (l.getD (off + 1) 0).val + 65536 * (l.getD (off + 2) 0).val
    + 16777216 * (l.getD (off + 3) 0).val

/-- The conversion of an `int` to `uint32_t`. -/
def toUInt32 (x : Int) : Nat := (x % 4294967296).toNat

/-- The `int32_t` with the bits of a `uint32_t`. -/
def toInt32 (n : Nat) : Int := if n < 2147483648 then n else (n : Int) - 4294967296

/-- The struct `BMPFileHeader`. -/
structure BMPFileHeader where
  bfType : Nat
  bfSize : Nat
  bfReserved1 : Nat
  bfReserved2 : Nat
  bfOffBits : Nat
deriving DecidableEq

/-- The struct `BMPInfoHeader`. -/
structure BMPInfoHeader where
  biSize : Nat
  biWidth : Int
  biHeight : Int
  biPlanes : Nat
  biBitCount : Nat
  biCompression : Nat
  biSizeImage : Nat
  biXPelsPerMeter : Int
  biYPelsPerMeter : Int
  biClrUsed : Nat
  biClrImportant : Nat
deriving DecidableEq

/-- The 14 bytes of a file header, as `file.write` emits them. -/
def BMPFileHeader.encode (h : BMPFileHeader) : List Byte :=
  le16Bytes h.bfType ++ le32Bytes h.bfSize ++ le16Bytes h.bfReserved1
    ++ le16Bytes h.bfReserved2 ++ le32Bytes h.bfOffBits

/-- The file header that `file.read` stores from 14 bytes. -/
def BMPFileHeader.decode (l : List Byte) : BMPFileHeader :=
  ⟨le16At l 0, le32At l 2, le16At l 6, le16At l 8, le32At l 10⟩

/-- The 40 bytes of an info header, as `file.write` emits them. -/
def BMPInfoHeader.encode (h : BMPInfoHeader) : List Byte :=
  le32Bytes h.biSize ++ le32Bytes (toUInt32 h.biWidth) ++ le32Bytes (toUInt32 h.biHeight)
    ++ le16Bytes h.biPlanes ++ le16Bytes h.biBitCount ++ le32Bytes h.biCompression
    ++ le32Bytes h.biSizeImage ++ le32Bytes (toUInt32 h.biXPelsPerMeter)
    ++ le32Bytes (toUInt32 h.biYPelsPerMeter) ++ le32Bytes h.biClrUsed
    ++ le32Bytes h.biClrImportant

/-- The info header that `file.read` stores from 40 bytes. -/
def BMPInfoHeader.decode (l : List Byte) : BMPInfoHeader :=
  ⟨le32At l 0, toInt32 (le32At l 4), toInt32 (le32At l 8), le16At l 12, le16At l 14,
    le32At l 16, le32At l 20, toInt32 (le32At l 24), toInt32 (le32At l 28), le32At l 32,
    le32At l 36⟩

/-- The expression `(rowSize + 3) & (~3)`. -/
def padRow (rowSize : Int) : Int := Int.land (rowSize + 3) (Int.not 3)

/-- A `std::vector` failure inside `loadBMP`. -/
def liftVector {α : Type} : Except ConvError α → Except BmpError α
  | .ok a => .ok a
  | .error e => .error (.vector e)

/-- Run `body i` for `n` consecutive values of `i` upwards from `i`, with any error type. -/
def loopUp {ε σ : Type} : Nat → Int → (Int → σ → Except ε σ) → σ → Except ε σ
  | 0, _, _, s => .ok s
  | n + 1, i, body, s =>
    match body i s with
    | .ok s' => loopUp n (i + 1) body s'
    | .error e => .error e

/-- Run `body i` for `n` consecutive values of `i` downwards from `i`. -/
def loopDown {ε σ : Type} : Nat → Int → (Int → σ → Except ε σ) → σ → Except ε σ
  | 0, _, _, s => .ok s
  | n + 1, i, body, s =>
    match body i s with
    | .ok s' => loopDown n (i - 1) body s'
    | .error e => .error e

/-- The loop `for (int i = lo; i < hi; i++) body`, with any error type. -/
def forUp {ε σ : Type} (lo hi : Int) (body : Int → σ → Except ε σ) (s : σ) : Except ε σ :=
  loopUp (hi - lo).toNat lo body s

/-- The loop `for (int i = hi; i >= lo; i--) body`. -/
def forDown {ε σ : Type} (hi lo : Int) (body : Int → σ → Except ε σ) (s : σ) : Except ε σ :=
  loopDown (hi - lo + 1).toNat hi body s

/-- The inner loop of `loadBMP`: the pixels of the row just read, `B,G,R` in `rowData`, are
stored as `R,G,B` in the row `destRow` of the image. -/
def loadRow (width destRow : Int) (rowData : List Byte) (data : List Byte) :
    Except ConvError (List Byte) :=
  forRange 0 width (fun j data => do
    let B ← readAt rowData (j * 3 + 0)
    let G ← readAt rowData (j * 3 + 1)
    let R ← readAt rowData (j * 3 + 2)
    let idx := (destRow * width + j) * 3
    let data ← writeAt data (idx + 0) R
    let data ← writeAt data (idx + 1) G
    writeAt data (idx + 2) B) data

/-- The function `loadBMP` on the content of the named file (`none`: the file cannot be
opened). The negation of the height, the row size and the argument of `resize` are `int`
arithmetic; a negative `int` converted to the `size_t` count of a vector is beyond
`max_size()`, the `lengthError`. -/
def loadBMP (file : Option (List Byte)) : Except BmpError BMPImage :=
  match file with
  | none => .error .cannotOpen
  | some bytes =>
    let headerBytes := bytes.take 14
    if headerBytes.length ≠ 14 then .error .fileHeaderShort
    else
      let fileHeader := BMPFileHeader.decode headerBytes
      if fileHeader.bfType ≠ 0x4D42 then .error .badMagic
      else
        let infoBytes := (bytes.drop 14).take 40
        if infoBytes.length ≠ 40 then .error .infoHeaderShort
        else
          let infoHeader := BMPInfoHeader.decode infoBytes
          if infoHeader.biBitCount ≠ 24 then .error .badBitCount
          else if infoHeader.biCompression ≠ 0 then .error .compressed
          else
            let width := infoHeader.biWidth
            let flipVertical : Bool := !decide (infoHeader.biHeight < 0)
            let height :=
              if infoHeader.biHeight < 0 then wrapInt (-infoHeader.biHeight)
              else infoHeader.biHeight
            let rowPadded := Int.land (wrapInt (wrapInt (width * 3) + 3)) (Int.not 3)
            do
              let data ← liftVector (resize (wrapInt (wrapInt (width * height) * 3)))
              let stream := bytes.drop fileHeader.bfOffBits
              if rowPadded < 0 then .error (.vector .lengthError)
              else do
                let st ← forUp 0 height (fun i (st : List Byte × List Byte) =>
                  let rowData := st.1.take rowPadded.toNat
                  if (rowData.length : Int) ≠ rowPadded then .error (.rowShort i)
                  else do
                    let destRow := if flipVertical then height - 1 - i else i
                    let data ← liftVector (loadRow width destRow rowData st.2)
                    pure (st.1.drop rowPadded.toNat, data)) (stream, data)
                pure ⟨width, height, st.2⟩

/-- The inner loop of `saveToFile`: the pixels of the image row `i`, `R,G,B` in the image,
are stored as `B,G,R` in `rowData`. -/
def saveRow (image : BMPImage) (i : Int) (rowData : List Byte) :
    Except ConvError (List Byte) :=
  forRange 0 image.width (fun j rowData => do
    let idx := (i * image.width + j) * 3
    let R ← readAt image.data (idx + 0)
    let G ← readAt image.data (idx + 1)
    let B ← readAt image.data (idx + 2)
    let rowData ← writeAt rowData (j * 3 + 0) B
    let rowData ← writeAt rowData (j * 3 + 1) G
    writeAt rowData (j * 3 + 2) R) rowData

/-- The file header that `saveToFile` prepares. -/
def savedFileHeader (image : BMPImage) : BMPFileHeader :=
  let rowSize := image.width * 3
  let rowPadded := padRow rowSize
  let dataSize := rowPadded * image.height
  { bfType := 0x4D42, bfOffBits := 14 + 40, bfSize := toUInt32 (14 + 40 + dataSize),
    bfReserved1 := 0, bfReserved2 := 0 }

/-- The info header that `saveToFile` prepares. -/
def savedInfoHeader (image : BMPImage) : BMPInfoHeader :=
  let rowSize := image.width * 3
  let rowPadded := padRow rowSize
  let dataSize := rowPadded * image.height
  { biSize := 40, biWidth := image.width, biHeight := image.height, biPlanes := 1,
    biBitCount := 24, biCompression := 0, biSizeImage := toUInt32 dataSize,
    biXPelsPerMeter := 2835, biYPelsPerMeter := 2835, biClrUsed := 0,
    biClrImportant := 0 }

/-- The function `saveToFile` on a file that can be opened and written: the bytes written
when it returns `true`. -/
def saveToFile (image : BMPImage) : Except ConvError (List Byte) :=
  let rowSize := image.width * 3
  let rowPadded := padRow rowSize
  let written := (savedFileHeader image).encode ++ (savedInfoHeader image).encode
  if rowPadded < 0 then .error .lengthError
  else
    let rowData := List.replicate rowPadded.toNat (0 : Byte)
    do
      let st ← forDown (image.height - 1) 0 (fun i (st : List Byte × List Byte) => do
        let rowData ← saveRow image i st.1
        pure (rowData, st.2 ++ rowData)) (rowData, written)
      pure st.2

/-- A 62-byte bottom-up file: 1x2 pixels, `biHeight = 2`, stored rows `(6,5,4)` then
`(3,2,1)`, each padded to 4 bytes. -/
def sampleBottomUp : List Byte :=
  [66, 77, 62, 0, 0, 0, 0, 0, 0, 0, 54, 0, 0, 0,
   40, 0, 0, 0, 1, 0, 0, 0, 2, 0, 0, 0, 1, 0, 24, 0, 0, 0, 0, 0, 8, 0, 0, 0,
   19, 11, 0, 0, 19, 11, 0, 0, 0, 0, 0, 0, 0, 0, 0, 0,
   6, 5, 4, 0, 3, 2, 1, 0]

/-- A 62-byte top-down file: 1x2 pixels, `biHeight = -2`, stored rows `(3,2,1)` then
`(6,5,4)`, each padded to 4 bytes. -/
def sampleTopDown : List Byte :=
  [66, 77, 62, 0, 0, 0, 0, 0, 0, 0, 54, 0, 0, 0,
   40, 0, 0, 0, 1, 0, 0, 0, 254, 255, 255, 255, 1, 0, 24, 0, 0, 0, 0, 0, 8, 0, 0, 0,
   19, 11, 0, 0, 19, 11, 0, 0, 0, 0, 0, 0, 0, 0, 0, 0,
   3, 2, 1, 0, 6, 5, 4, 0]

/-- A 54-byte file that is a header only: `biWidth = 0` and `biHeight = -2147483648`, the
`int` without a negation. -/
def sampleIntMin : List Byte :=
  [66, 77, 54, 0, 0, 0, 0, 0, 0, 0, 54, 0, 0, 0,
   40, 0, 0, 0, 0, 0, 0, 0, 0, 0, 0, 128, 1, 0, 24, 0, 0, 0, 0, 0, 0, 0, 0, 0,
   19, 11, 0, 0, 19, 11, 0, 0, 0, 0, 0, 0, 0, 0, 0, 0]

/-- The 54 header bytes of a file of 715827883 x 1 pixels (`biHeight = 1`), whose rows have
`715827883 * 3 = 2147483649` bytes. -/
def sampleTooWide : List Byte :=
  [66, 77, 54, 0, 0, 0, 0, 0, 0, 0, 54, 0, 0, 0,
   40, 0, 0, 0, 171, 170, 170, 42, 1, 0, 0, 0, 1, 0, 24, 0, 0, 0, 0, 0, 0, 0, 0, 0,
   19, 11, 0, 0, 19, 11, 0, 0, 0, 0, 0, 0, 0, 0, 0, 0]

/-! ## Loops, vectors and the per-pixel computation -/


theorem forLoop_inv {σ : Type} (P : Int → σ → Prop) (body : Int → σ → Except ConvError σ) :
    ∀ (n : Nat) (lo : Int) (s : σ), P lo s →
      (∀ i s, lo ≤ i → i < lo + n → P i s → ∃ s', body i s = .ok s' ∧ P (i + 1) s') →
      ∃ s', forLoop n lo body s = .ok s' ∧ P (lo + n) s' := by
  intro n
  induction n with
  | zero => intro lo s h0 _; exact ⟨s, rfl, by simpa using h0⟩
  | succ n ih =>
    intro lo s h0 hstep
    obtain ⟨s1, hb, hP⟩ := hstep lo s (le_refl _) (by push_cast; omega) h0
    obtain ⟨s2, hl, hP2⟩ := ih (lo + 1) s1 hP (fun i t hi1 hi2 hPi =>
      hstep i t (by omega) (by push_cast; omega) hPi)
    refine ⟨s2, ?_, ?_⟩
    · simp only [forLoop, hb, hl]
    · have : lo + ((n + 1 : Nat) : Int) = lo + 1 + n := by push_cast; ring
      rw [this]; exact hP2

theorem forRange_inv {σ : Type} (P : Int → σ → Prop) (body : Int → σ → Except ConvError σ)
    (lo hi : Int) (s : σ) (hle : lo ≤ hi) (h0 : P lo s)
    (hstep : ∀ i s, lo ≤ i → i < hi → P i s → ∃ s', body i s = .ok s' ∧ P (i + 1) s') :
    ∃ s', forRange lo hi body s = .ok s' ∧ P hi s' := by
  have hn : lo + ((hi - lo).toNat : Int) = hi := by omega
  obtain ⟨s', h1, h2⟩ := forLoop_inv P body (hi - lo).toNat lo s h0
    (fun i t h1 h2 h3 => hstep i t h1 (by omega) h3)
  exact ⟨s', h1, by rw [hn] at h2; exact h2⟩

theorem forRange_empty {σ : Type} (body : Int → σ → Except ConvError σ)
    (lo hi : Int) (s : σ) (hle : hi ≤ lo) : forRange lo hi body s = .ok s := by
  have : (hi - lo).toNat = 0 := by omega
  simp [forRange, this, forLoop]

/-- Two loops of the same length whose bodies agree index by index are equal. -/
theorem forLoop_congr {σ : Type} (body body' : Int → σ → Except ConvError σ) :
    ∀ (n : Nat) (lo lo' : Int) (s : σ),
      (∀ k : Int, 0 ≤ k → k < n → ∀ t, body (lo + k) t = body' (lo' + k) t) →
      forLoop n lo body s = forLoop n lo' body' s := by
  intro n
  induction n with
  | zero => intro lo lo' s _; rfl
  | succ n ih =>
    intro lo lo' s h
    have h0 := h 0 (le_refl _) (by push_cast; omega) s
    simp only [add_zero] at h0
    simp only [forLoop, h0]
    cases body' lo' s with
    | error e => rfl
    | ok s1 =>
      simp only
      apply ih
      intro k hk1 hk2 t
      have := h (k + 1) (by omega) (by push_cast; omega) t
      rw [show lo + 1 + k = lo + (k + 1) by ring, show lo' + 1 + k = lo' + (k + 1) by ring]
      exact this

theorem readAt_ok {α : Type} (v : List α) (i : Int) (h0 : 0 ≤ i) (h1 : i.toNat < v.length) :
    readAt v i = .ok (v.get ⟨i.toNat, h1⟩) := by
  unfold readAt
  rw [if_neg (by omega)]
  simp [List.getElem?_eq_getElem h1]

theorem writeAt_ok {α : Type} (v : List α) (i : Int) (a : α) (h0 : 0 ≤ i) (h1 : i.toNat < v.length) :
    writeAt v i a = .ok (v.set i.toNat a) := by
  unfold writeAt
  rw [if_pos ⟨h0, h1⟩]

theorem forLoop_pure {σ : Type} (body : Int → σ → Except ConvError σ) (g : Int → σ → σ) :
    ∀ (n : Nat) (lo : Int) (s : σ),
      (∀ k : Int, 0 ≤ k → k < n → ∀ t, body (lo + k) t = .ok (g (lo + k) t)) →
      forLoop n lo body s
        = .ok ((List.range n).foldl (fun (t : σ) (k : Nat) => g (lo + (k : Int)) t) s) := by
  intro n
  induction n with
  | zero => intro lo s _; rfl
  | succ n ih =>
    intro lo s h
    have h0 := h 0 (le_refl _) (by push_cast; omega) s
    simp only [add_zero] at h0
    have ih' := ih (lo + 1) (g lo s) (fun k hk1 hk2 t => by
      have := h (k + 1) (by omega) (by push_cast; omega) t
      rw [show lo + 1 + k = lo + (k + 1) by ring]
      exact this)
    simp only [forLoop, h0, ih', List.range_succ_eq_map, List.foldl_cons, List.foldl_map]
    simp only [Nat.cast_zero, add_zero, Nat.succ_eq_add_one, Nat.cast_add, Nat.cast_one]
    congr 2
    funext t k
    congr 1
    ring

theorem forRange_pure {σ : Type} (body : Int → σ → Except ConvError σ) (g : Int → σ → σ)
    (hi : Int) (s : σ) (h : ∀ k : Int, 0 ≤ k → k < hi → ∀ t, body k t = .ok (g k t)) :
    forRange 0 hi body s
      = .ok ((List.range hi.toNat).foldl (fun (t : σ) (k : Nat) => g (k : Int) t) s) := by
  unfold forRange
  rw [forLoop_pure body g (hi - 0).toNat 0 s (fun k h1 h2 t => by
    rw [zero_add]; exact h k h1 (by omega) t)]
  simp

theorem pixel_index_bound (w h x y : Int) (hx0 : 0 ≤ x) (hxw : x < w) (hy0 : 0 ≤ y)
    (hyh : y < h) : 0 ≤ y * w + x ∧ y * w + x < w * h := by
  constructor
  · have := mul_nonneg hy0 (by omega : (0 : Int) ≤ w); omega
  · have h1 : (y + 1) * w ≤ h * w := mul_le_mul_of_nonneg_right (by omega) (by omega)
    nlinarith

theorem accumulate_eq (A : DoubleArith) (input : BMPImage) (kernel : List A.F)
    (kernelWidth kernelHeight x y ky kx : Int) (s : Sums A)
    (hdata : (input.data.length : Int) = input.width * input.height * 3)
    (hker : (kernel.length : Int) = kernelWidth * kernelHeight)
    (hw : 0 < kernelWidth) (hh : 0 < kernelHeight)
    (hky0 : 0 ≤ ky) (hky : ky < kernelHeight) (hkx0 : 0 ≤ kx) (hkx : kx < kernelWidth) :
    accumulate A input kernel (x + kx - halfKernelWidth kernelWidth)
        (y + ky - halfKernelHeight kernelHeight) (ky * kernelWidth + kx) s
      = .ok ⟨specTap A input kernel kernelWidth kernelHeight x y 0 ky kx s.sumR,
             specTap A input kernel kernelWidth kernelHeight x y 1 ky kx s.sumG,
             specTap A input kernel kernelWidth kernelHeight x y 2 ky kx s.sumB⟩ := by
  have e1 : halfKernelWidth kernelWidth = kernelWidth / 2 := by
    unfold halfKernelWidth; exact Int.tdiv_eq_ediv (by omega) (by omega)
  have e2 : halfKernelHeight kernelHeight = kernelHeight / 2 := by
    unfold halfKernelHeight; exact Int.tdiv_eq_ediv (by omega) (by omega)
  rw [e1, e2]
  unfold accumulate specTap
  by_cases hin : 0 ≤ x + kx - kernelWidth / 2 ∧ x + kx - kernelWidth / 2 < input.width ∧
      0 ≤ y + ky - kernelHeight / 2 ∧ y + ky - kernelHeight / 2 < input.height
  · obtain ⟨a1, a2, a3, a4⟩ := hin
    have hb := pixel_index_bound input.width input.height _ _ a1 a2 a3 a4
    have hk := pixel_index_bound kernelWidth kernelHeight kx ky hkx0 hkx hky0 hky
    rw [if_neg (by omega)]
    simp only [if_pos (And.intro a1 (And.intro a2 (And.intro a3 a4)))]
    have r : ∀ c : Int, 0 ≤ c → c < 3 →
        readAt input.data
          (((y + ky - kernelHeight / 2) * input.width + (x + kx - kernelWidth / 2)) * 3 + c)
        = .ok (input.data.getD (((y + ky - kernelHeight / 2) * input.width +
            (x + kx - kernelWidth / 2)) * 3 + c).toNat 0) := by
      intro c hc0 hc3
      have hlt : (((y + ky - kernelHeight / 2) * input.width +
            (x + kx - kernelWidth / 2)) * 3 + c).toNat < input.data.length := by omega
      rw [readAt_ok _ _ (by omega) hlt, List.getD_eq_getElem _ _ hlt]
      rfl
    have rk : readAt kernel (ky * kernelWidth + kx)
        = .ok (kernel.getD (ky * kernelWidth + kx).toNat A.zero) := by
      have hlt : (ky * kernelWidth + kx).toNat < kernel.length := by omega
      rw [readAt_ok _ _ (by omega) hlt, List.getD_eq_getElem _ _ hlt]
      rfl
    have r0 := r 0 (by omega) (by omega)
    have r1 := r 1 (by omega) (by omega)
    have r2 := r 2 (by omega) (by omega)
    simp only [r0, r1, r2, rk, bind, Except.bind, pure, Except.pure, Nat.cast_ofNat,
      Nat.cast_zero, Nat.cast_one]
  · rw [if_pos (by omega)]
    simp only [if_neg hin]

theorem foldl_sums {A : DoubleArith} (f0 f1 f2 : Nat → A.F → A.F) (l : List Nat) :
    ∀ s : Sums A,
      l.foldl (fun (t : Sums A) (k : Nat) => (⟨f0 k t.sumR, f1 k t.sumG, f2 k t.sumB⟩ : Sums A)) s
        = ⟨l.foldl (fun a k => f0 k a) s.sumR, l.foldl (fun a k => f1 k a) s.sumG,
           l.foldl (fun a k => f2 k a) s.sumB⟩ := by
  induction l with
  | nil => intro s; rfl
  | cons k l ih => intro s; simp only [List.foldl_cons, ih]

/-- On a well-formed image and kernel the kernel loops of `applyConvolution` succeed and
compute the three accumulations of the specification. -/
theorem kernelLoop_eq (A : DoubleArith) (input : BMPImage) (kernel : List A.F)
    (kernelWidth kernelHeight x y : Int)
    (hdata : (input.data.length : Int) = input.width * input.height * 3)
    (hker : (kernel.length : Int) = kernelWidth * kernelHeight)
    (hw : 0 < kernelWidth) (hh : 0 < kernelHeight) :
    kernelLoop A input kernel kernelWidth kernelHeight (halfKernelWidth kernelWidth)
        (halfKernelHeight kernelHeight) x y
      = .ok (specSums A input kernel kernelWidth kernelHeight x y) := by
  unfold kernelLoop
  rw [forRange_pure _ (fun ky s =>
      (⟨(List.range kernelWidth.toNat).foldl (fun (a : A.F) (kx : Nat) =>
          specTap A input kernel kernelWidth kernelHeight x y 0 ky kx a) s.sumR,
        (List.range kernelWidth.toNat).foldl (fun (a : A.F) (kx : Nat) =>
          specTap A input kernel kernelWidth kernelHeight x y 1 ky kx a) s.sumG,
        (List.range kernelWidth.toNat).foldl (fun (a : A.F) (kx : Nat) =>
          specTap A input kernel kernelWidth kernelHeight x y 2 ky kx a) s.sumB⟩ : Sums A))]
  · refine congrArg Except.ok ?_
    exact foldl_sums
      (fun (ky : Nat) (a : A.F) => (List.range kernelWidth.toNat).foldl (fun (a : A.F)
        (kx : Nat) => specTap A input kernel kernelWidth kernelHeight x y 0 ky kx a) a)
      (fun (ky : Nat) (a : A.F) => (List.range kernelWidth.toNat).foldl (fun (a : A.F)
        (kx : Nat) => specTap A input kernel kernelWidth kernelHeight x y 1 ky kx a) a)
      (fun (ky : Nat) (a : A.F) => (List.range kernelWidth.toNat).foldl (fun (a : A.F)
        (kx : Nat) => specTap A input kernel kernelWidth kernelHeight x y 2 ky kx a) a)
      (List.range kernelHeight.toNat) (Sums.init A)
  · intro ky hky0 hky s
    rw [forRange_pure _ (fun kx s =>
      (⟨specTap A input kernel kernelWidth kernelHeight x y 0 ky kx s.sumR,
        specTap A input kernel kernelWidth kernelHeight x y 1 ky kx s.sumG,
        specTap A input kernel kernelWidth kernelHeight x y 2 ky kx s.sumB⟩ : Sums A))]
    · refine congrArg Except.ok ?_
      exact foldl_sums
        (fun (kx : Nat) (a : A.F) =>
          specTap A input kernel kernelWidth kernelHeight x y 0 ky kx a)
        (fun (kx : Nat) (a : A.F) =>
          specTap A input kernel kernelWidth kernelHeight x y 1 ky kx a)
        (fun (kx : Nat) (a : A.F) =>
          specTap A input kernel kernelWidth kernelHeight x y 2 ky kx a)
        (List.range kernelWidth.toNat) s
    · intro kx hkx0 hkx t
      exact accumulate_eq A input kernel kernelWidth kernelHeight x y ky kx t hdata hker hw hh
        hky0 hky hkx0 hkx

theorem storePixel_spec (A : DoubleArith) (input : BMPImage) (x y : Int) (s : Sums A)
    (out : List Byte) (h0 : 0 ≤ y * input.width + x)
    (h1 : (y * input.width + x) * 3 + 2 < out.length) :
    ∃ out', storePixel A input x y s out = .ok out' ∧ out'.length = out.length ∧
      (∀ c : Nat, c < 3 →
        out'[((y * input.width + x) * 3 + c).toNat]? = some (toChannel A (s.chan c))) ∧
      (∀ j : Nat, ((j : Int) < (y * input.width + x) * 3 ∨
          (y * input.width + x) * 3 + 3 ≤ j) → out'[j]? = out[j]?) := by
  generalize hp : y * input.width + x = p at h0 h1
  have e0 : (p * 3 + 0).toNat = (p * 3).toNat := by omega
  have e1 : (p * 3 + 1).toNat = (p * 3).toNat + 1 := by omega
  have e2 : (p * 3 + 2).toNat = (p * 3).toNat + 2 := by omega
  refine ⟨((out.set (p * 3).toNat (toChannel A s.sumR)).set ((p * 3).toNat + 1)
      (toChannel A s.sumG)).set ((p * 3).toNat + 2) (toChannel A s.sumB), ?_, ?_, ?_, ?_⟩
  · unfold storePixel
    simp only [hp, bind, Except.bind]
    rw [writeAt_ok _ _ _ (by omega) (by omega)]
    simp only
    rw [writeAt_ok _ _ _ (by omega) (by simp only [List.length_set]; omega)]
    simp only
    rw [writeAt_ok _ _ _ (by omega) (by simp only [List.length_set]; omega)]
    rw [e0, e1, e2]
  · simp only [List.length_set]
  · intro c hc
    have hcases : c = 0 ∨ c = 1 ∨ c = 2 := by omega
    have hl : (p * 3).toNat + 2 < out.length := by omega
    rcases hcases with rfl | rfl | rfl
    · rw [show (p * 3 + ((0 : Nat) : Int)).toNat = (p * 3).toNat by omega]
      rw [List.getElem?_set_ne (by omega), List.getElem?_set_ne (by omega),
        List.getElem?_set_self (by omega)]
      rfl
    · rw [show (p * 3 + ((1 : Nat) : Int)).toNat = (p * 3).toNat + 1 by omega]
      rw [List.getElem?_set_ne (by omega),
        List.getElem?_set_self (by simp only [List.length_set]; omega)]
      rfl
    · rw [show (p * 3 + ((2 : Nat) : Int)).toNat = (p * 3).toNat + 2 by omega]
      rw [List.getElem?_set_self (by simp only [List.length_set]; omega)]
      rfl
  · intro j hj
    rw [List.getElem?_set_ne (by omega), List.getElem?_set_ne (by omega),
      List.getElem?_set_ne (by omega)]

theorem lex_index_lt (w x x' y y' : Int) (hx'0 : 0 ≤ x') (hx'w : x' < w) (hx0 : 0 ≤ x)
    (h : y' < y ∨ (y' = y ∧ x' < x)) : y' * w + x' < y * w + x := by
  rcases h with h | ⟨rfl, h⟩
  · have h1 : (y' + 1) * w ≤ y * w := mul_le_mul_of_nonneg_right (by omega) (by omega)
    nlinarith
  · omega

/-- The pixel loops over the rows `[lo, hi)`: when the per-pixel computation `pix` succeeds
with the accumulators `v x y`, the loops succeed, keep the buffer length, store the three
channel bytes of every pixel of these rows, and leave every other byte as it was. -/
theorem pixelRows_spec (A : DoubleArith) (input : BMPImage)
    (pix : Int → Int → Except ConvError (Sums A)) (v : Int → Int → Sums A)
    (lo hi : Int) (data : List Byte)
    (hw : 0 ≤ input.width) (hlo : 0 ≤ lo) (hlh : lo ≤ hi) (hhi : hi ≤ input.height)
    (hlen : (data.length : Int) = input.width * input.height * 3)
    (hpix : ∀ x y, 0 ≤ x → x < input.width → lo ≤ y → y < hi → pix x y = .ok (v x y)) :
    ∃ out,
      forRange lo hi (fun y out =>
        forRange 0 input.width (fun x out => do
          let s ← pix x y
          storePixel A input x y s out) out) data = .ok out ∧
      out.length = data.length ∧
      (∀ (x y : Int) (c : Nat), 0 ≤ x → x < input.width → lo ≤ y → y < hi → c < 3 →
        out[((y * input.width + x) * 3 + c).toNat]? = some (toChannel A ((v x y).chan c))) ∧
      (∀ j : Nat, ((j : Int) < lo * input.width * 3 ∨ hi * input.width * 3 ≤ j) →
        out[j]? = data[j]?) := by
  obtain ⟨out, h1, h2, h3, h4⟩ := forRange_inv
    (fun (y : Int) (out : List Byte) => out.length = data.length ∧
      (∀ (x' y' : Int) (c : Nat), 0 ≤ x' → x' < input.width → lo ≤ y' → y' < y → c < 3 →
        out[((y' * input.width + x') * 3 + c).toNat]?
          = some (toChannel A ((v x' y').chan c))) ∧
      (∀ j : Nat, ((j : Int) < lo * input.width * 3 ∨ y * input.width * 3 ≤ j) →
        out[j]? = data[j]?))
    (fun y out =>
        forRange 0 input.width (fun x out => do
          let s ← pix x y
          storePixel A input x y s out) out)
    lo hi data hlh
    ⟨rfl, fun x' y' c _ _ h1 h2 _ => absurd h1 (by omega), fun j _ => rfl⟩
    (fun y out0 hy1 hy2 hQ => by
      obtain ⟨q1, q2, q3⟩ := hQ
      obtain ⟨out1, r0, r1, r2, r3⟩ := forRange_inv
        (fun (x : Int) (out : List Byte) => out.length = data.length ∧
          (∀ (x' y' : Int) (c : Nat), 0 ≤ x' → x' < input.width → lo ≤ y' →
            (y' < y ∨ (y' = y ∧ x' < x)) → c < 3 →
            out[((y' * input.width + x') * 3 + c).toNat]?
              = some (toChannel A ((v x' y').chan c))) ∧
          (∀ j : Nat, ((j : Int) < lo * input.width * 3 ∨
              (y * input.width + x) * 3 ≤ j) → out[j]? = data[j]?))
        (fun x out => do
          let s ← pix x y
          storePixel A input x y s out)
        0 input.width out0 hw
        ⟨q1, fun x' y' c a1 a2 a3 a4 a5 => by
            rcases a4 with a4 | ⟨_, a4⟩
            · exact q2 x' y' c a1 a2 a3 a4 a5
            · omega,
          fun j hj => q3 j (by
            rcases hj with hj | hj
            · exact Or.inl hj
            · right
              have : (y * input.width + 0) * 3 = y * input.width * 3 := by ring
              omega)⟩
        (fun x out hx1 hx2 hR => by
          obtain ⟨s1, s2, s3⟩ := hR
          have hb := pixel_index_bound input.width input.height x y hx1 hx2 (by omega)
            (by omega)
          have hlen' : (y * input.width + x) * 3 + 2 < out.length := by
            have : ((out.length : Nat) : Int) = input.width * input.height * 3 := by
              rw [s1]; exact hlen
            omega
          obtain ⟨out', t0, t1, t2, t3⟩ := storePixel_spec A input x y (v x y) out hb.1 hlen'
          refine ⟨out', ?_, ?_, ?_, ?_⟩
          · simp only [hpix x y hx1 hx2 hy1 hy2, bind, Except.bind]
            exact t0
          · rw [t1, s1]
          · intro x' y' c a1 a2 a3 a4 a5
            by_cases hsame : y' = y ∧ x' = x
            · obtain ⟨rfl, rfl⟩ := hsame
              exact t2 c a5
            · have hlt : y' * input.width + x' < y * input.width + x :=
                lex_index_lt input.width x x' y y' a1 a2 hx1 (by omega)
              have hlo' : 0 ≤ y' * input.width + x' := by
                have := mul_nonneg (by omega : (0 : Int) ≤ y') hw
                omega
              rw [t3 _ (by left; omega)]
              exact s2 x' y' c a1 a2 a3 (by omega) a5
          · intro j hj
            have hge : lo * input.width ≤ y * input.width :=
              mul_le_mul_of_nonneg_right hy1 hw
            rw [t3 j (by
              rcases hj with hj | hj
              · left; omega
              · right
                have : (y * input.width + (x + 1)) * 3 = (y * input.width + x) * 3 + 3 := by
                  ring
                omega)]
            exact s3 j (by
              rcases hj with hj | hj
              · exact Or.inl hj
              · right
                have : (y * input.width + (x + 1)) * 3 = (y * input.width + x) * 3 + 3 := by
                  ring
                omega))
      refine ⟨out1, r0, r1, ?_, ?_⟩
      · intro x' y' c a1 a2 a3 a4 a5
        exact r2 x' y' c a1 a2 a3 (by omega) a5
      · intro j hj
        exact r3 j (by
          rcases hj with hj | hj
          · exact Or.inl hj
          · right
            have : (y * input.width + input.width) * 3 = (y + 1) * input.width * 3 := by ring
            omega))
  exact ⟨out, h1, h2, h3, h4⟩

theorem specSums_chan (A : DoubleArith) (input : BMPImage) (kernel : List A.F)
    (kernelWidth kernelHeight x y : Int) (c : Nat) (hc : c < 3) :
    (specSums A input kernel kernelWidth kernelHeight x y).chan c
      = specSum A input kernel kernelWidth kernelHeight x y c := by
  have hcases : c = 0 ∨ c = 1 ∨ c = 2 := by omega
  rcases hcases with rfl | rfl | rfl <;> rfl

theorem resize_ok (n : Int) (hn : 0 ≤ n) : resize n = .ok (List.replicate n.toNat 0) := by
  unfold resize
  rw [if_neg (by omega)]

theorem wrapInt_eq (n : Int) (h1 : -2147483648 ≤ n) (h2 : n < 2147483648) : wrapInt n = n := by
  unfold wrapInt
  omega

theorem wrapInt_range (n : Int) : -2147483648 ≤ wrapInt n ∧ wrapInt n < 2147483648 := by
  unfold wrapInt
  omega

theorem toSizeT_eq (n : Int) (h1 : 0 ≤ n) (h2 : n < 18446744073709551616) : toSizeT n = n := by
  unfold toSizeT
  omega

/-- When the product `kernelWidth * kernelHeight` fits an `int`, the size check passes on a
kernel of that many coefficients. -/
theorem sizeCheck_fits (n : Nat) (kernelWidth kernelHeight : Int)
    (hkw : 0 < kernelWidth) (hkh : 0 < kernelHeight)
    (hfit : kernelWidth * kernelHeight < 2147483648)
    (hker : (n : Int) = kernelWidth * kernelHeight) :
    (n : Int) = toSizeT (wrapInt (kernelWidth * kernelHeight)) := by
  have hp : 0 < kernelWidth * kernelHeight := mul_pos hkw hkh
  rw [wrapInt_eq _ (by omega) hfit, toSizeT_eq _ (by omega) (by omega)]
  exact hker

/-- On a well-formed image and kernel `applyConvolution` returns an image of the input's
dimensions whose bytes are the clamped, rounded accumulations of the specification. -/
theorem applyConvolution_ok (A : DoubleArith) (input : BMPImage) (kernel : List A.F)
    (kernelWidth kernelHeight : Int)
    (hw : 0 ≤ input.width) (hh : 0 ≤ input.height)
    (hdata : (input.data.length : Int) = input.width * input.height * 3)
    (hkw : 0 < kernelWidth) (hkh : 0 < kernelHeight)
    (hker : (kernel.length : Int) = kernelWidth * kernelHeight)
    (hpass : (kernel.length : Int) = toSizeT (wrapInt (kernelWidth * kernelHeight))) :
    ∃ data, applyConvolution A input kernel kernelWidth kernelHeight
        = .ok ⟨input.width, input.height, data⟩ ∧
      (data.length : Int) = input.width * input.height * 3 ∧
      ∀ (x y : Int) (c : Nat), 0 ≤ x → x < input.width → 0 ≤ y → y < input.height → c < 3 →
        data[((y * input.width + x) * 3 + c).toNat]?
          = some (toChannel A (specSum A input kernel kernelWidth kernelHeight x y c)) := by
  have hn : 0 ≤ input.width * input.height * 3 := by
    have := mul_nonneg hw hh; omega
  obtain ⟨out, h1, h2, h3, _⟩ := pixelRows_spec A input
    (fun x y => kernelLoop A input kernel kernelWidth kernelHeight
      (halfKernelWidth kernelWidth) (halfKernelHeight kernelHeight) x y)
    (fun x y => specSums A input kernel kernelWidth kernelHeight x y)
    0 input.height (List.replicate (input.width * input.height * 3).toNat 0)
    hw (le_refl _) hh (le_refl _)
    (by rw [List.length_replicate]; omega)
    (fun x y _ _ _ _ => kernelLoop_eq A input kernel kernelWidth kernelHeight x y hdata hker
      hkw hkh)
  refine ⟨out, ?_, ?_, ?_⟩
  · unfold applyConvolution
    rw [if_neg (not_not.mpr hpass)]
    simp only [bind, Except.bind] at h1
    simp only [resize_ok _ hn, bind, Except.bind, pure, Except.pure]
    rw [h1]
  · rw [h2, List.length_replicate]; omega
  · intro x y c a1 a2 a3 a4 a5
    rw [h3 x y c a1 a2 a3 a4 a5, specSums_chan _ _ _ _ _ _ _ _ a5]

/-- Every index of a `width*height*3` buffer is the index of a channel of a pixel: two such
buffers that agree on every channel of every pixel are equal. -/
theorem data_ext (w h : Int) (l1 l2 : List Byte) (hw : 0 ≤ w)
    (h1 : (l1.length : Int) = w * h * 3) (h2 : (l2.length : Int) = w * h * 3)
    (hall : ∀ (x y : Int) (c : Nat), 0 ≤ x → x < w → 0 ≤ y → y < h → c < 3 →
      l1[((y * w + x) * 3 + c).toNat]? = l2[((y * w + x) * 3 + c).toNat]?) : l1 = l2 := by
  apply List.ext_getElem?
  intro n
  by_cases hn : n < l1.length
  · have hn' : (n : Int) < w * h * 3 := by omega
    have hwpos : 0 < w := by
      rcases eq_or_lt_of_le hw with h0 | h0
      · rw [← h0] at hn'; simp only [zero_mul] at hn'; omega
      · exact h0
    have hp : ((n : Int) / 3) < w * h := by omega
    have hp0 : 0 ≤ ((n : Int) / 3) := by omega
    have hx0 : 0 ≤ ((n : Int) / 3) % w := Int.emod_nonneg _ (by omega)
    have hxw : ((n : Int) / 3) % w < w := Int.emod_lt_of_pos _ hwpos
    have hy0 : 0 ≤ ((n : Int) / 3) / w := Int.ediv_nonneg hp0 hw
    have hyh : ((n : Int) / 3) / w < h := by
      apply Int.ediv_lt_of_lt_mul hwpos
      rw [mul_comm]; exact hp
    have hdecomp : ((n : Int) / 3) / w * w + ((n : Int) / 3) % w = (n : Int) / 3 := by
      rw [mul_comm]; exact Int.ediv_add_emod _ _
    have key := hall (((n : Int) / 3) % w) (((n : Int) / 3) / w) (n % 3) hx0 hxw hy0 hyh
      (Nat.mod_lt _ (by omega))
    rw [hdecomp] at key
    have e : ((n : Int) / 3 * 3 + ((n % 3 : Nat) : Int)).toNat = n := by omega
    rw [e] at key
    exact key
  · have hn2 : ¬ n < l2.length := by omega
    rw [List.getElem?_eq_none (by omega), List.getElem?_eq_none (by omega)]

/-- For a kernel of odd positive width and height the centred kernel loops of
`applyParallelConvolution` visit the taps of `applyConvolution` in the same order. -/
theorem kernelLoopCentered_eq_kernelLoop (A : DoubleArith) (input : BMPImage)
    (kernel : List A.F) (kernelWidth kernelHeight x y : Int)
    (hkw : 0 < kernelWidth) (hkh : 0 < kernelHeight)
    (hwodd : kernelWidth % 2 = 1) (hhodd : kernelHeight % 2 = 1) :
    kernelLoopCentered A input kernel kernelWidth (kernelWidth.tdiv 2) (kernelHeight.tdiv 2)
        x y
      = kernelLoop A input kernel kernelWidth kernelHeight (halfKernelWidth kernelWidth)
          (halfKernelHeight kernelHeight) x y := by
  have e1 : kernelWidth.tdiv 2 = kernelWidth / 2 := Int.tdiv_eq_ediv (by omega) (by omega)
  have e2 : kernelHeight.tdiv 2 = kernelHeight / 2 := Int.tdiv_eq_ediv (by omega) (by omega)
  unfold kernelLoopCentered kernelLoop halfKernelWidth halfKernelHeight forRange
  rw [e1, e2]
  have n1 : (kernelHeight / 2 + 1 - -(kernelHeight / 2)).toNat = (kernelHeight - 0).toNat := by
    omega
  have n2 : (kernelWidth / 2 + 1 - -(kernelWidth / 2)).toNat = (kernelWidth - 0).toNat := by
    omega
  rw [n1, n2]
  apply forLoop_congr
  intro ky _ _ s
  apply forLoop_congr
  intro kx _ _ t
  simp only
  congr 1
  · ring
  · ring
  · ring

/-- For a kernel of odd positive width and height `applyParallelConvolution` and
`applyConvolution` are the same function of the image and the coefficients. -/
theorem applyParallelConvolution_eq_of_odd (A : DoubleArith) (input : BMPImage)
    (kernel : List A.F) (kernelWidth kernelHeight : Int)
    (hkw : 0 < kernelWidth) (hkh : 0 < kernelHeight)
    (hwodd : kernelWidth % 2 = 1) (hhodd : kernelHeight % 2 = 1) :
    applyParallelConvolution A input kernel kernelWidth kernelHeight
      = applyConvolution A input kernel kernelWidth kernelHeight := by
  unfold applyParallelConvolution applyConvolution
  simp only [kernelLoopCentered_eq_kernelLoop A input kernel kernelWidth kernelHeight _ _
    hkw hkh hwodd hhodd]

/-- With the 1x1 kernel `{k}` the accumulation of a pixel inside the image is the single
term `0.0 + pixel * k`. -/
theorem specSum_one_by_one (A : DoubleArith) (input : BMPImage) (k : A.F) (x y : Int)
    (c : Nat) (hx0 : 0 ≤ x) (hxw : x < input.width) (hy0 : 0 ≤ y) (hyh : y < input.height) :
    specSum A input [k] 1 1 x y c
      = A.add A.zero (A.mul
          (A.ofByte (input.data.getD ((y * input.width + x) * 3 + c).toNat 0)) k) := by
  unfold specSum
  have e : (1 : Int).toNat = 1 := rfl
  have e' : List.range 1 = [0] := rfl
  rw [e, e']
  simp only [List.foldl_cons, List.foldl_nil]
  unfold specTap
  simp only [Nat.cast_zero, add_zero, Int.reduceDiv, sub_zero, zero_mul, Int.toNat_zero]
  rw [if_pos ⟨hx0, hxw, hy0, hyh⟩]
  rfl

theorem clampByte_cases (r : Int) :
    (255 ≤ r → (clampByte r).val = 255) ∧ (r ≤ 0 → (clampByte r).val = 0) ∧
      (0 < r → r < 255 → ((clampByte r).val : Int) = r) := by
  unfold clampByte
  refine ⟨fun h => ?_, fun h => ?_, fun h1 h2 => ?_⟩
  · show (min (max r 0) 255).toNat = 255
    omega
  · show (min (max r 0) 255).toNat = 0
    omega
  · show (((min (max r 0) 255).toNat : Nat) : Int) = r
    omega

theorem bind_ne_error {α β : Type} (e : ConvError) (x : Except ConvError α)
    (f : α → Except ConvError β) (hx : x ≠ .error e) (hf : ∀ a, f a ≠ .error e) :
    (x >>= f) ≠ .error e := by
  cases x with
  | error e' =>
    intro h
    simp only [bind, Except.bind] at h
    exact hx (congrArg Except.error (Except.error.inj h))
  | ok a => exact hf a

theorem forLoop_ne_error {σ : Type} (e : ConvError) (body : Int → σ → Except ConvError σ)
    (hb : ∀ i s, body i s ≠ .error e) :
    ∀ (n : Nat) (lo : Int) (s : σ), forLoop n lo body s ≠ .error e := by
  intro n
  induction n with
  | zero => intro lo s h; cases h
  | succ n ih =>
    intro lo s
    unfold forLoop
    have := hb lo s
    cases hbs : body lo s with
    | error e' =>
      rw [hbs] at this
      exact this
    | ok s' => exact ih (lo + 1) s'

theorem forRange_ne_error {σ : Type} (e : ConvError) (body : Int → σ → Except ConvError σ)
    (hb : ∀ i s, body i s ≠ .error e) (lo hi : Int) (s : σ) :
    forRange lo hi body s ≠ .error e :=
  forLoop_ne_error e body hb _ lo s

theorem readAt_ne_invalid {α : Type} (v : List α) (i : Int) :
    readAt v i ≠ .error .invalidKernel := by
  unfold readAt
  split
  · intro h; cases h
  · split <;> intro h <;> cases h

theorem writeAt_ne_invalid {α : Type} (v : List α) (i : Int) (a : α) :
    writeAt v i a ≠ .error .invalidKernel := by
  unfold writeAt
  split <;> intro h <;> cases h

theorem resize_ne_invalid (n : Int) : resize n ≠ .error .invalidKernel := by
  unfold resize
  split <;> intro h <;> cases h

theorem accumulate_ne_invalid (A : DoubleArith) (input : BMPImage) (kernel : List A.F)
    (imageX imageY kIndex : Int) (s : Sums A) :
    accumulate A input kernel imageX imageY kIndex s ≠ .error .invalidKernel := by
  unfold accumulate
  split
  · intro h; cases h
  · refine bind_ne_error _ _ _ (readAt_ne_invalid _ _) (fun _ => ?_)
    refine bind_ne_error _ _ _ (readAt_ne_invalid _ _) (fun _ => ?_)
    refine bind_ne_error _ _ _ (readAt_ne_invalid _ _) (fun _ => ?_)
    refine bind_ne_error _ _ _ (readAt_ne_invalid _ _) (fun _ => ?_)
    intro h; cases h

theorem storePixel_ne_invalid (A : DoubleArith) (input : BMPImage) (x y : Int) (s : Sums A)
    (out : List Byte) : storePixel A input x y s out ≠ .error .invalidKernel := by
  unfold storePixel
  refine bind_ne_error _ _ _ (writeAt_ne_invalid _ _ _) (fun _ => ?_)
  refine bind_ne_error _ _ _ (writeAt_ne_invalid _ _ _) (fun _ => ?_)
  exact writeAt_ne_invalid _ _ _

theorem kernelLoop_ne_invalid (A : DoubleArith) (input : BMPImage) (kernel : List A.F)
    (kernelWidth kernelHeight halfW halfH x y : Int) :
    kernelLoop A input kernel kernelWidth kernelHeight halfW halfH x y
      ≠ .error .invalidKernel := by
  unfold kernelLoop
  refine forRange_ne_error _ _ (fun ky s => ?_) _ _ _
  exact forRange_ne_error _ _ (fun kx t => accumulate_ne_invalid _ _ _ _ _ _ _) _ _ _

theorem kernelLoopCentered_ne_invalid (A : DoubleArith) (input : BMPImage)
    (kernel : List A.F) (kernelWidth halfW halfH x y : Int) :
    kernelLoopCentered A input kernel kernelWidth halfW halfH x y
      ≠ .error .invalidKernel := by
  unfold kernelLoopCentered
  refine forRange_ne_error _ _ (fun ky s => ?_) _ _ _
  exact forRange_ne_error _ _ (fun kx t => accumulate_ne_invalid _ _ _ _ _ _ _) _ _ _

theorem pixelRows_ne_invalid (A : DoubleArith) (input : BMPImage)
    (pix : Int → Int → Except ConvError (Sums A))
    (hpix : ∀ x y, pix x y ≠ .error .invalidKernel) (lo hi : Int) (data : List Byte) :
    forRange lo hi (fun y out =>
      forRange 0 input.width (fun x out => do
        let s ← pix x y
        storePixel A input x y s out) out) data ≠ .error .invalidKernel := by
  refine forRange_ne_error _ _ (fun y s => ?_) _ _ _
  refine forRange_ne_error _ _ (fun x t => ?_) _ _ _
  exact bind_ne_error _ _ _ (hpix x y) (fun _ => storePixel_ne_invalid _ _ _ _ _ _)

theorem mpiSend_ne_invalid (buf : List Byte) (offset count : Int) :
    mpiSend buf offset count ≠ .error .invalidKernel := by
  unfold mpiSend
  split
  · intro h; cases h
  · split <;> intro h <;> cases h

theorem mpiRecv_ne_invalid (buf : List Byte) (offset count : Int) (msg : Option (List Byte)) :
    mpiRecv buf offset count msg ≠ .error .invalidKernel := by
  unfold mpiRecv
  cases msg with
  | none => intro h; cases h
  | some m =>
    simp only
    split
    · intro h; cases h
    · split <;> intro h <;> cases h

/-- Facts on the row partition used throughout: with `q = height / size`, `q` is
non-negative and `size * q <= height`. -/
theorem rowsPerProcess_bounds (height size : Int) (hh : 0 ≤ height) (hs : 1 ≤ size) :
    rowsPerProcess height size = height / size ∧ 0 ≤ rowsPerProcess height size ∧
      size * rowsPerProcess height size ≤ height := by
  have e : rowsPerProcess height size = height / size := by
    unfold rowsPerProcess
    exact Int.tdiv_eq_ediv hh (by omega)
  refine ⟨e, ?_, ?_⟩
  · rw [e]; exact Int.ediv_nonneg hh (by omega)
  · rw [e]; exact Int.mul_ediv_self_le (by omega)

theorem block_bounds (height size r : Int) (hh : 0 ≤ height) (hs : 1 ≤ size)
    (hr0 : 0 ≤ r) (hr : r < size) :
    0 ≤ startRow height size r ∧ startRow height size r ≤ endRow height size r ∧
      endRow height size r ≤ height := by
  obtain ⟨_, hq0, hq⟩ := rowsPerProcess_bounds height size hh hs
  unfold endRow startRow
  generalize rowsPerProcess height size = q at hq0 hq
  have h1 : 0 ≤ r * q := mul_nonneg hr0 hq0
  by_cases hl : r = size - 1
  · rw [if_pos hl]
    have : r * q + q = size * q := by rw [hl]; ring
    omega
  · rw [if_neg hl]
    have h2 : (r + 1) * q ≤ size * q := mul_le_mul_of_nonneg_right (by omega) hq0
    have : (r + 1) * q = r * q + q := by ring
    omega

/-- Every buffer index inside the rows `[lo, hi)` is the index of a channel of a pixel of
these rows. -/
theorem rows_ext (w lo hi : Int) (l1 l2 : List Byte) (hw : 0 ≤ w)
    (hall : ∀ (x y : Int) (c : Nat), 0 ≤ x → x < w → lo ≤ y → y < hi → c < 3 →
      l1[((y * w + x) * 3 + c).toNat]? = l2[((y * w + x) * 3 + c).toNat]?) :
    ∀ j : Nat, lo * w * 3 ≤ (j : Int) → (j : Int) < hi * w * 3 → l1[j]? = l2[j]? := by
  intro n hn1 hn2
  have hwpos : 0 < w := by
    rcases eq_or_lt_of_le hw with h0 | h0
    · rw [← h0] at hn1 hn2; simp only [mul_zero, zero_mul] at hn1 hn2; omega
    · exact h0
  have hp1 : lo * w ≤ (n : Int) / 3 := by omega
  have hp2 : (n : Int) / 3 < hi * w := by omega
  have hp0 : 0 ≤ ((n : Int) / 3) := by omega
  have hx0 : 0 ≤ ((n : Int) / 3) % w := Int.emod_nonneg _ (by omega)
  have hxw : ((n : Int) / 3) % w < w := Int.emod_lt_of_pos _ hwpos
  have hy1 : lo ≤ ((n : Int) / 3) / w := Int.le_ediv_of_mul_le hwpos hp1
  have hy2 : ((n : Int) / 3) / w < hi := Int.ediv_lt_of_lt_mul hwpos hp2
  have hdecomp : ((n : Int) / 3) / w * w + ((n : Int) / 3) % w = (n : Int) / 3 := by
    rw [mul_comm]; exact Int.ediv_add_emod _ _
  have key := hall (((n : Int) / 3) % w) (((n : Int) / 3) / w) (n % 3) hx0 hxw hy1 hy2
    (Nat.mod_lt _ (by omega))
  rw [hdecomp] at key
  have e : ((n : Int) / 3 * 3 + ((n % 3 : Nat) : Int)).toNat = n := by omega
  rw [e] at key
  exact key

/-- The rows `[startRow, endRow)` computed by the process `rank`, from the zeroed buffer:
the loops succeed, and on these rows the buffer holds the channel bytes of the
specification. -/
theorem local_block (A : DoubleArith) (input : BMPImage) (kernel : List A.F)
    (kernelWidth kernelHeight size rank : Int)
    (hw : 0 ≤ input.width) (hh : 0 ≤ input.height)
    (hdata : (input.data.length : Int) = input.width * input.height * 3)
    (hkw : 0 < kernelWidth) (hkh : 0 < kernelHeight)
    (hker : (kernel.length : Int) = kernelWidth * kernelHeight)
    (hs : 1 ≤ size) (hr0 : 0 ≤ rank) (hr : rank < size) :
    ∃ out,
      forRange (startRow input.height size rank) (endRow input.height size rank)
        (fun y out =>
          forRange 0 input.width (fun x out => do
            let s ← kernelLoop A input kernel kernelWidth kernelHeight
              (kernelWidth.tdiv 2) (kernelHeight.tdiv 2) x y
            storePixel A input x y s out) out)
        (List.replicate (input.width * input.height * 3).toNat 0) = .ok out ∧
      (out.length : Int) = input.width * input.height * 3 ∧
      (∀ (x y : Int) (c : Nat), 0 ≤ x → x < input.width →
        startRow input.height size rank ≤ y → y < endRow input.height size rank → c < 3 →
        out[((y * input.width + x) * 3 + c).toNat]?
          = some (toChannel A (specSum A input kernel kernelWidth kernelHeight x y c))) := by
  have hn : 0 ≤ input.width * input.height * 3 := by
    have := mul_nonneg hw hh; omega
  obtain ⟨b1, b2, b3⟩ := block_bounds input.height size rank hh hs hr0 hr
  obtain ⟨out, h1, h2, h3, _⟩ := pixelRows_spec A input
    (fun x y => kernelLoop A input kernel kernelWidth kernelHeight
      (kernelWidth.tdiv 2) (kernelHeight.tdiv 2) x y)
    (fun x y => specSums A input kernel kernelWidth kernelHeight x y)
    (startRow input.height size rank) (endRow input.height size rank)
    (List.replicate (input.width * input.height * 3).toNat 0)
    hw b1 b2 b3
    (by rw [List.length_replicate]; omega)
    (fun x y _ _ _ _ => kernelLoop_eq A input kernel kernelWidth kernelHeight x y hdata hker
      hkw hkh)
  refine ⟨out, h1, ?_, ?_⟩
  · rw [h2, List.length_replicate]; omega
  · intro x y c a1 a2 a3 a4 a5
    rw [h3 x y c a1 a2 a3 a4 a5, specSums_chan _ _ _ _ _ _ _ _ a5]

theorem mpiSend_spec (buf : List Byte) (offset count : Int) (ho : 0 ≤ offset)
    (hc : 0 ≤ count) (hb : offset + count ≤ buf.length) :
    ∃ m, mpiSend buf offset count = .ok m ∧ (m.length : Int) = count ∧
      ∀ k : Nat, (k : Int) < count → m[k]? = buf[offset.toNat + k]? := by
  refine ⟨(buf.drop offset.toNat).take count.toNat, ?_, ?_, ?_⟩
  · unfold mpiSend
    rw [if_neg (by omega), if_neg (by omega)]
  · rw [List.length_take, List.length_drop]; omega
  · intro k hk
    rw [List.getElem?_take, if_pos (by omega), List.getElem?_drop]

theorem mpiRecv_spec (buf m : List Byte) (offset count : Int) (ho : 0 ≤ offset)
    (hm : (m.length : Int) = count) (hb : offset + count ≤ buf.length) :
    ∃ out, mpiRecv buf offset count (some m) = .ok out ∧ out.length = buf.length ∧
      (∀ j : Nat, (j : Int) < offset → out[j]? = buf[j]?) ∧
      (∀ k : Nat, (k : Int) < count → out[offset.toNat + k]? = m[k]?) := by
  refine ⟨buf.take offset.toNat ++ m ++ buf.drop (offset.toNat + m.length), ?_, ?_, ?_, ?_⟩
  · unfold mpiRecv
    simp only
    rw [if_neg (by omega), if_neg (by omega)]
  · simp only [List.length_append, List.length_take, List.length_drop]; omega
  · intro j hj
    have hl : (buf.take offset.toNat).length = offset.toNat := by
      rw [List.length_take]; omega
    rw [List.append_assoc, List.getElem?_append_left (by omega), List.getElem?_take,
      if_pos (by omega)]
  · intro k hk
    have hl : (buf.take offset.toNat).length = offset.toNat := by
      rw [List.length_take]; omega
    rw [List.append_assoc, List.getElem?_append_right (by omega), hl,
      List.getElem?_append_left (by omega)]
    congr 1
    omega

theorem endRow_eq_startRow_succ (height size r : Int) (hr : r < size - 1) :
    endRow height size r = startRow height size (r + 1) := by
  unfold endRow startRow
  rw [if_neg (by omega)]
  ring

theorem block_offsets (w height size r : Int) (hw : 0 ≤ w) (hh : 0 ≤ height) (hs : 1 ≤ size)
    (hr0 : 0 ≤ r) (hr : r < size) :
    0 ≤ startRow height size r * w * 3 ∧
      0 ≤ (endRow height size r - startRow height size r) * w * 3 ∧
      startRow height size r * w * 3
        + (endRow height size r - startRow height size r) * w * 3
          = endRow height size r * w * 3 ∧
      endRow height size r * w * 3 ≤ w * height * 3 := by
  obtain ⟨b1, b2, b3⟩ := block_bounds height size r hh hs hr0 hr
  have h1 : 0 ≤ startRow height size r * w := mul_nonneg b1 hw
  have h2 : 0 ≤ (endRow height size r - startRow height size r) * w :=
    mul_nonneg (by omega) hw
  have h3 : endRow height size r * w ≤ height * w := mul_le_mul_of_nonneg_right b3 hw
  refine ⟨by omega, by omega, by ring, ?_⟩
  have : w * height = height * w := mul_comm _ _
  omega

/-- A process of rank `1 <= rank < size` returns normally and sends the bytes that the
rows `[startRow, endRow)` have in any buffer `ref` holding the channel bytes of the
specification. -/
theorem worker_result (A : DoubleArith) (input : BMPImage) (kernel : List A.F)
    (kernelWidth kernelHeight size rank : Int) (inbox : Int → Option (List Byte))
    (ref : List Byte)
    (hw : 0 ≤ input.width) (hh : 0 ≤ input.height)
    (hdata : (input.data.length : Int) = input.width * input.height * 3)
    (hkw : 0 < kernelWidth) (hkh : 0 < kernelHeight)
    (hker : (kernel.length : Int) = kernelWidth * kernelHeight)
    (hpass : (kernel.length : Int) = toSizeT (wrapInt (kernelWidth * kernelHeight)))
    (hs : 1 ≤ size) (hr1 : 1 ≤ rank) (hr : rank < size)
    (href : ∀ (x y : Int) (c : Nat), 0 ≤ x → x < input.width → 0 ≤ y → y < input.height →
      c < 3 → ref[((y * input.width + x) * 3 + c).toNat]?
        = some (toChannel A (specSum A input kernel kernelWidth kernelHeight x y c))) :
    ∃ out m, applyDistributedParallelConvolution A rank size inbox input kernel kernelWidth
        kernelHeight = .ok (⟨input.width, input.height, out⟩, some m) ∧
      (out.length : Int) = input.width * input.height * 3 ∧
      (m.length : Int)
        = (endRow input.height size rank - startRow input.height size rank)
            * input.width * 3 ∧
      ∀ k : Nat, (k : Int) < (endRow input.height size rank
          - startRow input.height size rank) * input.width * 3 →
        m[k]? = ref[(startRow input.height size rank * input.width * 3).toNat + k]? := by
  have hn : 0 ≤ input.width * input.height * 3 := by
    have := mul_nonneg hw hh; omega
  obtain ⟨out, l1, l2, l3⟩ := local_block A input kernel kernelWidth kernelHeight size rank
    hw hh hdata hkw hkh hker hs (by omega) hr
  obtain ⟨b1, b2, b3⟩ := block_bounds input.height size rank hh hs (by omega) hr
  obtain ⟨o1, o2, o3, o4⟩ := block_offsets input.width input.height size rank hw hh hs
    (by omega) hr
  obtain ⟨m, m1, m2, m3⟩ := mpiSend_spec out
    (startRow input.height size rank * input.width * 3)
    ((endRow input.height size rank - startRow input.height size rank) * input.width * 3)
    o1 o2 (by omega)
  refine ⟨out, m, ?_, l2, m2, ?_⟩
  · unfold applyDistributedParallelConvolution
    rw [if_neg (not_not.mpr hpass)]
    simp only [bind, Except.bind] at l1
    simp only [resize_ok _ hn, bind, Except.bind, pure, Except.pure]
    rw [l1]
    simp only
    rw [if_pos (by omega), m1]
  · intro k hk
    rw [m3 k hk]
    apply rows_ext input.width (startRow input.height size rank)
      (endRow input.height size rank) out ref hw
    · intro x y c a1 a2 a3 a4 a5
      rw [l3 x y c a1 a2 a3 a4 a5, href x y c a1 a2 (by omega) (by omega) a5]
    · push_cast; omega
    · push_cast; omega

theorem sentBy_spec (A : DoubleArith) (input : BMPImage) (kernel : List A.F)
    (kernelWidth kernelHeight size rank : Int) (ref : List Byte)
    (hw : 0 ≤ input.width) (hh : 0 ≤ input.height)
    (hdata : (input.data.length : Int) = input.width * input.height * 3)
    (hkw : 0 < kernelWidth) (hkh : 0 < kernelHeight)
    (hker : (kernel.length : Int) = kernelWidth * kernelHeight)
    (hpass : (kernel.length : Int) = toSizeT (wrapInt (kernelWidth * kernelHeight)))
    (hs : 1 ≤ size) (hr1 : 1 ≤ rank) (hr : rank < size)
    (href : ∀ (x y : Int) (c : Nat), 0 ≤ x → x < input.width → 0 ≤ y → y < input.height →
      c < 3 → ref[((y * input.width + x) * 3 + c).toNat]?
        = some (toChannel A (specSum A input kernel kernelWidth kernelHeight x y c))) :
    ∃ m, sentBy A size input kernel kernelWidth kernelHeight rank = some m ∧
      (m.length : Int)
        = (endRow input.height size rank - startRow input.height size rank)
            * input.width * 3 ∧
      ∀ k : Nat, (k : Int) < (endRow input.height size rank
          - startRow input.height size rank) * input.width * 3 →
        m[k]? = ref[(startRow input.height size rank * input.width * 3).toNat + k]? := by
  obtain ⟨out, m, h1, _, h3, h4⟩ := worker_result A input kernel kernelWidth kernelHeight
    size rank (fun _ => none) ref hw hh hdata hkw hkh hker hpass hs hr1 hr href
  refine ⟨m, ?_, h3, h4⟩
  unfold sentBy
  rw [h1]

/-- The coordinator, when every other rank's message is the one that rank sends, returns
the image that `applyConvolution` returns. -/
theorem coordinator_result (A : DoubleArith) (input : BMPImage) (kernel : List A.F)
    (kernelWidth kernelHeight size : Int) (inbox : Int → Option (List Byte))
    (hw : 0 ≤ input.width) (hh : 0 ≤ input.height)
    (hdata : (input.data.length : Int) = input.width * input.height * 3)
    (hkw : 0 < kernelWidth) (hkh : 0 < kernelHeight)
    (hker : (kernel.length : Int) = kernelWidth * kernelHeight)
    (hpass : (kernel.length : Int) = toSizeT (wrapInt (kernelWidth * kernelHeight)))
    (hs : 1 ≤ size)
    (hinbox : ∀ i, 1 ≤ i → i < size →
      inbox i = sentBy A size input kernel kernelWidth kernelHeight i) :
    ∃ data, applyConvolution A input kernel kernelWidth kernelHeight
        = .ok ⟨input.width, input.height, data⟩ ∧
      (data.length : Int) = input.width * input.height * 3 ∧
      applyDistributedParallelConvolution A 0 size inbox input kernel kernelWidth
        kernelHeight = .ok (⟨input.width, input.height, data⟩, none) := by
  have hn : 0 ≤ input.width * input.height * 3 := by
    have := mul_nonneg hw hh; omega
  obtain ⟨ref, s1, s2, s3⟩ := applyConvolution_ok A input kernel kernelWidth kernelHeight
    hw hh hdata hkw hkh hker hpass
  obtain ⟨out0, l1, l2, l3⟩ := local_block A input kernel kernelWidth kernelHeight size 0
    hw hh hdata hkw hkh hker hs (le_refl _) (by omega)
  have hstart0 : startRow input.height size 0 = 0 := by unfold startRow; ring
  obtain ⟨out, r1, r2, r3⟩ := forRange_inv
    (fun (i : Int) (out : List Byte) =>
      (out.length : Int) = input.width * input.height * 3 ∧
      ∀ j : Nat, (j : Int) < endRow input.height size (i - 1) * input.width * 3 →
        out[j]? = ref[j]?)
    (fun i out =>
      mpiRecv out (recvStartRow input.height size i * input.width * 3)
        ((recvEndRow input.height size i - recvStartRow input.height size i)
          * input.width * 3) (inbox i))
    1 size out0 hs
    ⟨l2, fun j hj => by
      rw [show (1 : Int) - 1 = 0 by norm_num] at hj
      apply rows_ext input.width (startRow input.height size 0)
        (endRow input.height size 0) out0 ref hw
      · intro x y c a1 a2 a3 a4 a5
        obtain ⟨_, _, b3⟩ := block_bounds input.height size 0 hh hs (le_refl _) (by omega)
        rw [l3 x y c a1 a2 a3 a4 a5, s3 x y c a1 a2 (by omega) (by omega) a5]
      · rw [hstart0]; omega
      · exact hj⟩
    (fun i out hi1 hi2 hP => by
      obtain ⟨p1, p2⟩ := hP
      obtain ⟨m, m1, m2, m3⟩ := sentBy_spec A input kernel kernelWidth kernelHeight size i
        ref hw hh hdata hkw hkh hker hpass hs hi1 hi2 s3
      obtain ⟨o1, o2, o3, o4⟩ := block_offsets input.width input.height size i hw hh hs
        (by omega) hi2
      obtain ⟨out', q1, q2, q3, q4⟩ := mpiRecv_spec out m
        (startRow input.height size i * input.width * 3)
        ((endRow input.height size i - startRow input.height size i) * input.width * 3)
        o1 m2 (by omega)
      refine ⟨out', ?_, ?_, ?_⟩
      · show mpiRecv out (recvStartRow input.height size i * input.width * 3)
          ((recvEndRow input.height size i - recvStartRow input.height size i)
            * input.width * 3) (inbox i) = .ok out'
        rw [hinbox i hi1 hi2, m1]
        exact q1
      · rw [q2]; exact p1
      · intro j hj
        rw [show i + 1 - 1 = i by ring] at hj
        by_cases hlt : (j : Int) < startRow input.height size i * input.width * 3
        · rw [q3 j hlt]
          apply p2 j
          rw [endRow_eq_startRow_succ input.height size (i - 1) (by omega),
            show i - 1 + 1 = i by ring]
          exact hlt
        · have hk : ((j - (startRow input.height size i * input.width * 3).toNat : Nat)
              : Int) < (endRow input.height size i - startRow input.height size i)
                * input.width * 3 := by omega
          have hj' : j = (startRow input.height size i * input.width * 3).toNat
              + (j - (startRow input.height size i * input.width * 3).toNat) := by omega
          rw [hj', q4 _ hk, m3 _ hk])
  have hend : endRow input.height size (size - 1) = input.height := by
    unfold endRow; rw [if_pos rfl]
  have hout : out = ref := by
    apply List.ext_getElem?
    intro j
    by_cases hj : (j : Int) < input.width * input.height * 3
    · apply r3 j
      rw [hend]
      have : input.height * input.width = input.width * input.height := mul_comm _ _
      omega
    · rw [List.getElem?_eq_none (by omega), List.getElem?_eq_none (by omega)]
  refine ⟨ref, s1, s2, ?_⟩
  unfold applyDistributedParallelConvolution
  rw [if_neg (not_not.mpr hpass)]
  simp only [bind, Except.bind] at l1
  simp only [resize_ok _ hn, bind, Except.bind, pure, Except.pure]
  rw [l1]
  simp only [ne_eq, not_true_eq_false, if_false]
  rw [r1, hout]

/-- For odd positive kernel sizes the centred traversal runs the body on the same source
pixels and coefficient indices, in the same order, as the traversal from 0. -/
theorem traverseCentered_eq_traverseSequential {σ : Type} (kernelWidth kernelHeight x y : Int)
    (visit : Int → Int → Int → σ → Except ConvError σ) (s : σ)
    (hkw : 0 < kernelWidth) (hkh : 0 < kernelHeight)
    (hwodd : kernelWidth % 2 = 1) (hhodd : kernelHeight % 2 = 1) :
    traverseCentered kernelWidth (kernelWidth.tdiv 2) (kernelHeight.tdiv 2) x y visit s
      = traverseSequential kernelWidth kernelHeight (halfKernelWidth kernelWidth)
          (halfKernelHeight kernelHeight) x y visit s := by
  have e1 : kernelWidth.tdiv 2 = kernelWidth / 2 := Int.tdiv_eq_ediv (by omega) (by omega)
  have e2 : kernelHeight.tdiv 2 = kernelHeight / 2 := Int.tdiv_eq_ediv (by omega) (by omega)
  unfold traverseCentered traverseSequential halfKernelWidth halfKernelHeight forRange
  rw [e1, e2]
  have n1 : (kernelHeight / 2 + 1 - -(kernelHeight / 2)).toNat = (kernelHeight - 0).toNat := by
    omega
  have n2 : (kernelWidth / 2 + 1 - -(kernelWidth / 2)).toNat = (kernelWidth - 0).toNat := by
    omega
  rw [n1, n2]
  apply forLoop_congr
  intro ky _ _ t
  apply forLoop_congr
  intro kx _ _ u
  simp only
  congr 1
  · ring
  · ring
  · ring

/-- The centred traversal of a kernel of odd positive sizes only produces coefficient
indices inside `[0, kernelWidth*kernelHeight)`. -/
theorem traverseCentered_indices (kernelWidth kernelHeight x y : Int)
    (hkw : 0 < kernelWidth) (hkh : 0 < kernelHeight)
    (hwodd : kernelWidth % 2 = 1) (hhodd : kernelHeight % 2 = 1) :
    ∃ trace, traverseCentered kernelWidth (kernelWidth.tdiv 2) (kernelHeight.tdiv 2) x y
        recordTap [] = .ok trace ∧
      ∀ t ∈ trace, 0 ≤ t.2.2 ∧ t.2.2 < kernelWidth * kernelHeight := by
  have e1 : kernelWidth.tdiv 2 = kernelWidth / 2 := Int.tdiv_eq_ediv (by omega) (by omega)
  have e2 : kernelHeight.tdiv 2 = kernelHeight / 2 := Int.tdiv_eq_ediv (by omega) (by omega)
  unfold traverseCentered
  rw [e1, e2]
  obtain ⟨trace, h1, h2⟩ := forRange_inv
    (fun (_ : Int) (trace : List (Int × Int × Int)) =>
      ∀ t ∈ trace, 0 ≤ t.2.2 ∧ t.2.2 < kernelWidth * kernelHeight)
    (fun ky s =>
      forRange (-(kernelWidth / 2)) (kernelWidth / 2 + 1) (fun kx s =>
        recordTap (x + kx) (y + ky)
          ((ky + kernelHeight / 2) * kernelWidth + (kx + kernelWidth / 2)) s) s)
    (-(kernelHeight / 2)) (kernelHeight / 2 + 1) [] (by omega)
    (fun t ht => absurd ht (List.not_mem_nil t))
    (fun ky s hy1 hy2 hP =>
      forRange_inv
        (fun (_ : Int) (trace : List (Int × Int × Int)) =>
          ∀ t ∈ trace, 0 ≤ t.2.2 ∧ t.2.2 < kernelWidth * kernelHeight)
        (fun kx s =>
          recordTap (x + kx) (y + ky)
            ((ky + kernelHeight / 2) * kernelWidth + (kx + kernelWidth / 2)) s)
        (-(kernelWidth / 2)) (kernelWidth / 2 + 1) s (by omega) hP
        (fun kx u hx1 hx2 hQ => by
          refine ⟨u ++ [(x + kx, y + ky,
            (ky + kernelHeight / 2) * kernelWidth + (kx + kernelWidth / 2))], rfl, ?_⟩
          intro t ht
          rcases List.mem_append.mp ht with h | h
          · exact hQ t h
          · rw [List.mem_singleton] at h
            rw [h]
            have hb := pixel_index_bound kernelWidth kernelHeight (kx + kernelWidth / 2)
              (ky + kernelHeight / 2) (by omega) (by omega) (by omega) (by omega)
            exact hb))
  exact ⟨trace, h1, h2⟩

/-- The accumulation of a channel only reads that channel of the pixels of the kernel
window that lie inside the image. -/
theorem specSum_congr (A : DoubleArith) (imageA imageB : BMPImage) (kernel : List A.F)
    (kernelWidth kernelHeight x y : Int) (c : Nat)
    (hwidth : imageA.width = imageB.width) (hheight : imageA.height = imageB.height)
    (hagree : ∀ u v : Int, 0 ≤ u → u < imageA.width → 0 ≤ v → v < imageA.height →
      x - kernelWidth / 2 ≤ u → u ≤ x + kernelWidth - 1 - kernelWidth / 2 →
      y - kernelHeight / 2 ≤ v → v ≤ y + kernelHeight - 1 - kernelHeight / 2 →
      imageA.data.getD ((v * imageA.width + u) * 3 + c).toNat 0
        = imageB.data.getD ((v * imageA.width + u) * 3 + c).toNat 0) :
    specSum A imageA kernel kernelWidth kernelHeight x y c
      = specSum A imageB kernel kernelWidth kernelHeight x y c := by
  unfold specSum
  apply List.foldl_ext
  intro s ky hky
  apply List.foldl_ext
  intro t kx hkx
  rw [List.mem_range] at hky hkx
  unfold specTap
  simp only [← hwidth, ← hheight]
  by_cases hin : 0 ≤ x + (kx : Int) - kernelWidth / 2 ∧
      x + (kx : Int) - kernelWidth / 2 < imageA.width ∧
      0 ≤ y + (ky : Int) - kernelHeight / 2 ∧ y + (ky : Int) - kernelHeight / 2 < imageA.height
  · rw [if_pos hin, if_pos hin]
    obtain ⟨a1, a2, a3, a4⟩ := hin
    rw [hagree _ _ a1 a2 a3 a4 (by omega) (by omega) (by omega) (by omega)]
  · rw [if_neg hin, if_neg hin]

theorem parseCoefficients_spec {F : Type} (stod : String → Option F) :
    ∀ (args : List String) (acc kernel : List F),
      parseCoefficients stod args acc = some kernel →
      ∃ vals, kernel = acc ++ vals ∧ args.map stod = vals.map some := by
  intro args
  induction args with
  | nil =>
    intro acc kernel h
    simp only [parseCoefficients, Option.some.injEq] at h
    exact ⟨[], by rw [← h, List.append_nil], rfl⟩
  | cons arg rest ih =>
    intro acc kernel h
    unfold parseCoefficients at h
    cases hv : stod arg with
    | none => rw [hv] at h; cases h
    | some v =>
      rw [hv] at h
      obtain ⟨vals, h1, h2⟩ := ih (acc ++ [v]) kernel h
      refine ⟨v :: vals, ?_, ?_⟩
      · rw [h1, List.append_assoc]; rfl
      · rw [List.map_cons, List.map_cons, hv, h2]

/-- A kernel that passes the size check, made in `int` arithmetic, never makes a strategy
fail with the error of the size check. -/
theorem strategies_ne_invalid (A : DoubleArith) (kernel : List A.F)
    (kernelWidth kernelHeight : Int)
    (hker : (kernel.length : Int) = toSizeT (wrapInt (kernelWidth * kernelHeight))) :
    (∀ input, applyConvolution A input kernel kernelWidth kernelHeight
        ≠ .error .invalidKernel) ∧
    (∀ input, applyParallelConvolution A input kernel kernelWidth kernelHeight
        ≠ .error .invalidKernel) ∧
    (∀ rank size inbox input,
      applyDistributedParallelConvolution A rank size inbox input kernel kernelWidth
        kernelHeight ≠ .error .invalidKernel) := by
  refine ⟨fun input => ?_, fun input => ?_, fun rank size inbox input => ?_⟩
  · unfold applyConvolution
    rw [if_neg (not_not.mpr hker)]
    refine bind_ne_error _ _ _ (resize_ne_invalid _) (fun data => ?_)
    refine bind_ne_error _ _ _ (pixelRows_ne_invalid A input _
      (fun x y => kernelLoop_ne_invalid _ _ _ _ _ _ _ _ _) _ _ _) (fun _ => ?_)
    intro h; cases h
  · unfold applyParallelConvolution
    rw [if_neg (not_not.mpr hker)]
    refine bind_ne_error _ _ _ (resize_ne_invalid _) (fun data => ?_)
    refine bind_ne_error _ _ _ (pixelRows_ne_invalid A input _
      (fun x y => kernelLoopCentered_ne_invalid _ _ _ _ _ _ _ _) _ _ _) (fun _ => ?_)
    intro h; cases h
  · unfold applyDistributedParallelConvolution
    rw [if_neg (not_not.mpr hker)]
    refine bind_ne_error _ _ _ (resize_ne_invalid _) (fun data => ?_)
    refine bind_ne_error _ _ _ (pixelRows_ne_invalid A input _
      (fun x y => kernelLoop_ne_invalid _ _ _ _ _ _ _ _ _) _ _ _) (fun out => ?_)
    split
    · refine bind_ne_error _ _ _ (mpiSend_ne_invalid _ _ _) (fun _ => ?_)
      intro h; cases h
    · refine bind_ne_error _ _ _
        (forRange_ne_error _ _ (fun i s => mpiRecv_ne_invalid _ _ _ _) _ _ _) (fun _ => ?_)
      intro h; cases h

/-- Each strategy fails with the error of the size check exactly when `kernel.size()` differs
from the `int` product `kernelWidth * kernelHeight` converted to `size_t`, whatever the
input image. -/
theorem size_check_decides (A : DoubleArith) (kernel : List A.F)
    (kernelWidth kernelHeight : Int) :
    (∀ input, applyConvolution A input kernel kernelWidth kernelHeight
        = .error .invalidKernel ↔
      (kernel.length : Int) ≠ toSizeT (wrapInt (kernelWidth * kernelHeight))) ∧
    (∀ input, applyParallelConvolution A input kernel kernelWidth kernelHeight
        = .error .invalidKernel ↔
      (kernel.length : Int) ≠ toSizeT (wrapInt (kernelWidth * kernelHeight))) ∧
    (∀ rank size inbox input,
      applyDistributedParallelConvolution A rank size inbox input kernel kernelWidth
        kernelHeight = .error .invalidKernel ↔
      (kernel.length : Int) ≠ toSizeT (wrapInt (kernelWidth * kernelHeight))) := by
  refine ⟨fun input => ⟨fun h hk => ?_, fun h => ?_⟩, fun input => ⟨fun h hk => ?_, fun h => ?_⟩,
    fun rank size inbox input => ⟨fun h hk => ?_, fun h => ?_⟩⟩
  · exact (strategies_ne_invalid A kernel kernelWidth kernelHeight hk).1 input h
  · unfold applyConvolution
    rw [if_pos h]
  · exact (strategies_ne_invalid A kernel kernelWidth kernelHeight hk).2.1 input h
  · unfold applyParallelConvolution
    rw [if_pos h]
  · exact (strategies_ne_invalid A kernel kernelWidth kernelHeight hk).2.2 rank size inbox
      input h
  · unfold applyDistributedParallelConvolution
    rw [if_pos h]

theorem ldiff_three (m : Nat) : Nat.ldiff m 3 = m / 4 * 4 := by
  apply Nat.eq_of_testBit_eq
  intro k
  rw [Nat.testBit_ldiff, show (3 : Nat) = 2 ^ 2 - 1 by norm_num, Nat.testBit_two_pow_sub_one,
    show m / 4 * 4 = 2 ^ 2 * (m / 2 ^ 2) by norm_num [Nat.mul_comm], Nat.testBit_mul_pow_two,
    ← Nat.shiftRight_eq_div_pow, Nat.testBit_shiftRight]
  by_cases hk : k < 2
  · simp [hk, Nat.not_le.mpr hk]
  · have : 2 + (k - 2) = k := by omega
    simp [hk, this, Nat.le_of_not_lt hk]

/-- On a non-negative row size `(rowSize + 3) & ~3` clears the two low bits of
`rowSize + 3`. -/
theorem padRow_eq (n : Int) (hn : 0 ≤ n) : padRow n = (n + 3) / 4 * 4 := by
  unfold padRow
  obtain ⟨m, hm⟩ := Int.eq_ofNat_of_zero_le (by omega : 0 ≤ n + 3)
  rw [hm]
  show ((Nat.ldiff m 3 : Nat) : Int) = (m : Int) / 4 * 4
  rw [ldiff_three]
  push_cast
  rfl

theorem padRow_bounds (n : Int) (hn : 0 ≤ n) :
    n ≤ padRow n ∧ padRow n < n + 4 ∧ padRow n % 4 = 0 := by
  rw [padRow_eq n hn]
  omega

theorem loopUp_inv {ε σ : Type} (P : Int → σ → Prop) (body : Int → σ → Except ε σ) :
    ∀ (n : Nat) (lo : Int) (s : σ), P lo s →
      (∀ i s, lo ≤ i → i < lo + n → P i s → ∃ s', body i s = .ok s' ∧ P (i + 1) s') →
      ∃ s', loopUp n lo body s = .ok s' ∧ P (lo + n) s' := by
  intro n
  induction n with
  | zero => intro lo s h0 _; exact ⟨s, rfl, by simpa using h0⟩
  | succ n ih =>
    intro lo s h0 hstep
    obtain ⟨s1, hb, hP⟩ := hstep lo s (le_refl _) (by push_cast; omega) h0
    obtain ⟨s2, hl, hP2⟩ := ih (lo + 1) s1 hP (fun i t hi1 hi2 hPi =>
      hstep i t (by omega) (by push_cast; omega) hPi)
    refine ⟨s2, ?_, ?_⟩
    · simp only [loopUp, hb, hl]
    · have : lo + ((n + 1 : Nat) : Int) = lo + 1 + n := by push_cast; ring
      rw [this]; exact hP2

theorem forUp_inv {ε σ : Type} (P : Int → σ → Prop) (body : Int → σ → Except ε σ)
    (lo hi : Int) (s : σ) (hle : lo ≤ hi) (h0 : P lo s)
    (hstep : ∀ i s, lo ≤ i → i < hi → P i s → ∃ s', body i s = .ok s' ∧ P (i + 1) s') :
    ∃ s', forUp lo hi body s = .ok s' ∧ P hi s' := by
  have hn : lo + ((hi - lo).toNat : Int) = hi := by omega
  obtain ⟨s', h1, h2⟩ := loopUp_inv P body (hi - lo).toNat lo s h0
    (fun i t h1 h2 h3 => hstep i t h1 (by omega) h3)
  exact ⟨s', h1, by rw [hn] at h2; exact h2⟩

theorem loopDown_inv {ε σ : Type} (P : Int → σ → Prop) (body : Int → σ → Except ε σ) :
    ∀ (n : Nat) (hi : Int) (s : σ), P hi s →
      (∀ i s, i ≤ hi → hi - n < i → P i s → ∃ s', body i s = .ok s' ∧ P (i - 1) s') →
      ∃ s', loopDown n hi body s = .ok s' ∧ P (hi - n) s' := by
  intro n
  induction n with
  | zero => intro hi s h0 _; exact ⟨s, rfl, by simpa using h0⟩
  | succ n ih =>
    intro hi s h0 hstep
    obtain ⟨s1, hb, hP⟩ := hstep hi s (le_refl _) (by push_cast; omega) h0
    obtain ⟨s2, hl, hP2⟩ := ih (hi - 1) s1 hP (fun i t hi1 hi2 hPi =>
      hstep i t (by omega) (by push_cast; omega) hPi)
    refine ⟨s2, ?_, ?_⟩
    · simp only [loopDown, hb, hl]
    · have : hi - ((n + 1 : Nat) : Int) = hi - 1 - n := by push_cast; ring
      rw [this]; exact hP2

/-- Invariant rule for the descending loop `for (i = hi; i >= lo; i--)`. -/
theorem forDown_inv {ε σ : Type} (P : Int → σ → Prop) (body : Int → σ → Except ε σ)
    (hi lo : Int) (s : σ) (hle : lo ≤ hi + 1) (h0 : P hi s)
    (hstep : ∀ i s, lo ≤ i → i ≤ hi → P i s → ∃ s', body i s = .ok s' ∧ P (i - 1) s') :
    ∃ s', forDown hi lo body s = .ok s' ∧ P (lo - 1) s' := by
  have hn : hi - ((hi - lo + 1).toNat : Int) = lo - 1 := by omega
  obtain ⟨s', h1, h2⟩ := loopDown_inv P body (hi - lo + 1).toNat hi s h0
    (fun i t h1 h2 h3 => hstep i t (by omega) h1 h3)
  exact ⟨s', h1, by rw [hn] at h2; exact h2⟩

/-- Three stores at consecutive indices `p`, `p+1`, `p+2` of a buffer. -/
theorem writeThree_spec (out : List Byte) (p : Int) (a b c : Byte) (h0 : 0 ≤ p)
    (h1 : p + 2 < out.length) :
    ∃ out', (do
        let o ← writeAt out (p + 0) a
        let o ← writeAt o (p + 1) b
        writeAt o (p + 2) c) = .ok out' ∧ out'.length = out.length ∧
      out'[p.toNat]? = some a ∧ out'[p.toNat + 1]? = some b ∧ out'[p.toNat + 2]? = some c ∧
      (∀ j : Nat, ((j : Int) < p ∨ p + 3 ≤ j) → out'[j]? = out[j]?) := by
  have e0 : (p + 0).toNat = p.toNat := by omega
  have e1 : (p + 1).toNat = p.toNat + 1 := by omega
  have e2 : (p + 2).toNat = p.toNat + 2 := by omega
  refine ⟨((out.set p.toNat a).set (p.toNat + 1) b).set (p.toNat + 2) c, ?_, ?_, ?_, ?_, ?_, ?_⟩
  · simp only [bind, Except.bind]
    rw [writeAt_ok _ _ _ (by omega) (by omega)]
    simp only
    rw [writeAt_ok _ _ _ (by omega) (by simp only [List.length_set]; omega)]
    simp only
    rw [writeAt_ok _ _ _ (by omega) (by simp only [List.length_set]; omega)]
    rw [e0, e1, e2]
  · simp only [List.length_set]
  · rw [List.getElem?_set_ne (by omega), List.getElem?_set_ne (by omega),
      List.getElem?_set_self (by omega)]
  · rw [List.getElem?_set_ne (by omega),
      List.getElem?_set_self (by simp only [List.length_set]; omega)]
  · rw [List.getElem?_set_self (by simp only [List.length_set]; omega)]
  · intro j hj
    rw [List.getElem?_set_ne (by omega), List.getElem?_set_ne (by omega),
      List.getElem?_set_ne (by omega)]

theorem readAt_getElem? {α : Type} (v : List α) (i : Int) (a : α) (h0 : 0 ≤ i)
    (h : v[i.toNat]? = some a) : readAt v i = .ok a := by
  unfold readAt
  rw [if_neg (by omega), h]

theorem readAt_getD {α : Type} (v : List α) (i : Int) (d : α) (h0 : 0 ≤ i)
    (h1 : i.toNat < v.length) : readAt v i = .ok (v.getD i.toNat d) := by
  rw [readAt_ok v i h0 h1, List.getD_eq_getElem _ _ h1]
  rfl

/-- The inner loop of `loadBMP` stores the pixels of `rowData`, channels reversed, in the
row `destRow` of the image buffer and leaves the other rows as they were. -/
theorem loadRow_spec (width destRow : Int) (rowData data : List Byte)
    (hw : 0 ≤ width) (hrow : width * 3 ≤ rowData.length) (hd0 : 0 ≤ destRow * width)
    (hd1 : (destRow * width + width) * 3 ≤ data.length) :
    ∃ data', loadRow width destRow rowData data = .ok data' ∧ data'.length = data.length ∧
      (∀ (j : Int) (c : Nat), 0 ≤ j → j < width → c < 3 →
        data'[((destRow * width + j) * 3 + c).toNat]?
          = some (rowData.getD (j * 3 + (2 - (c : Int))).toNat 0)) ∧
      (∀ n : Nat, ((n : Int) < destRow * width * 3 ∨ (destRow * width + width) * 3 ≤ n) →
        data'[n]? = data[n]?) := by
  unfold loadRow
  obtain ⟨data', h1, h2, h3, h4⟩ := forRange_inv
    (fun (j : Int) (d : List Byte) => d.length = data.length ∧
      (∀ (j' : Int) (c : Nat), 0 ≤ j' → j' < j → c < 3 →
        d[((destRow * width + j') * 3 + c).toNat]?
          = some (rowData.getD (j' * 3 + (2 - (c : Int))).toNat 0)) ∧
      (∀ n : Nat, ((n : Int) < destRow * width * 3 ∨ (destRow * width + j) * 3 ≤ n) →
        d[n]? = data[n]?))
    (fun j data => do
      let B ← readAt rowData (j * 3 + 0)
      let G ← readAt rowData (j * 3 + 1)
      let R ← readAt rowData (j * 3 + 2)
      let idx := (destRow * width + j) * 3
      let data ← writeAt data (idx + 0) R
      let data ← writeAt data (idx + 1) G
      writeAt data (idx + 2) B)
    0 width data hw
    ⟨rfl, fun j' c a1 a2 _ => absurd a1 (by omega), fun n _ => rfl⟩
    (fun j d hj0 hj hP => by
      obtain ⟨p1, p2, p3⟩ := hP
      obtain ⟨d', w1, w2, w3, w4, w5, w6⟩ := writeThree_spec d ((destRow * width + j) * 3)
        (rowData.getD (j * 3 + 2).toNat 0) (rowData.getD (j * 3 + 1).toNat 0)
        (rowData.getD (j * 3 + 0).toNat 0) (by omega) (by omega)
      refine ⟨d', ?_, ?_, ?_, ?_⟩
      · simp only [bind, Except.bind] at w1
        simp only [bind, Except.bind, readAt_getD rowData (j * 3 + 0) 0 (by omega) (by omega),
          readAt_getD rowData (j * 3 + 1) 0 (by omega) (by omega),
          readAt_getD rowData (j * 3 + 2) 0 (by omega) (by omega)]
        exact w1
      · rw [w2, p1]
      · intro j' c a1 a2 a3
        by_cases hsame : j' = j
        · subst hsame
          have hcases : c = 0 ∨ c = 1 ∨ c = 2 := by omega
          rcases hcases with rfl | rfl | rfl
          · have e : ((destRow * width + j') * 3 + ((0 : Nat) : Int)).toNat
                = ((destRow * width + j') * 3).toNat := by omega
            rw [e, w3]
            congr 2
          · have e : ((destRow * width + j') * 3 + ((1 : Nat) : Int)).toNat
                = ((destRow * width + j') * 3).toNat + 1 := by omega
            rw [e, w4]
            congr 2
          · have e : ((destRow * width + j') * 3 + ((2 : Nat) : Int)).toNat
                = ((destRow * width + j') * 3).toNat + 2 := by omega
            rw [e, w5]
            congr 2
        · rw [w6 _ (by left; omega)]
          exact p2 j' c a1 (by omega) a3
      · intro n hn
        rw [w6 n (by omega)]
        exact p3 n (by omega))
  refine ⟨data', h1, h2, fun j c a1 a2 a3 => h3 j c a1 a2 a3, fun n hn => h4 n ?_⟩
  rcases hn with hn | hn
  · exact Or.inl hn
  · exact Or.inr hn

/-- The inner loop of `saveToFile` stores the pixels of the image row `i`, channels
reversed, at the start of `rowData` and leaves the bytes from `width*3` on as they were. -/
theorem saveRow_spec (image : BMPImage) (i : Int) (rowData : List Byte)
    (hw : 0 ≤ image.width) (hi0 : 0 ≤ i) (hi : i < image.height)
    (hdata : (image.data.length : Int) = image.width * image.height * 3)
    (hrow : image.width * 3 ≤ rowData.length) :
    ∃ rowData', saveRow image i rowData = .ok rowData' ∧
      rowData'.length = rowData.length ∧
      (∀ (j : Int) (c : Nat), 0 ≤ j → j < image.width → c < 3 →
        rowData'[(j * 3 + c).toNat]?
          = some (image.data.getD ((i * image.width + j) * 3 + (2 - (c : Int))).toNat 0)) ∧
      (∀ n : Nat, image.width * 3 ≤ n → rowData'[n]? = rowData[n]?) := by
  unfold saveRow
  obtain ⟨row', h1, h2, h3, h4⟩ := forRange_inv
    (fun (j : Int) (r : List Byte) => r.length = rowData.length ∧
      (∀ (j' : Int) (c : Nat), 0 ≤ j' → j' < j → c < 3 →
        r[(j' * 3 + c).toNat]?
          = some (image.data.getD ((i * image.width + j') * 3 + (2 - (c : Int))).toNat 0)) ∧
      (∀ n : Nat, j * 3 ≤ n → r[n]? = rowData[n]?))
    (fun j rowData => do
      let idx := (i * image.width + j) * 3
      let R ← readAt image.data (idx + 0)
      let G ← readAt image.data (idx + 1)
      let B ← readAt image.data (idx + 2)
      let rowData ← writeAt rowData (j * 3 + 0) B
      let rowData ← writeAt rowData (j * 3 + 1) G
      writeAt rowData (j * 3 + 2) R)
    0 image.width rowData hw
    ⟨rfl, fun j' c a1 a2 _ => absurd a1 (by omega), fun n _ => rfl⟩
    (fun j r hj0 hj hP => by
      obtain ⟨p1, p2, p3⟩ := hP
      have hb := pixel_index_bound image.width image.height j i hj0 hj hi0 hi
      obtain ⟨r', w1, w2, w3, w4, w5, w6⟩ := writeThree_spec r (j * 3)
        (image.data.getD ((i * image.width + j) * 3 + 2).toNat 0)
        (image.data.getD ((i * image.width + j) * 3 + 1).toNat 0)
        (image.data.getD ((i * image.width + j) * 3 + 0).toNat 0) (by omega) (by omega)
      refine ⟨r', ?_, ?_, ?_, ?_⟩
      · simp only [bind, Except.bind] at w1
        simp only [bind, Except.bind,
          readAt_getD image.data ((i * image.width + j) * 3 + 0) 0 (by omega) (by omega),
          readAt_getD image.data ((i * image.width + j) * 3 + 1) 0 (by omega) (by omega),
          readAt_getD image.data ((i * image.width + j) * 3 + 2) 0 (by omega) (by omega)]
        exact w1
      · rw [w2, p1]
      · intro j' c a1 a2 a3
        by_cases hsame : j' = j
        · subst hsame
          have hcases : c = 0 ∨ c = 1 ∨ c = 2 := by omega
          rcases hcases with rfl | rfl | rfl
          · have e : (j' * 3 + ((0 : Nat) : Int)).toNat = (j' * 3).toNat := by omega
            rw [e, w3]
            congr 2
          · have e : (j' * 3 + ((1 : Nat) : Int)).toNat = (j' * 3).toNat + 1 := by omega
            rw [e, w4]
            congr 2
          · have e : (j' * 3 + ((2 : Nat) : Int)).toNat = (j' * 3).toNat + 2 := by omega
            rw [e, w5]
            congr 2
        · rw [w6 _ (by left; omega)]
          exact p2 j' c a1 (by omega) a3
      · intro n hn
        rw [w6 n (by omega)]
        exact p3 n (by omega))
  exact ⟨row', h1, h2, fun j c a1 a2 a3 => h3 j c a1 a2 a3, fun n hn => h4 n hn⟩

/-- The byte at offset `t` of the `k`-th row that `saveToFile` emits: for `t < width*3`
the channel `2 - t mod 3` (B, G, R order) of the pixel `t / 3` of the image row
`height - 1 - k`, and 0 in the padding. -/
theorem saveToFile_spec (image : BMPImage)
    (hw : 0 ≤ image.width) (hh : 0 ≤ image.height)
    (hdata : (image.data.length : Int) = image.width * image.height * 3) :
    ∃ pixels, saveToFile image
        = .ok ((savedFileHeader image).encode ++ (savedInfoHeader image).encode ++ pixels) ∧
      (pixels.length : Int) = image.height * padRow (image.width * 3) ∧
      ∀ (k : Int) (t : Nat), 0 ≤ k → k < image.height → (t : Int) < padRow (image.width * 3) →
        pixels[(k * padRow (image.width * 3) + t).toNat]?
          = some (if (t : Int) < image.width * 3 then
              image.data.getD (((image.height - 1 - k) * image.width + (t : Int) / 3) * 3
                + (2 - (t : Int) % 3)).toNat 0
            else 0) := by
  obtain ⟨pb1, pb2, _⟩ := padRow_bounds (image.width * 3) (by omega)
  generalize hP : padRow (image.width * 3) = P at pb1 pb2
  have hP0 : 0 ≤ P := by omega
  obtain ⟨st, s1, s2, s3, px, s4, s5, s6⟩ := forDown_inv
    (fun (i : Int) (st : List Byte × List Byte) =>
      (st.1.length : Int) = P ∧
      (∀ n : Nat, image.width * 3 ≤ n → (n : Int) < P → st.1[n]? = some 0) ∧
      ∃ px, st.2 = (savedFileHeader image).encode ++ (savedInfoHeader image).encode ++ px ∧
        (px.length : Int) = (image.height - 1 - i) * P ∧
        ∀ (k : Int) (t : Nat), 0 ≤ k → k < image.height - 1 - i → (t : Int) < P →
          px[(k * P + t).toNat]?
            = some (if (t : Int) < image.width * 3 then
                image.data.getD (((image.height - 1 - k) * image.width + (t : Int) / 3) * 3
                  + (2 - (t : Int) % 3)).toNat 0
              else 0))
    (fun i (st : List Byte × List Byte) => do
        let rowData ← saveRow image i st.1
        pure (rowData, st.2 ++ rowData))
    (image.height - 1) 0
    (List.replicate P.toNat (0 : Byte),
      (savedFileHeader image).encode ++ (savedInfoHeader image).encode)
    (by omega)
    ⟨by rw [List.length_replicate]; omega,
      fun n _ hn => by rw [List.getElem?_replicate, if_pos (by omega)],
      [], by rw [List.append_nil], by simp,
      fun k t a1 a2 _ => absurd a1 (by omega)⟩
    (fun i st hi0 hi hQ => by
      obtain ⟨q1, q2, px, q3, q4, q5⟩ := hQ
      obtain ⟨row', r1, r2, r3, r4⟩ := saveRow_spec image i st.1 hw hi0 (by omega) hdata
        (by omega)
      refine ⟨(row', st.2 ++ row'), ?_, ?_, ?_, px ++ row', ?_, ?_, ?_⟩
      · simp only [r1, bind, Except.bind, pure, Except.pure]
      · show ((row'.length : Nat) : Int) = P
        rw [r2]; exact q1
      · intro n hn1 hn2
        show row'[n]? = some 0
        rw [r4 n hn1]
        exact q2 n hn1 hn2
      · show st.2 ++ row' = _
        rw [q3, List.append_assoc]
      · rw [List.length_append]
        push_cast
        rw [q4, r2, q1]
        ring
      · intro k t a1 a2 a3
        have hkP : 0 ≤ k * P := mul_nonneg a1 hP0
        by_cases hk : k < image.height - 1 - i
        · have hle : (k + 1) * P ≤ (image.height - 1 - i) * P :=
            mul_le_mul_of_nonneg_right (by omega) hP0
          have e : (k + 1) * P = k * P + P := by ring
          rw [List.getElem?_append_left (by omega)]
          exact q5 k t a1 hk a3
        · have hk' : k = image.height - 1 - i := by omega
          have hlen : px.length = (k * P).toNat := by
            rw [hk']; omega
          rw [List.getElem?_append_right (by omega)]
          have e : (k * P + t).toNat - px.length = t := by omega
          rw [e]
          have hi' : image.height - 1 - k = i := by omega
          rw [hi']
          by_cases ht : (t : Int) < image.width * 3
          · rw [if_pos ht]
            have := r3 ((t : Int) / 3) (t % 3) (by omega) (by omega) (Nat.mod_lt _ (by omega))
            have e2 : ((t : Int) / 3 * 3 + ((t % 3 : Nat) : Int)).toNat = t := by omega
            have e3 : ((t % 3 : Nat) : Int) = (t : Int) % 3 := by omega
            rw [e2, e3] at this
            rw [this]
          · rw [if_neg ht, r4 t (by omega)]
            exact q2 t (by omega) a3)
  have hend : image.height - 1 - (0 - 1) = image.height := by ring
  rw [hend] at s5 s6
  refine ⟨px, ?_, s5, s6⟩
  unfold saveToFile
  simp only [bind, Except.bind, pure, Except.pure] at s1
  simp only [bind, Except.bind, pure, Except.pure]
  rw [hP, if_neg (by omega), s1]
  simp only
  rw [s4]

theorem take_drop_getD (bytes : List Byte) (start n t : Nat) (ht : t < n) :
    ((bytes.drop start).take n).getD t 0 = bytes.getD (start + t) 0 := by
  rw [List.getD_eq_getElem?_getD, List.getD_eq_getElem?_getD, List.getElem?_take,
    if_pos ht, List.getElem?_drop]

theorem liftVector_ok {α : Type} (r : Except ConvError α) (a : α) (h : r = .ok a) :
    liftVector r = .ok a := by
  rw [h]; rfl

/-- On a file with a well-formed header, whose height has a negation in `int` and whose
row size and pixel data size fit an `int`, and with at least `|biHeight|` stored rows after
`bfOffBits`, `loadBMP` returns the image of width `biWidth` and height `|biHeight|` in which
channel `c` of pixel `j` of the destination row of the stored row `i` is the byte at offset
`j*3 + (2 - c)` of that stored row. -/
theorem loadBMP_spec (bytes : List Byte) (fh : BMPFileHeader) (ih : BMPInfoHeader)
    (hlen : 54 ≤ bytes.length)
    (hfh : BMPFileHeader.decode (bytes.take 14) = fh)
    (hih : BMPInfoHeader.decode ((bytes.drop 14).take 40) = ih)
    (hmagic : fh.bfType = 0x4D42) (hbits : ih.biBitCount = 24) (hcomp : ih.biCompression = 0)
    (hw : 0 ≤ ih.biWidth)
    (hmin : -2147483648 < ih.biHeight)
    (hrow : ih.biWidth * 3 + 3 < 2147483648)
    (hsize : ih.biWidth * (if ih.biHeight < 0 then -ih.biHeight else ih.biHeight) * 3
      < 2147483648)
    (hfile : (fh.bfOffBits : Int)
      + (if ih.biHeight < 0 then -ih.biHeight else ih.biHeight) * padRow (ih.biWidth * 3)
        ≤ bytes.length) :
    ∃ data, loadBMP (some bytes)
        = .ok ⟨ih.biWidth, if ih.biHeight < 0 then -ih.biHeight else ih.biHeight, data⟩ ∧
      (data.length : Int)
        = ih.biWidth * (if ih.biHeight < 0 then -ih.biHeight else ih.biHeight) * 3 ∧
      ∀ (i j : Int) (c : Nat),
        0 ≤ i → i < (if ih.biHeight < 0 then -ih.biHeight else ih.biHeight) →
        0 ≤ j → j < ih.biWidth → c < 3 →
        data[(((if ih.biHeight < 0 then i
              else (if ih.biHeight < 0 then -ih.biHeight else ih.biHeight) - 1 - i)
            * ih.biWidth + j) * 3 + c).toNat]?
          = some (bytes.getD (fh.bfOffBits
              + (i * padRow (ih.biWidth * 3) + j * 3 + (2 - (c : Int))).toNat) 0) := by
  generalize hW : ih.biWidth = W at hw hfile hrow hsize ⊢
  obtain ⟨pb1, pb2, _⟩ := padRow_bounds (W * 3) (by omega)
  generalize hP : padRow (W * 3) = P at pb1 pb2 hfile ⊢
  generalize hH : (if ih.biHeight < 0 then -ih.biHeight else ih.biHeight) = H
    at hfile hsize ⊢
  have hP0 : 0 ≤ P := by omega
  have hH0 : 0 ≤ H := by rw [← hH]; split <;> omega
  have hWH : 0 ≤ W * H := mul_nonneg hw hH0
  have hn : 0 ≤ W * H * 3 := by omega
  have hHw : (if ih.biHeight < 0 then wrapInt (-ih.biHeight) else ih.biHeight) = H := by
    rw [← hH]
    split
    · exact wrapInt_eq _ (by omega) (by omega)
    · rfl
  have hPw : Int.land (wrapInt (wrapInt (W * 3) + 3)) (Int.not 3) = P := by
    rw [wrapInt_eq (W * 3) (by omega) (by omega), wrapInt_eq (W * 3 + 3) (by omega) hrow]
    exact hP
  have hNw : wrapInt (wrapInt (W * H) * 3) = W * H * 3 := by
    rw [wrapInt_eq (W * H) (by omega) (by omega), wrapInt_eq (W * H * 3) (by omega) hsize]
  have hdest : ∀ i : Int, 0 ≤ i → i < H →
      0 ≤ (if ih.biHeight < 0 then i else H - 1 - i) ∧
      (if ih.biHeight < 0 then i else H - 1 - i) < H := by
    intro i h0 h1
    split <;> omega
  obtain ⟨st, s1, s2, s3, s4⟩ := forUp_inv
    (fun (i : Int) (st : List Byte × List Byte) =>
      st.1 = bytes.drop (fh.bfOffBits + (i * P).toNat) ∧
      (st.2.length : Int) = W * H * 3 ∧
      ∀ (i' j : Int) (c : Nat), 0 ≤ i' → i' < i → 0 ≤ j → j < W → c < 3 →
        st.2[(((if ih.biHeight < 0 then i' else H - 1 - i') * W + j) * 3 + c).toNat]?
          = some (bytes.getD (fh.bfOffBits + (i' * P + j * 3 + (2 - (c : Int))).toNat) 0))
    (fun i (st : List Byte × List Byte) =>
      let rowData := st.1.take P.toNat
      if (rowData.length : Int) ≠ P then Except.error (BmpError.rowShort i)
      else do
        let destRow := if (!decide (ih.biHeight < 0)) = true then H - 1 - i else i
        let data ← liftVector (loadRow W destRow rowData st.2)
        pure (st.1.drop P.toNat, data))
    0 H (bytes.drop fh.bfOffBits, List.replicate (W * H * 3).toNat 0) hH0
    ⟨by simp, by rw [List.length_replicate]; omega,
      fun i' j c a1 a2 _ _ _ => absurd a1 (by omega)⟩
    (fun i st hi0 hi hQ => by
      obtain ⟨q1, q2, q3⟩ := hQ
      have hiP : 0 ≤ i * P := mul_nonneg hi0 hP0
      have hle : (i + 1) * P ≤ H * P := mul_le_mul_of_nonneg_right (by omega) hP0
      have e1 : (i + 1) * P = i * P + P := by ring
      have hrowlen : (st.1.take P.toNat).length = P.toNat := by
        rw [q1, List.length_take, List.length_drop]; omega
      have edest : (if (!decide (ih.biHeight < 0)) = true then H - 1 - i else i)
          = (if ih.biHeight < 0 then i else H - 1 - i) := by
        by_cases hneg : ih.biHeight < 0 <;> simp [hneg]
      obtain ⟨d0, d1⟩ := hdest i hi0 hi
      generalize hd : (if ih.biHeight < 0 then i else H - 1 - i) = dest at d0 d1 edest
      have hdW : 0 ≤ dest * W := mul_nonneg d0 hw
      have hdW1 : (dest + 1) * W ≤ H * W := mul_le_mul_of_nonneg_right (by omega) hw
      have e2 : (dest + 1) * W = dest * W + W := by ring
      have e3 : W * H = H * W := mul_comm _ _
      obtain ⟨data', l1, l2, l3, l4⟩ := loadRow_spec W dest (st.1.take P.toNat) st.2 hw
        (by omega) hdW (by omega)
      refine ⟨(st.1.drop P.toNat, data'), ?_, ?_, ?_, ?_⟩
      · simp only [edest]
        rw [if_neg (by omega)]
        simp only [liftVector_ok _ _ l1, bind, Except.bind, pure, Except.pure]
      · show st.1.drop P.toNat = _
        rw [q1, List.drop_drop]
        congr 1
        omega
      · show ((data'.length : Nat) : Int) = W * H * 3
        rw [l2]; exact q2
      · intro i' j c a1 a2 a3 a4 a5
        show data'[_]? = _
        by_cases hsame : i' = i
        · subst hsame
          rw [hd, l3 j c a3 a4 a5, q1, take_drop_getD _ _ _ _ (by omega)]
          congr 2
          omega
        · obtain ⟨f0, f1⟩ := hdest i' a1 (by omega)
          have hne : (if ih.biHeight < 0 then i' else H - 1 - i') ≠ dest := by
            rw [← hd]; split <;> omega
          have hq := q3 i' j c a1 (by omega) a3 a4 a5
          generalize (if ih.biHeight < 0 then i' else H - 1 - i') = dest' at f0 f1 hne hq ⊢
          rw [l4 _ ?_]
          · exact hq
          · rcases lt_or_gt_of_ne hne with hlt | hgt
            · left
              have h1 : (dest' + 1) * W ≤ dest * W :=
                mul_le_mul_of_nonneg_right (by omega) hw
              have h2 : (dest' + 1) * W = dest' * W + W := by ring
              have h3 : 0 ≤ dest' * W := mul_nonneg f0 hw
              omega
            · right
              have h1 : (dest + 1) * W ≤ dest' * W :=
                mul_le_mul_of_nonneg_right (by omega) hw
              omega)
  refine ⟨st.2, ?_, s3, fun i j c a1 a2 a3 a4 a5 => ?_⟩
  · unfold loadBMP
    have t14 : (bytes.take 14).length = 14 := by rw [List.length_take]; omega
    have t40 : ((bytes.drop 14).take 40).length = 40 := by
      rw [List.length_take, List.length_drop]; omega
    simp only [ne_eq, bind, Except.bind, pure, Except.pure] at s1
    simp only [t14, t40, hfh, hih, hmagic, hbits, hcomp, hW, hHw, hPw, hNw, ne_eq,
      not_true_eq_false,
      if_false, bind, Except.bind, pure, Except.pure, liftVector_ok _ _ (resize_ok _ hn)]
    rw [if_neg (by omega), s1]
  · exact s4 i j c a1 a2 a3 a4 a5

theorem infoEncode_length (h : BMPInfoHeader) : h.encode.length = 40 := by
  simp only [BMPInfoHeader.encode, le32Bytes, le16Bytes, List.length_append, List.length_cons,
    List.length_nil]

theorem fileEncode_length (h : BMPFileHeader) : h.encode.length = 14 := by
  simp only [BMPFileHeader.encode, le32Bytes, le16Bytes, List.length_append, List.length_cons,
    List.length_nil]

/-- In exact arithmetic the stored byte is the clamp of the specification on the rounded
accumulation as long as that is below `2^31`, and 0 from `2^31` on. -/
theorem toChannel_exact (s : ℚ) :
    ((toChannel ExactArith s).val : Int)
      = if truncExact (roundHalfAway s) < 2147483648 then
          clampSpec (truncExact (roundHalfAway s))
        else 0 := by
  show ((clampByte (castInt (truncExact (roundHalfAway s)))).val : Int) = _
  generalize truncExact (roundHalfAway s) = t
  unfold clampByte castInt clampSpec
  simp only []
  split_ifs <;> omega

/-- Leading iterations that leave the state unchanged can be dropped from a loop. -/
theorem forLoop_skip {σ : Type} (body : Int → σ → Except ConvError σ) (s : σ) (m : Nat) :
    ∀ (n : Nat) (i : Int), (∀ k, i ≤ k → k < i + n → body k s = .ok s) →
      forLoop (n + m) i body s = forLoop m (i + n) body s := by
  intro n
  induction n with
  | zero =>
    intro i _
    simp only [Nat.zero_add, Nat.cast_zero, add_zero]
  | succ n ih =>
    intro i h
    have e : n + 1 + m = (n + m) + 1 := by omega
    rw [e]
    show (match body i s with
      | .ok s' => forLoop (n + m) (i + 1) body s'
      | .error e => .error e) = _
    rw [h i (le_refl _) (by push_cast; omega)]
    simp only []
    rw [ih (i + 1) (fun k h1 h2 => h k (by omega) (by push_cast; omega))]
    congr 1
    push_cast
    omega

/-- A loop all of whose iterations leave the state unchanged returns that state. -/
theorem forLoop_all_skip {σ : Type} (body : Int → σ → Except ConvError σ) (s : σ) (n : Nat)
    (i : Int) (h : ∀ k, i ≤ k → k < i + n → body k s = .ok s) :
    forLoop n i body s = .ok s := by
  have := forLoop_skip body s 0 n i h
  rw [Nat.add_zero] at this
  rw [this]
  rfl

/-- A loop whose first iteration fails, fails. -/
theorem forLoop_fail {σ : Type} (body : Int → σ → Except ConvError σ) (s : σ) (e : ConvError)
    (n : Nat) (i : Int) (h : body i s = .error e) : forLoop (n + 1) i body s = .error e := by
  show (match body i s with
    | .ok s' => forLoop n (i + 1) body s'
    | .error e => .error e) = _
  rw [h]

/-- A kernel row above the centre row of a 65536 x 65536 kernel lies outside a 1x1 image:
all its taps are skipped. -/
theorem kernelRow_skipped (A : DoubleArith) (r g b : Byte) (ky : Int) (s : Sums A)
    (hky : ky < 32768) :
    forLoop (32768 + (32767 + 1)) 0 (fun kx s =>
      accumulate A ⟨1, 1, [r, g, b]⟩ ([] : List A.F) (0 + kx - 32768) (0 + ky - 32768)
        (ky * 65536 + kx) s) s = .ok s :=
  forLoop_all_skip (fun kx s =>
      accumulate A ⟨1, 1, [r, g, b]⟩ ([] : List A.F) (0 + kx - 32768) (0 + ky - 32768)
        (ky * 65536 + kx) s) s (32768 + (32767 + 1)) 0 (fun k _ _ => by
    beta_reduce
    unfold accumulate
    dsimp only
    rw [if_pos (by omega)])

/-- The centre row of a 65536 x 65536 kernel at the pixel of a 1x1 image: the taps before
the centre are skipped and the centre tap reads a coefficient of the empty kernel. -/
theorem kernelRow_fails (A : DoubleArith) (r g b : Byte) (s : Sums A) :
    forLoop (32768 + (32767 + 1)) 0 (fun kx s =>
      accumulate A ⟨1, 1, [r, g, b]⟩ ([] : List A.F) (0 + kx - 32768)
        (0 + (0 + ((32768 : Nat) : Int)) - 32768)
        ((0 + ((32768 : Nat) : Int)) * 65536 + kx) s) s = .error .outOfBounds := by
  rw [forLoop_skip (fun kx s =>
      accumulate A ⟨1, 1, [r, g, b]⟩ ([] : List A.F) (0 + kx - 32768)
        (0 + (0 + ((32768 : Nat) : Int)) - 32768)
        ((0 + ((32768 : Nat) : Int)) * 65536 + kx) s) s (32767 + 1) 32768 0 (fun k _ h2 => by
    beta_reduce
    unfold accumulate
    dsimp only
    rw [if_pos (by push_cast at h2; omega)])]
  refine forLoop_fail _ s .outOfBounds 32767 (0 + ((32768 : Nat) : Int)) ?_
  simp only [accumulate, readAt]
  rfl

/-- The kernel loops of `applyConvolution` at the pixel of a 1x1 image, for an empty kernel
announced as 65536 x 65536: the taps before `(32768, 32768)` lie outside the image and are
skipped, and that tap reads the coefficient `kernel[32768*65536 + 32768]` of an empty
vector. -/
theorem kernelLoop_empty_kernel (A : DoubleArith) (r g b : Byte) :
    kernelLoop A ⟨1, 1, [r, g, b]⟩ ([] : List A.F) 65536 65536 32768 32768 0 0
      = .error .outOfBounds := by
  unfold kernelLoop forRange
  have e1 : ((65536 : Int) - 0).toNat = 32768 + (32767 + 1) := rfl
  rw [e1]
  dsimp only
  rw [forLoop_skip (fun ky s =>
        forLoop (32768 + (32767 + 1)) 0
          (fun kx s =>
            accumulate A ⟨1, 1, [r, g, b]⟩ ([] : List A.F) (0 + kx - 32768)
              (0 + ky - 32768) (ky * 65536 + kx) s)
          s) (Sums.init A) (32767 + 1) 32768 0
      (fun k _ h2 => kernelRow_skipped A r g b k _ (by push_cast at h2; omega))]
  exact forLoop_fail _ (Sums.init A) .outOfBounds 32767 (0 + ((32768 : Nat) : Int))
    (kernelRow_fails A r g b _)

/-- The pixel loop of the single row of a 1x1 image fails with the kernel loops. -/
theorem pixelLoop_empty_kernel (A : DoubleArith) (r g b : Byte) (out : List Byte) :
    forLoop (0 + 1) 0 (fun x out => do
        let s ← kernelLoop A ⟨1, 1, [r, g, b]⟩ ([] : List A.F) 65536 65536
          (halfKernelWidth 65536) (halfKernelHeight 65536) x 0
        storePixel A ⟨1, 1, [r, g, b]⟩ x 0 s out) out = .error .outOfBounds := by
  refine forLoop_fail _ out .outOfBounds 0 0 ?_
  beta_reduce
  have hhalfW : halfKernelWidth 65536 = 32768 := by decide
  have hhalfH : halfKernelHeight 65536 = 32768 := by decide
  rw [hhalfW, hhalfH, kernelLoop_empty_kernel]
  rfl

/-- The row loop of a 1x1 image fails with its pixel loop. -/
theorem rowLoop_empty_kernel (A : DoubleArith) (r g b : Byte) (out : List Byte) :
    forRange 0 1 (fun y out =>
      forRange 0 1 (fun x out => do
        let s ← kernelLoop A ⟨1, 1, [r, g, b]⟩ ([] : List A.F) 65536 65536
          (halfKernelWidth 65536) (halfKernelHeight 65536) x y
        storePixel A ⟨1, 1, [r, g, b]⟩ x y s out) out) out = .error .outOfBounds :=
  forLoop_fail (fun y out =>
      forRange 0 1 (fun x out => do
        let s ← kernelLoop A ⟨1, 1, [r, g, b]⟩ ([] : List A.F) 65536 65536
          (halfKernelWidth 65536) (halfKernelHeight 65536) x y
        storePixel A ⟨1, 1, [r, g, b]⟩ x y s out) out) out .outOfBounds 0 0
    (pixelLoop_empty_kernel A r g b out)
theorem bind_ok_eq {α β : Type} (x : Except ConvError α) (f : α → Except ConvError β) (a : α)
    (h : x = .ok a) : (x >>= f) = f a := by
  rw [h]; rfl

theorem bind_error_eq {α β : Type} (x : Except ConvError α) (f : α → Except ConvError β)
    (e : ConvError) (h : x = .error e) : (x >>= f) = .error e := by
  rw [h]; rfl

/-- On a 1x1 image, an empty kernel announced as 65536 x 65536 passes the size check and
`applyConvolution` then reads `kernel[32768*65536 + 32768]` of the empty vector. -/
theorem applyConvolution_empty_kernel (A : DoubleArith) (r g b : Byte) :
    applyConvolution A ⟨1, 1, [r, g, b]⟩ ([] : List A.F) 65536 65536
      = .error .outOfBounds := by
  unfold applyConvolution
  have hpass : ¬ ((([] : List A.F).length : Int) ≠ toSizeT (wrapInt (65536 * 65536))) := by
    show ¬ (((0 : Nat) : Int) ≠ toSizeT (wrapInt (65536 * 65536)))
    decide
  rw [if_neg hpass]
  have hres : resize ((1 : Int) * 1 * 3) = .ok [0, 0, 0] := by decide
  dsimp only
  rw [bind_ok_eq _ _ _ hres]
  exact bind_error_eq _ _ _ (rowLoop_empty_kernel A r g b _)

/-- A file whose pixel data size, as `loadBMP` computes it in `int`, is negative is not
loaded: `resize` gets a count beyond `max_size()`. -/
theorem loadBMP_size_overflow (bytes : List Byte) (hlen : 54 ≤ bytes.length)
    (hmagic : (BMPFileHeader.decode (bytes.take 14)).bfType = 0x4D42)
    (hbits : (BMPInfoHeader.decode ((bytes.drop 14).take 40)).biBitCount = 24)
    (hcomp : (BMPInfoHeader.decode ((bytes.drop 14).take 40)).biCompression = 0)
    (hneg : wrapInt (wrapInt ((BMPInfoHeader.decode ((bytes.drop 14).take 40)).biWidth
      * (if (BMPInfoHeader.decode ((bytes.drop 14).take 40)).biHeight < 0 then
          wrapInt (-(BMPInfoHeader.decode ((bytes.drop 14).take 40)).biHeight)
        else (BMPInfoHeader.decode ((bytes.drop 14).take 40)).biHeight)) * 3) < 0) :
    loadBMP (some bytes) = .error (.vector .lengthError) := by
  unfold loadBMP
  have t14 : (bytes.take 14).length = 14 := by rw [List.length_take]; omega
  have t40 : ((bytes.drop 14).take 40).length = 40 := by
    rw [List.length_take, List.length_drop]; omega
  simp only [t14, t40, hmagic, hbits, hcomp, ne_eq, not_true_eq_false, if_false, resize,
    if_pos hneg, liftVector, bind, Except.bind]

/-- Whatever follows the header `sampleTooWide`, also the complete pixel data it announces,
the file is not loaded. -/
theorem loadBMP_rejects_oversized (rest : List Byte) :
    (BMPInfoHeader.decode ((sampleTooWide.drop 14).take 40)).biWidth = 715827883 ∧
    (BMPInfoHeader.decode ((sampleTooWide.drop 14).take 40)).biHeight = 1 ∧
    loadBMP (some (sampleTooWide ++ rest)) = .error (.vector .lengthError) := by
  have e14 : (sampleTooWide ++ rest).take 14 = sampleTooWide.take 14 :=
    List.take_append_of_le_length (by decide)
  have e40 : ((sampleTooWide ++ rest).drop 14).take 40 = (sampleTooWide.drop 14).take 40 := by
    rw [List.drop_append_of_le_length (by decide),
      List.take_append_of_le_length (by decide)]
  refine ⟨by decide, by decide, ?_⟩
  apply loadBMP_size_overflow
  · rw [List.length_append]
    have : sampleTooWide.length = 54 := by decide
    omega
  · rw [e14]; decide
  · rw [e40]; decide
  · rw [e40]; decide
  · rw [e40]; decide

/-! ## Claims -/

/-- The per-pixel contract in exact arithmetic. On a valid image and a valid kernel whose
size fits an `int`, `applyConvolution` returns an image of the input's dimensions whose byte
at `(y*width+x)*3+c` is `clamp(round(S), 0, 255)` as long as `round(S) < 2^31`, and 0 from
there on; `S` is the accumulation `specSum` of the specification. -/
theorem pixel_contract_exact (input : BMPImage) (kernel : List ℚ)
    (kernelWidth kernelHeight : Int)
    (hw : 0 < input.width) (hh : 0 < input.height)
    (hdata : (input.data.length : Int) = input.width * input.height * 3)
    (hkw : 0 < kernelWidth) (hkh : 0 < kernelHeight)
    (hker : (kernel.length : Int) = kernelWidth * kernelHeight)
    (hfit : kernelWidth * kernelHeight < 2147483648) :
    ∃ output, applyConvolution ExactArith input kernel kernelWidth kernelHeight
        = .ok output ∧
      output.width = input.width ∧ output.height = input.height ∧
      ∀ (x y : Int) (c : Nat), 0 ≤ x → x < input.width → 0 ≤ y → y < input.height → c < 3 →
        ∃ b : Byte, output.data[((y * input.width + x) * 3 + c).toNat]? = some b ∧
          (b.val : Int)
            = if truncExact (roundHalfAway
                  (specSum ExactArith input kernel kernelWidth kernelHeight x y c))
                < 2147483648 then
                clampSpec (truncExact (roundHalfAway
                  (specSum ExactArith input kernel kernelWidth kernelHeight x y c)))
              else 0 := by
  obtain ⟨data, h1, _, h3⟩ := applyConvolution_ok ExactArith input kernel kernelWidth
    kernelHeight (le_of_lt hw) (le_of_lt hh) hdata hkw hkh hker
    (sizeCheck_fits _ _ _ hkw hkh hfit hker)
  refine ⟨⟨input.width, input.height, data⟩, h1, rfl, rfl, ?_⟩
  intro x y c a1 a2 a3 a4 a5
  exact ⟨_, h3 x y c a1 a2 a3 a4 a5, toChannel_exact _⟩

/-- C1 (fails on the code): the byte stored by `applyConvolution` is not
`clamp(round(S), 0, 255)` once `round(S)` reaches `2^31`. On the 1x1 image `(128, 1, 0)` and
the 1x1 kernel `{16777216}` the accumulation of channel 0 is `S = 128 * 16777216 = 2^31`,
`round(S) = 2^31` and `clamp(round(S), 0, 255) = 255`, but the code converts `round(S)` to
`int` before it clamps and stores 0. Channel 1 (`S = 16777216`) is stored as 255 and
channel 2 (`S = 0`) as 0, as the claim says. -/
theorem cast_precedes_clamp :
    specSum ExactArith ⟨1, 1, [128, 1, 0]⟩ ([16777216] : List ℚ) 1 1 0 0 0
      = (2147483648 : ℚ) ∧
    truncExact (roundHalfAway (2147483648 : ℚ)) = 2147483648 ∧
    clampSpec 2147483648 = 255 ∧
    applyConvolution ExactArith ⟨1, 1, [128, 1, 0]⟩ ([16777216] : List ℚ) 1 1
      = .ok ⟨1, 1, [0, 255, 0]⟩ ∧
    applyConvolution ExactArith ⟨1, 1, [128, 1, 0]⟩ ([16777216] : List ℚ) 1 1
      ≠ .ok ⟨1, 1, [255, 255, 0]⟩ := by
  refine ⟨by decide!, by decide!, by decide!, by decide!, by decide!⟩

/-- C2 (fails on the code): the sequential and the parallel strategy differ on a valid
2x1 image with a valid kernel of even width 2 and height 3. The centred loop of
`applyParallelConvolution` runs `kx` over `-1, 0, 1`, three columns for a kernel of two, and
at `kx = 1` reads `kernel[(0+1)*2 + (1+1)] = kernel[4]`, the first coefficient of the next
kernel row; `applyConvolution` never pairs that coefficient with a pixel of this image. -/
theorem parallel_differs_on_even_kernel :
    applyConvolution ExactArith ⟨2, 1, [10, 20, 30, 40, 50, 60]⟩
        ([0, 0, 0, 0, 1, 0] : List ℚ) 2 3 = .ok ⟨2, 1, [0, 0, 0, 0, 0, 0]⟩ ∧
    applyParallelConvolution ExactArith ⟨2, 1, [10, 20, 30, 40, 50, 60]⟩
        ([0, 0, 0, 0, 1, 0] : List ℚ) 2 3 = .ok ⟨2, 1, [40, 50, 60, 0, 0, 0]⟩ ∧
    applyConvolution ExactArith ⟨2, 1, [10, 20, 30, 40, 50, 60]⟩
        ([0, 0, 0, 0, 1, 0] : List ℚ) 2 3
      ≠ applyParallelConvolution ExactArith ⟨2, 1, [10, 20, 30, 40, 50, 60]⟩
        ([0, 0, 0, 0, 1, 0] : List ℚ) 2 3 := by
  decide!

/-- C6: for every image with `data.size() == width*height*3`, the 1x1 kernel `{1.0}` with
`applyConvolution`, and likewise with `applyParallelConvolution`, returns an image whose
width, height and data equal the input's.  The coefficient `1.0` enters through the one
fact used about it: for a channel value `b`, `0.0 + b * 1.0` rounds and clamps to `b`. -/
theorem identity_kernel_unchanged (A : DoubleArith) (one : A.F) (input : BMPImage)
    (hw : 0 < input.width) (hh : 0 < input.height)
    (hdata : (input.data.length : Int) = input.width * input.height * 3)
    (hone : ∀ b : Byte, toChannel A (A.add A.zero (A.mul (A.ofByte b) one)) = b) :
    applyConvolution A input [one] 1 1 = .ok input ∧
    applyParallelConvolution A input [one] 1 1 = .ok input := by
  have hseq : applyConvolution A input [one] 1 1 = .ok input := by
    obtain ⟨data, h1, h2, h3⟩ := applyConvolution_ok A input [one] 1 1 (le_of_lt hw)
      (le_of_lt hh) hdata (by decide) (by decide) rfl
      (sizeCheck_fits _ _ _ (by decide) (by decide) (by decide) rfl)
    have hd : data = input.data := by
      apply data_ext input.width input.height data input.data (le_of_lt hw) h2 hdata
      intro x y c a1 a2 a3 a4 a5
      rw [h3 x y c a1 a2 a3 a4 a5, specSum_one_by_one A input one x y c a1 a2 a3 a4, hone]
      have hb := pixel_index_bound input.width input.height x y a1 a2 a3 a4
      have hlt : ((y * input.width + x) * 3 + (c : Int)).toNat < input.data.length := by omega
      rw [List.getD_eq_getElem _ _ hlt, List.getElem?_eq_getElem hlt]
    rw [h1, hd]
  refine ⟨hseq, ?_⟩
  rw [applyParallelConvolution_eq_of_odd A input [one] 1 1 (by decide) (by decide)
    (by decide) (by decide)]
  exact hseq

theorem exact_one_channel : ∀ b : Byte,
    toChannel ExactArith (ExactArith.add ExactArith.zero
      (ExactArith.mul (ExactArith.ofByte b) (1 : ℚ))) = b := by
  decide!

/-- Witness for C6: a 2x2 image in exact arithmetic. -/
theorem identity_kernel_unchanged_witness :
    applyConvolution ExactArith ⟨2, 2, [1, 2, 3, 40, 50, 60, 7, 8, 9, 253, 254, 255]⟩
        ([1] : List ℚ) 1 1
      = .ok ⟨2, 2, [1, 2, 3, 40, 50, 60, 7, 8, 9, 253, 254, 255]⟩ ∧
    applyParallelConvolution ExactArith
        ⟨2, 2, [1, 2, 3, 40, 50, 60, 7, 8, 9, 253, 254, 255]⟩ ([1] : List ℚ) 1 1
      = .ok ⟨2, 2, [1, 2, 3, 40, 50, 60, 7, 8, 9, 253, 254, 255]⟩ :=
  identity_kernel_unchanged ExactArith (1 : ℚ)
    ⟨2, 2, [1, 2, 3, 40, 50, 60, 7, 8, 9, 253, 254, 255]⟩ (by decide) (by decide) (by decide)
    exact_one_channel

/-- C8 (as stated, fails): a 3x3 kernel whose only nonzero coefficient is its centre, here
`2.0`, does not leave the pixel of a 1x1 image unchanged. -/
theorem centre_tap_scales_pixel :
    applyConvolution ExactArith ⟨1, 1, [100, 10, 1]⟩
        ([0, 0, 0, 0, 2, 0, 0, 0, 0] : List ℚ) 3 3 = .ok ⟨1, 1, [200, 20, 2]⟩ ∧
    applyConvolution ExactArith ⟨1, 1, [100, 10, 1]⟩
        ([0, 0, 0, 0, 2, 0, 0, 0, 0] : List ℚ) 3 3 ≠ .ok ⟨1, 1, [100, 10, 1]⟩ := by
  decide!

/-- On a 1x1 image only the centre tap of a 3x3 kernel reads inside the image: the stored
channel is the conversion `toChannel` of `0.0 + p * kernel[4]`, whatever the eight other
coefficients. -/
theorem centre_tap_value (A : DoubleArith) (r g b : Byte)
    (k0 k1 k2 k3 k4 k5 k6 k7 k8 : A.F) :
    applyConvolution A ⟨1, 1, [r, g, b]⟩ [k0, k1, k2, k3, k4, k5, k6, k7, k8] 3 3
      = .ok ⟨1, 1, [toChannel A (A.add A.zero (A.mul (A.ofByte r) k4)),
                    toChannel A (A.add A.zero (A.mul (A.ofByte g) k4)),
                    toChannel A (A.add A.zero (A.mul (A.ofByte b) k4))]⟩ := rfl

/-- C8 (amended): for every 1x1 image and every 3x3 kernel whose centre coefficient is
`1.0`, `applyConvolution` returns a 1x1 image whose pixel is the input pixel unchanged,
whatever the eight other coefficients: their taps read outside the image and contribute
nothing. The coefficient `1.0` enters through the one fact used about it: for a channel
value `p`, `0.0 + p * 1.0` rounds and clamps to `p`. -/
theorem centre_tap_only (A : DoubleArith) (one : A.F) (r g b : Byte)
    (k0 k1 k2 k3 k5 k6 k7 k8 : A.F)
    (hone : ∀ p : Byte, toChannel A (A.add A.zero (A.mul (A.ofByte p) one)) = p) :
    applyConvolution A ⟨1, 1, [r, g, b]⟩ [k0, k1, k2, k3, one, k5, k6, k7, k8] 3 3
      = .ok ⟨1, 1, [r, g, b]⟩ := by
  rw [centre_tap_value, hone r, hone g, hone b]

/-- Witness for C8 (amended): centre coefficient `1.0` among other nonzero coefficients, in
exact arithmetic. -/
theorem centre_tap_only_witness :
    applyConvolution ExactArith ⟨1, 1, [100, 10, 1]⟩
      ([3, 0, 7, 0, 1, 0, 0, 5, 0] : List ℚ) 3 3 = .ok ⟨1, 1, [100, 10, 1]⟩ :=
  centre_tap_only ExactArith (1 : ℚ) 100 10 1 (3 : ℚ) (0 : ℚ) (7 : ℚ) (0 : ℚ) (0 : ℚ)
    (0 : ℚ) (5 : ℚ) (0 : ℚ) exact_one_channel

/-- C4 (fails on the code): the size check compares `kernel.size()` with the product
`kernelWidth * kernelHeight` computed in `int`. For `kernelWidth = kernelHeight = 65536` that
product is 0, so the empty kernel, whose size 0 differs from `65536 * 65536`, passes the
check: none of the three strategies fails with the error of the size check, on any input
image, and on an image without pixels `applyConvolution` returns normally. -/
theorem size_check_wraps :
    ((([] : List ℚ).length : Int) ≠ 65536 * 65536) ∧
    wrapInt (65536 * 65536) = 0 ∧
    (∀ (A : DoubleArith) (input : BMPImage),
      applyConvolution A input [] 65536 65536 ≠ .error .invalidKernel) ∧
    (∀ (A : DoubleArith) (input : BMPImage),
      applyParallelConvolution A input [] 65536 65536 ≠ .error .invalidKernel) ∧
    (∀ (A : DoubleArith) (rank size : Int) (inbox : Int → Option (List Byte))
        (input : BMPImage),
      applyDistributedParallelConvolution A rank size inbox input [] 65536 65536
        ≠ .error .invalidKernel) ∧
    applyConvolution ExactArith ⟨0, 0, []⟩ ([] : List ℚ) 65536 65536 = .ok ⟨0, 0, []⟩ := by
  have hpass : ∀ A : DoubleArith,
      ((([] : List A.F).length : Int) = toSizeT (wrapInt (65536 * 65536))) := by
    intro A
    show ((0 : Nat) : Int) = toSizeT (wrapInt (65536 * 65536))
    decide
  refine ⟨by decide, by decide, fun A input => ?_, fun A input => ?_,
    fun A rank size inbox input => ?_, by decide!⟩
  · exact (strategies_ne_invalid A [] 65536 65536 (hpass A)).1 input
  · exact (strategies_ne_invalid A [] 65536 65536 (hpass A)).2.1 input
  · exact (strategies_ne_invalid A [] 65536 65536 (hpass A)).2.2 rank size inbox input

/-- C9 (fails on the code): the stored channel byte saturates only while `round(sum)` is
below `2^31`. The 1x1 kernel `{2.0}` on channel value 150 (accumulation 300) gives 255 and
the 1x1 kernel `{-1.0}` on channel value 10 (accumulation -10) gives 0, as the claim says.
Under the 1x1 kernel `{16777216}` the channel values 200 and 150 have `round(sum)`
`3355443200` and `2516582400`, both `>= 255`, and are stored as 0, not 255: the code
converts `round(sum)` to `int` before it clamps. The channel value 10 (`round(sum) =
167772160`, below `2^31`) is stored as 255. -/
theorem saturation_lost_beyond_int :
    (specSum ExactArith ⟨1, 1, [150, 150, 150]⟩ ([2] : List ℚ) 1 1 0 0 0 = (300 : ℚ) ∧
      applyConvolution ExactArith ⟨1, 1, [150, 150, 150]⟩ ([2] : List ℚ) 1 1
        = .ok ⟨1, 1, [255, 255, 255]⟩) ∧
    (specSum ExactArith ⟨1, 1, [10, 10, 10]⟩ ([-1] : List ℚ) 1 1 0 0 0 = (-10 : ℚ) ∧
      applyConvolution ExactArith ⟨1, 1, [10, 10, 10]⟩ ([-1] : List ℚ) 1 1
        = .ok ⟨1, 1, [0, 0, 0]⟩) ∧
    (roundHalfAway (specSum ExactArith ⟨1, 1, [200, 150, 10]⟩ ([16777216] : List ℚ)
        1 1 0 0 0) = (3355443200 : ℚ) ∧
      roundHalfAway (specSum ExactArith ⟨1, 1, [200, 150, 10]⟩ ([16777216] : List ℚ)
        1 1 0 0 1) = (2516582400 : ℚ) ∧
      roundHalfAway (specSum ExactArith ⟨1, 1, [200, 150, 10]⟩ ([16777216] : List ℚ)
        1 1 0 0 2) = (167772160 : ℚ) ∧
      applyConvolution ExactArith ⟨1, 1, [200, 150, 10]⟩ ([16777216] : List ℚ) 1 1
        = .ok ⟨1, 1, [0, 0, 255]⟩) := by
  refine ⟨⟨by decide!, by decide!⟩, ⟨by decide!, by decide!⟩,
    by decide!, by decide!, by decide!, by decide!⟩

/-- C5: for every `height >= 0` and `worldSize >= 1`, with `rowsPerProcess`, `startRow` and
`endRow` as computed by `applyDistributedParallelConvolution`, the blocks
`[startRow(r), endRow(r))`, `r = 0..worldSize-1`, start at row 0, are consecutive
(`endRow(r) == startRow(r+1)`), end at `height`, lie inside `[0, height)`, cover every row
of `[0, height)`, and are pairwise disjoint; the last block has
`rowsPerProcess + (height mod worldSize)` rows; and the range in which the coordinator
receives the block of rank `i` is the range that rank `i` computed and sent. -/
theorem row_partition (height size : Int) (hh : 0 ≤ height) (hs : 1 ≤ size) :
    startRow height size 0 = 0 ∧
    endRow height size (size - 1) = height ∧
    (∀ r, 0 ≤ r → r < size - 1 → endRow height size r = startRow height size (r + 1)) ∧
    (∀ r y, 0 ≤ r → r < size → startRow height size r ≤ y → y < endRow height size r →
      0 ≤ y ∧ y < height) ∧
    (∀ y, 0 ≤ y → y < height →
      ∃ r, 0 ≤ r ∧ r < size ∧ startRow height size r ≤ y ∧ y < endRow height size r) ∧
    (∀ r r' y, 0 ≤ r → r < size → 0 ≤ r' → r' < size →
      startRow height size r ≤ y → y < endRow height size r →
      startRow height size r' ≤ y → y < endRow height size r' → r = r') ∧
    endRow height size (size - 1) - startRow height size (size - 1)
      = rowsPerProcess height size + height % size ∧
    (∀ i, recvStartRow height size i = startRow height size i ∧
      recvEndRow height size i = endRow height size i) := by
  obtain ⟨hqe, hq0, hq⟩ := rowsPerProcess_bounds height size hh hs
  have hdisj : ∀ r r' y, 0 ≤ r → r < r' → r' < size →
      y < endRow height size r → startRow height size r' ≤ y → False := by
    intro r r' y hr0 hrr hr' hy1 hy2
    unfold endRow at hy1
    rw [if_neg (by omega)] at hy1
    unfold startRow at hy1 hy2
    have h2 : (r + 1) * rowsPerProcess height size ≤ r' * rowsPerProcess height size :=
      mul_le_mul_of_nonneg_right (by omega) hq0
    have : (r + 1) * rowsPerProcess height size
        = r * rowsPerProcess height size + rowsPerProcess height size := by ring
    omega
  refine ⟨?_, ?_, ?_, ?_, ?_, ?_, ?_, ?_⟩
  · unfold startRow; ring
  · unfold endRow; rw [if_pos rfl]
  · intro r hr0 hr
    unfold endRow startRow
    rw [if_neg (by omega)]
    ring
  · intro r y hr0 hr h1 h2
    obtain ⟨b1, _, b3⟩ := block_bounds height size r hh hs hr0 hr
    omega
  · intro y hy0 hy
    by_cases hq1 : rowsPerProcess height size = 0
    · refine ⟨size - 1, by omega, by omega, ?_, ?_⟩
      · unfold startRow; rw [hq1]; omega
      · unfold endRow; rw [if_pos rfl]; exact hy
    · have hqpos : 0 < rowsPerProcess height size := by omega
      by_cases hlast : y / rowsPerProcess height size < size - 1
      · refine ⟨y / rowsPerProcess height size, Int.ediv_nonneg hy0 hq0, by omega, ?_, ?_⟩
        · unfold startRow
          exact Int.ediv_mul_le y (by omega)
        · unfold endRow startRow
          rw [if_neg (by omega)]
          have := Int.lt_ediv_add_one_mul_self y hqpos
          have e : (y / rowsPerProcess height size + 1) * rowsPerProcess height size
              = y / rowsPerProcess height size * rowsPerProcess height size
                + rowsPerProcess height size := by ring
          omega
      · refine ⟨size - 1, by omega, by omega, ?_, ?_⟩
        · unfold startRow
          have h1 : (size - 1) * rowsPerProcess height size
              ≤ y / rowsPerProcess height size * rowsPerProcess height size :=
            mul_le_mul_of_nonneg_right (by omega) hq0
          have h2 := Int.ediv_mul_le y (by omega : rowsPerProcess height size ≠ 0)
          omega
        · unfold endRow; rw [if_pos rfl]; exact hy
  · intro r r' y hr0 hr hr'0 hr' a1 a2 b1 b2
    rcases lt_trichotomy r r' with h | h | h
    · exact (hdisj r r' y hr0 h hr' a2 b1).elim
    · exact h
    · exact (hdisj r' r y hr'0 h hr b2 a1).elim
  · unfold endRow startRow
    rw [if_pos rfl, hqe]
    have := Int.emod_add_ediv height size
    have e : (size - 1) * (height / size) = size * (height / size) - height / size := by ring
    omega
  · intro i
    exact ⟨rfl, rfl⟩

/-- Witness for C5: seven rows over three processes (blocks of 2, 2 and 3 rows). -/
theorem row_partition_witness :
    startRow 7 3 0 = 0 ∧
    endRow 7 3 (3 - 1) = 7 ∧
    (∀ r, 0 ≤ r → r < 3 - 1 → endRow 7 3 r = startRow 7 3 (r + 1)) ∧
    (∀ r y, 0 ≤ r → r < 3 → startRow 7 3 r ≤ y → y < endRow 7 3 r → 0 ≤ y ∧ y < 7) ∧
    (∀ y, 0 ≤ y → y < 7 → ∃ r, 0 ≤ r ∧ r < 3 ∧ startRow 7 3 r ≤ y ∧ y < endRow 7 3 r) ∧
    (∀ r r' y, 0 ≤ r → r < 3 → 0 ≤ r' → r' < 3 →
      startRow 7 3 r ≤ y → y < endRow 7 3 r →
      startRow 7 3 r' ≤ y → y < endRow 7 3 r' → r = r') ∧
    endRow 7 3 (3 - 1) - startRow 7 3 (3 - 1) = rowsPerProcess 7 3 + 7 % 3 ∧
    (∀ i, recvStartRow 7 3 i = startRow 7 3 i ∧ recvEndRow 7 3 i = endRow 7 3 i) :=
  row_partition 7 3 (by decide) (by decide)

/-- C3: for every valid image and kernel and every `worldSize >= 1` (so for 1, 2, 3 and 5),
when every rank runs `applyDistributedParallelConvolution` on the same input and every rank
other than 0 sends its row block to rank 0, the image returned on rank 0 is the image
returned by `applyConvolution`, byte for byte; for `worldSize == 1` nothing is received and
the local result is already the sequential one, whatever the inbox holds. Both calls return
an image when the product `kernelWidth*kernelHeight` of the size check is an `int`. -/
theorem distributed_equals_sequential (A : DoubleArith) (input : BMPImage)
    (kernel : List A.F) (kernelWidth kernelHeight size : Int)
    (hw : 0 < input.width) (hh : 0 < input.height)
    (hdata : (input.data.length : Int) = input.width * input.height * 3)
    (hkw : 0 < kernelWidth) (hkh : 0 < kernelHeight)
    (hker : (kernel.length : Int) = kernelWidth * kernelHeight)
    (hs : 1 ≤ size) :
    distributedRun A size input kernel kernelWidth kernelHeight
      = applyConvolution A input kernel kernelWidth kernelHeight ∧
    (kernelWidth * kernelHeight < 2147483648 →
      ∃ output, applyConvolution A input kernel kernelWidth kernelHeight = .ok output) ∧
    ∀ inbox, applyDistributedParallelConvolution A 0 1 inbox input kernel kernelWidth
        kernelHeight
      = (applyConvolution A input kernel kernelWidth kernelHeight).map
          (fun image => (image, none)) := by
  by_cases hpass : (kernel.length : Int) = toSizeT (wrapInt (kernelWidth * kernelHeight))
  · refine ⟨?_, fun _ => ?_, ?_⟩
    · obtain ⟨data, h1, _, h3⟩ := coordinator_result A input kernel kernelWidth kernelHeight
        size (sentBy A size input kernel kernelWidth kernelHeight) (le_of_lt hw) (le_of_lt hh)
        hdata hkw hkh hker hpass hs (fun _ _ _ => rfl)
      unfold distributedRun
      rw [h3, h1]
    · obtain ⟨data, h1, _, _⟩ := applyConvolution_ok A input kernel kernelWidth kernelHeight
        (le_of_lt hw) (le_of_lt hh) hdata hkw hkh hker hpass
      exact ⟨_, h1⟩
    · intro inbox
      obtain ⟨data, h1, _, h3⟩ := coordinator_result A input kernel kernelWidth kernelHeight
        1 inbox (le_of_lt hw) (le_of_lt hh) hdata hkw hkh hker hpass (le_refl _)
        (fun i a b => absurd a (by omega))
      rw [h3, h1]
      rfl
  · obtain ⟨d1, _, d3⟩ := size_check_decides A kernel kernelWidth kernelHeight
    have hseq := (d1 input).mpr hpass
    refine ⟨?_, fun hfit => absurd (sizeCheck_fits _ _ _ hkw hkh hfit hker) hpass, ?_⟩
    · unfold distributedRun
      rw [(d3 0 size _ input).mpr hpass, hseq]
    · intro inbox
      rw [(d3 0 1 inbox input).mpr hpass, hseq]
      rfl

/-- Witness for C3: a 2x5 image, the 3x3 sharpening kernel and three processes (blocks of
1, 1 and 3 rows). -/
theorem distributed_equals_sequential_witness :
    distributedRun ExactArith 3
        ⟨2, 5, [10, 20, 30, 40, 50, 60, 1, 2, 3, 4, 5, 6, 7, 8, 9, 10, 11, 12,
          100, 110, 120, 130, 140, 150, 255, 254, 253, 200, 201, 202]⟩
        ([0, -1, 0, -1, 5, -1, 0, -1, 0] : List ℚ) 3 3
      = applyConvolution ExactArith
        ⟨2, 5, [10, 20, 30, 40, 50, 60, 1, 2, 3, 4, 5, 6, 7, 8, 9, 10, 11, 12,
          100, 110, 120, 130, 140, 150, 255, 254, 253, 200, 201, 202]⟩
        ([0, -1, 0, -1, 5, -1, 0, -1, 0] : List ℚ) 3 3 ∧
    ∃ output, applyConvolution ExactArith
        ⟨2, 5, [10, 20, 30, 40, 50, 60, 1, 2, 3, 4, 5, 6, 7, 8, 9, 10, 11, 12,
          100, 110, 120, 130, 140, 150, 255, 254, 253, 200, 201, 202]⟩
        ([0, -1, 0, -1, 5, -1, 0, -1, 0] : List ℚ) 3 3 = .ok output :=
  ⟨(distributed_equals_sequential ExactArith
      ⟨2, 5, [10, 20, 30, 40, 50, 60, 1, 2, 3, 4, 5, 6, 7, 8, 9, 10, 11, 12,
        100, 110, 120, 130, 140, 150, 255, 254, 253, 200, 201, 202]⟩
      ([0, -1, 0, -1, 5, -1, 0, -1, 0] : List ℚ) 3 3 3
      (by decide) (by decide) (by decide) (by decide) (by decide) (by decide)
      (by decide)).1,
    (distributed_equals_sequential ExactArith
      ⟨2, 5, [10, 20, 30, 40, 50, 60, 1, 2, 3, 4, 5, 6, 7, 8, 9, 10, 11, 12,
        100, 110, 120, 130, 140, 150, 255, 254, 253, 200, 201, 202]⟩
      ([0, -1, 0, -1, 5, -1, 0, -1, 0] : List ℚ) 3 3 3
      (by decide) (by decide) (by decide) (by decide) (by decide) (by decide)
      (by decide)).2.1 (by decide)⟩

/-- C10 (fails on the code): a kernel that passes the size check does not always yield an
image. The empty kernel announced as 65536 x 65536 passes the check, the `int` product
being 0; on a valid 1x1 image `applyConvolution` then reaches the tap `(32768, 32768)`, the
only one whose source pixel is inside the image, and reads `kernel[32768*65536 + 32768]` of
a vector without elements: no image is returned. -/
theorem wrapped_size_reads_empty_kernel :
    ((([] : List ℚ).length : Int) = toSizeT (wrapInt (65536 * 65536))) ∧
    applyConvolution ExactArith ⟨1, 1, [10, 20, 30]⟩ ([] : List ℚ) 65536 65536
      = .error .outOfBounds ∧
    ∀ output, applyConvolution ExactArith ⟨1, 1, [10, 20, 30]⟩ ([] : List ℚ) 65536 65536
      ≠ .ok output := by
  have h := applyConvolution_empty_kernel ExactArith 10 20 30
  refine ⟨by decide, h, fun output ho => ?_⟩
  rw [h] at ho
  cases ho

/-- The part of C10 that holds: on a valid image and a valid kernel whose size fits an `int`,
`applyConvolution`, the coordinator and the other ranks of
`applyDistributedParallelConvolution`, and `applyParallelConvolution` when the kernel's
width and height are odd, return an image of the input's width and height with
`width*height*3` bytes. -/
theorem output_dimensions (A : DoubleArith) (input : BMPImage)
    (kernel : List A.F) (kernelWidth kernelHeight size : Int)
    (hw : 0 < input.width) (hh : 0 < input.height)
    (hdata : (input.data.length : Int) = input.width * input.height * 3)
    (hkw : 0 < kernelWidth) (hkh : 0 < kernelHeight)
    (hker : (kernel.length : Int) = kernelWidth * kernelHeight)
    (hfit : kernelWidth * kernelHeight < 2147483648)
    (hs : 1 ≤ size) :
    (∃ output, applyConvolution A input kernel kernelWidth kernelHeight = .ok output ∧
      output.width = input.width ∧ output.height = input.height ∧
      (output.data.length : Int) = input.width * input.height * 3) ∧
    (kernelWidth % 2 = 1 → kernelHeight % 2 = 1 →
      ∃ output, applyParallelConvolution A input kernel kernelWidth kernelHeight
          = .ok output ∧
        output.width = input.width ∧ output.height = input.height ∧
        (output.data.length : Int) = input.width * input.height * 3) ∧
    (∃ output, distributedRun A size input kernel kernelWidth kernelHeight = .ok output ∧
      output.width = input.width ∧ output.height = input.height ∧
      (output.data.length : Int) = input.width * input.height * 3) ∧
    (∀ rank inbox, 1 ≤ rank → rank < size →
      ∃ output msg, applyDistributedParallelConvolution A rank size inbox input kernel
          kernelWidth kernelHeight = .ok (output, msg) ∧
        output.width = input.width ∧ output.height = input.height ∧
        (output.data.length : Int) = input.width * input.height * 3) := by
  have hpass := sizeCheck_fits _ _ _ hkw hkh hfit hker
  obtain ⟨data, h1, h2, h3⟩ := applyConvolution_ok A input kernel kernelWidth kernelHeight
    (le_of_lt hw) (le_of_lt hh) hdata hkw hkh hker hpass
  refine ⟨⟨⟨input.width, input.height, data⟩, h1, rfl, rfl, h2⟩,
    fun o1 o2 => ⟨⟨input.width, input.height, data⟩, ?_, rfl, rfl, h2⟩, ?_, ?_⟩
  · rw [applyParallelConvolution_eq_of_odd A input kernel kernelWidth kernelHeight hkw hkh
      o1 o2]
    exact h1
  · obtain ⟨data', c1, c2, c3⟩ := coordinator_result A input kernel kernelWidth
      kernelHeight size (sentBy A size input kernel kernelWidth kernelHeight)
      (le_of_lt hw) (le_of_lt hh) hdata hkw hkh hker hpass hs (fun _ _ _ => rfl)
    refine ⟨⟨input.width, input.height, data'⟩, ?_, rfl, rfl, c2⟩
    unfold distributedRun
    rw [c3]
  · intro rank inbox hr1 hr
    obtain ⟨out, m, w1, w2, _, _⟩ := worker_result A input kernel kernelWidth kernelHeight
      size rank inbox data (le_of_lt hw) (le_of_lt hh) hdata hkw hkh hker hpass hs hr1 hr h3
    exact ⟨⟨input.width, input.height, out⟩, some m, w1, rfl, rfl, w2⟩

/-- C16: for every kernel with `kernel.size() == kernelWidth*kernelHeight` and odd positive
`kernelWidth`, `kernelHeight`, the kernel loops of `applyParallelConvolution` run their
body on exactly the same source pixels and coefficient indices, in the same order, as
those of `applyConvolution` (the two loops are the traversals with the body `accumulate`;
they agree for every body); every coefficient index the centred loop produces is in
`[0, kernelWidth*kernelHeight)`; and on every image the two functions return the same
result, which on a valid image is an image (the product of the size check being an
`int`). -/
theorem parallel_visits_same_taps (A : DoubleArith) (input : BMPImage) (kernel : List A.F)
    (kernelWidth kernelHeight : Int)
    (hkw : 0 < kernelWidth) (hkh : 0 < kernelHeight)
    (hwodd : kernelWidth % 2 = 1) (hhodd : kernelHeight % 2 = 1)
    (hker : (kernel.length : Int) = kernelWidth * kernelHeight) :
    (∀ x y : Int,
      kernelLoopCentered A input kernel kernelWidth (kernelWidth.tdiv 2)
          (kernelHeight.tdiv 2) x y
        = traverseCentered kernelWidth (kernelWidth.tdiv 2) (kernelHeight.tdiv 2) x y
            (accumulate A input kernel) (Sums.init A) ∧
      kernelLoop A input kernel kernelWidth kernelHeight (halfKernelWidth kernelWidth)
          (halfKernelHeight kernelHeight) x y
        = traverseSequential kernelWidth kernelHeight (halfKernelWidth kernelWidth)
            (halfKernelHeight kernelHeight) x y (accumulate A input kernel) (Sums.init A)) ∧
    (∀ (σ : Type) (visit : Int → Int → Int → σ → Except ConvError σ) (s : σ) (x y : Int),
      traverseCentered kernelWidth (kernelWidth.tdiv 2) (kernelHeight.tdiv 2) x y visit s
        = traverseSequential kernelWidth kernelHeight (halfKernelWidth kernelWidth)
            (halfKernelHeight kernelHeight) x y visit s) ∧
    (∀ x y : Int, ∃ trace,
      traverseCentered kernelWidth (kernelWidth.tdiv 2) (kernelHeight.tdiv 2) x y
        recordTap [] = .ok trace ∧
      ∀ t ∈ trace, 0 ≤ t.2.2 ∧ t.2.2 < (kernel.length : Int)) ∧
    applyParallelConvolution A input kernel kernelWidth kernelHeight
      = applyConvolution A input kernel kernelWidth kernelHeight ∧
    (0 < input.width → 0 < input.height →
      (input.data.length : Int) = input.width * input.height * 3 →
      kernelWidth * kernelHeight < 2147483648 →
      ∃ output, applyParallelConvolution A input kernel kernelWidth kernelHeight
        = .ok output) := by
  refine ⟨fun x y => ⟨rfl, rfl⟩, ?_, ?_, ?_, ?_⟩
  · intro σ visit s x y
    exact traverseCentered_eq_traverseSequential kernelWidth kernelHeight x y visit s
      hkw hkh hwodd hhodd
  · intro x y
    rw [hker]
    exact traverseCentered_indices kernelWidth kernelHeight x y hkw hkh hwodd hhodd
  · exact applyParallelConvolution_eq_of_odd A input kernel kernelWidth kernelHeight hkw hkh
      hwodd hhodd
  · intro hw hh hdata hfit
    obtain ⟨data, h1, _, _⟩ := applyConvolution_ok A input kernel kernelWidth kernelHeight
      (le_of_lt hw) (le_of_lt hh) hdata hkw hkh hker (sizeCheck_fits _ _ _ hkw hkh hfit hker)
    rw [applyParallelConvolution_eq_of_odd A input kernel kernelWidth kernelHeight hkw hkh
      hwodd hhodd]
    exact ⟨_, h1⟩

/-- Witness for C16: the 3x3 sharpening kernel on a 2x2 image. -/
theorem parallel_visits_same_taps_witness :
    applyParallelConvolution ExactArith
        ⟨2, 2, [10, 20, 30, 40, 50, 60, 70, 80, 90, 100, 110, 120]⟩
        ([0, -1, 0, -1, 5, -1, 0, -1, 0] : List ℚ) 3 3
      = applyConvolution ExactArith
        ⟨2, 2, [10, 20, 30, 40, 50, 60, 70, 80, 90, 100, 110, 120]⟩
        ([0, -1, 0, -1, 5, -1, 0, -1, 0] : List ℚ) 3 3 ∧
    ∃ output, applyParallelConvolution ExactArith
        ⟨2, 2, [10, 20, 30, 40, 50, 60, 70, 80, 90, 100, 110, 120]⟩
        ([0, -1, 0, -1, 5, -1, 0, -1, 0] : List ℚ) 3 3 = .ok output :=
  ⟨(parallel_visits_same_taps ExactArith
      ⟨2, 2, [10, 20, 30, 40, 50, 60, 70, 80, 90, 100, 110, 120]⟩
      ([0, -1, 0, -1, 5, -1, 0, -1, 0] : List ℚ) 3 3
      (by decide) (by decide) (by decide) (by decide) (by decide)).2.2.2.1,
    (parallel_visits_same_taps ExactArith
      ⟨2, 2, [10, 20, 30, 40, 50, 60, 70, 80, 90, 100, 110, 120]⟩
      ([0, -1, 0, -1, 5, -1, 0, -1, 0] : List ℚ) 3 3
      (by decide) (by decide) (by decide) (by decide) (by decide)).2.2.2.2
      (by decide) (by decide) (by decide) (by decide)⟩

/-- C17: under `width > 0`, `height > 0`, `input.data.size() == width*height*3`,
`kernelWidth > 0`, `kernelHeight > 0` and `kernel.size() == kernelWidth*kernelHeight`,
every buffer access of `applyConvolution` is in bounds: the call returns an image (no
access took the failing branch of `readAt` or `writeAt`; the product of the size check
being an `int`); for every output pixel and every
tap that is not skipped, the three pixel reads at `pixelIndex + c` and the coefficient read
at `ky*kernelWidth + kx` succeed, with indices inside the vectors; and every write index
`outIndex + c` is inside the output buffer. -/
theorem accesses_in_bounds (A : DoubleArith) (input : BMPImage) (kernel : List A.F)
    (kernelWidth kernelHeight : Int)
    (hw : 0 < input.width) (hh : 0 < input.height)
    (hdata : (input.data.length : Int) = input.width * input.height * 3)
    (hkw : 0 < kernelWidth) (hkh : 0 < kernelHeight)
    (hker : (kernel.length : Int) = kernelWidth * kernelHeight) :
    (kernelWidth * kernelHeight < 2147483648 →
      ∃ output, applyConvolution A input kernel kernelWidth kernelHeight = .ok output ∧
        (output.data.length : Int) = input.width * input.height * 3) ∧
    (∀ x y ky kx : Int, 0 ≤ x → x < input.width → 0 ≤ y → y < input.height →
      0 ≤ ky → ky < kernelHeight → 0 ≤ kx → kx < kernelWidth →
      ¬ (x + kx - halfKernelWidth kernelWidth < 0 ∨
          x + kx - halfKernelWidth kernelWidth ≥ input.width ∨
          y + ky - halfKernelHeight kernelHeight < 0 ∨
          y + ky - halfKernelHeight kernelHeight ≥ input.height) →
      (∀ c : Int, 0 ≤ c → c < 3 →
        0 ≤ ((y + ky - halfKernelHeight kernelHeight) * input.width
            + (x + kx - halfKernelWidth kernelWidth)) * 3 + c ∧
        ((y + ky - halfKernelHeight kernelHeight) * input.width
            + (x + kx - halfKernelWidth kernelWidth)) * 3 + c < (input.data.length : Int) ∧
        ∃ b, readAt input.data (((y + ky - halfKernelHeight kernelHeight) * input.width
            + (x + kx - halfKernelWidth kernelWidth)) * 3 + c) = .ok b) ∧
      0 ≤ ky * kernelWidth + kx ∧ ky * kernelWidth + kx < (kernel.length : Int) ∧
      ∃ k, readAt kernel (ky * kernelWidth + kx) = .ok k) ∧
    (∀ (x y c : Int) (out : List Byte) (b : Byte), 0 ≤ x → x < input.width → 0 ≤ y →
      y < input.height → 0 ≤ c → c < 3 →
      (out.length : Int) = input.width * input.height * 3 →
      0 ≤ (y * input.width + x) * 3 + c ∧
      (y * input.width + x) * 3 + c < (out.length : Int) ∧
      ∃ out', writeAt out ((y * input.width + x) * 3 + c) b = .ok out') := by
  refine ⟨?_, ?_, ?_⟩
  · intro hfit
    obtain ⟨data, h1, h2, _⟩ := applyConvolution_ok A input kernel kernelWidth kernelHeight
      (le_of_lt hw) (le_of_lt hh) hdata hkw hkh hker (sizeCheck_fits _ _ _ hkw hkh hfit hker)
    exact ⟨⟨input.width, input.height, data⟩, h1, h2⟩
  · intro x y ky kx hx0 hx hy0 hy hky0 hky hkx0 hkx hin
    have hb := pixel_index_bound input.width input.height
      (x + kx - halfKernelWidth kernelWidth) (y + ky - halfKernelHeight kernelHeight)
      (by omega) (by omega) (by omega) (by omega)
    have hk := pixel_index_bound kernelWidth kernelHeight kx ky hkx0 hkx hky0 hky
    refine ⟨fun c hc0 hc3 => ⟨by omega, by omega, ?_⟩, by omega, by omega, ?_⟩
    · exact ⟨_, readAt_ok _ _ (by omega) (by omega)⟩
    · exact ⟨_, readAt_ok _ _ (by omega) (by omega)⟩
  · intro x y c out b hx0 hx hy0 hy hc0 hc3 hlen
    have hb := pixel_index_bound input.width input.height x y hx0 hx hy0 hy
    exact ⟨by omega, by omega, _, writeAt_ok _ _ _ (by omega) (by omega)⟩

/-- Witness for C17: a 2x2 image and a 2x2 kernel. -/
theorem accesses_in_bounds_witness :
    ∃ output, applyConvolution ExactArith
        ⟨2, 2, [10, 20, 30, 40, 50, 60, 70, 80, 90, 100, 110, 120]⟩
        ([1, 0, 0, 1] : List ℚ) 2 2 = .ok output ∧
      (output.data.length : Int) = 2 * 2 * 3 :=
  (accesses_in_bounds ExactArith
    ⟨2, 2, [10, 20, 30, 40, 50, 60, 70, 80, 90, 100, 110, 120]⟩
    ([1, 0, 0, 1] : List ℚ) 2 2
    (by decide) (by decide) (by decide) (by decide) (by decide) (by decide)).1 (by decide)

/-- C18: locality of `applyConvolution`. For two valid images of the same width and height,
a valid kernel (the product of its size check an `int`) and every output pixel `(x, y)` and
channel `c`: if the images agree on channel `c` of every
pixel `(u, v)` of the image with `x - kernelWidth/2 <= u <= x + kernelWidth - 1 -
kernelWidth/2` and `y - kernelHeight/2 <= v <= y + kernelHeight - 1 - kernelHeight/2`, the
two outputs have the same byte at channel `c` of pixel `(x, y)`. So the three bytes agree
when the windows agree, and channel `c` of the output depends on channel `c` of the input
only. -/
theorem convolution_local (A : DoubleArith) (imageA imageB : BMPImage) (kernel : List A.F)
    (kernelWidth kernelHeight : Int)
    (hw : 0 < imageA.width) (hh : 0 < imageA.height)
    (hwidth : imageA.width = imageB.width) (hheight : imageA.height = imageB.height)
    (hdataA : (imageA.data.length : Int) = imageA.width * imageA.height * 3)
    (hdataB : (imageB.data.length : Int) = imageB.width * imageB.height * 3)
    (hkw : 0 < kernelWidth) (hkh : 0 < kernelHeight)
    (hker : (kernel.length : Int) = kernelWidth * kernelHeight)
    (hfit : kernelWidth * kernelHeight < 2147483648) :
    ∃ outA outB, applyConvolution A imageA kernel kernelWidth kernelHeight = .ok outA ∧
      applyConvolution A imageB kernel kernelWidth kernelHeight = .ok outB ∧
      ∀ (x y : Int) (c : Nat), 0 ≤ x → x < imageA.width → 0 ≤ y → y < imageA.height → c < 3 →
        (∀ u v : Int, 0 ≤ u → u < imageA.width → 0 ≤ v → v < imageA.height →
          x - kernelWidth / 2 ≤ u → u ≤ x + kernelWidth - 1 - kernelWidth / 2 →
          y - kernelHeight / 2 ≤ v → v ≤ y + kernelHeight - 1 - kernelHeight / 2 →
          imageA.data[((v * imageA.width + u) * 3 + c).toNat]?
            = imageB.data[((v * imageA.width + u) * 3 + c).toNat]?) →
        outA.data[((y * imageA.width + x) * 3 + c).toNat]?
          = outB.data[((y * imageA.width + x) * 3 + c).toNat]? := by
  have hpass := sizeCheck_fits _ _ _ hkw hkh hfit hker
  obtain ⟨dataA, a1, _, a3⟩ := applyConvolution_ok A imageA kernel kernelWidth kernelHeight
    (le_of_lt hw) (le_of_lt hh) hdataA hkw hkh hker hpass
  obtain ⟨dataB, b1, _, b3⟩ := applyConvolution_ok A imageB kernel kernelWidth kernelHeight
    (by omega) (by omega) hdataB hkw hkh hker hpass
  refine ⟨_, _, a1, b1, ?_⟩
  intro x y c hx0 hx hy0 hy hc hagree
  show dataA[((y * imageA.width + x) * 3 + c).toNat]?
    = dataB[((y * imageA.width + x) * 3 + c).toNat]?
  rw [a3 x y c hx0 hx hy0 hy hc]
  have hb := b3 x y c hx0 (by omega) hy0 (by omega) hc
  rw [← hwidth] at hb
  rw [hb, specSum_congr A imageA imageB kernel kernelWidth kernelHeight x y c hwidth hheight]
  intro u v u0 u1 v0 v1 w1 w2 w3 w4
  rw [List.getD_eq_getElem?_getD, List.getD_eq_getElem?_getD,
    hagree u v u0 u1 v0 v1 w1 w2 w3 w4]

/-- Witness for C18: two 2x1 images that differ in the second pixel only, under a 1x1
kernel: the first output pixel is the same. -/
theorem convolution_local_witness :
    ∃ outA outB,
      applyConvolution ExactArith ⟨2, 1, [10, 20, 30, 40, 50, 60]⟩ ([2] : List ℚ) 1 1
        = .ok outA ∧
      applyConvolution ExactArith ⟨2, 1, [10, 20, 30, 41, 51, 61]⟩ ([2] : List ℚ) 1 1
        = .ok outB ∧
      ∀ (x y : Int) (c : Nat), 0 ≤ x → x < 2 → 0 ≤ y → y < 1 → c < 3 →
        (∀ u v : Int, 0 ≤ u → u < 2 → 0 ≤ v → v < 1 →
          x - 1 / 2 ≤ u → u ≤ x + 1 - 1 - 1 / 2 →
          y - 1 / 2 ≤ v → v ≤ y + 1 - 1 - 1 / 2 →
          ([10, 20, 30, 40, 50, 60] : List Byte)[((v * 2 + u) * 3 + c).toNat]?
            = ([10, 20, 30, 41, 51, 61] : List Byte)[((v * 2 + u) * 3 + c).toNat]?) →
        outA.data[((y * 2 + x) * 3 + c).toNat]? = outB.data[((y * 2 + x) * 3 + c).toNat]? :=
  convolution_local ExactArith ⟨2, 1, [10, 20, 30, 40, 50, 60]⟩
    ⟨2, 1, [10, 20, 30, 41, 51, 61]⟩ ([2] : List ℚ) 1 1
    (by decide) (by decide) (by decide) (by decide) (by decide) (by decide) (by decide)
    (by decide) (by decide) (by decide)

theorem parseCoefficients_ok {F : Type} (stod : String → Option F) :
    ∀ (args : List String) (acc vals : List F),
      args.map stod = vals.map some →
      parseCoefficients stod args acc = some (acc ++ vals) := by
  intro args
  induction args with
  | nil =>
    intro acc vals h
    cases vals with
    | nil => simp only [parseCoefficients, List.append_nil]
    | cons v vs => simp only [List.map_nil, List.map_cons] at h; cases h
  | cons arg rest ih =>
    intro acc vals h
    cases vals with
    | nil => simp only [List.map_nil, List.map_cons] at h; cases h
    | cons v vs =>
      simp only [List.map_cons, List.cons.injEq] at h
      unfold parseCoefficients
      rw [h.1]
      simp only []
      rw [ih (acc ++ [v]) vs h.2, List.append_assoc]
      rfl

/-- The argument handling of `main`, with its `int` arithmetic. Whenever the `try` block is
entered the kernel passes the size check of the strategies, so no convolution call fails
with the error of that check; with `4 <= argc < 6` the kernel is 3x3 with nine
coefficients equal to the value of `1.0 / 9`; with `argc >= 6`, `main` ends in `printUsage`
unless `argc` equals the `int` value of `6 + kernelWidth*kernelHeight`, and goes on, when
every coefficient parses, with the `argc - 6` values parsed from `argv[6..]` in argument
order. When `6 + kernelWidth*kernelHeight` is an `int`, the kernel has exactly
`kernelWidth*kernelHeight` coefficients. -/
theorem main_arguments_spec (A : DoubleArith) (stoi : String → Option Int)
    (stod : String → Option A.F) (ninth : A.F) (argv : List String) :
    (∀ mode inputFileName outputFileName kernelWidth kernelHeight kernel,
      mainArguments A stoi stod ninth argv
        = .proceed mode inputFileName outputFileName kernelWidth kernelHeight kernel →
      (kernel.length : Int) = toSizeT (wrapInt (kernelWidth * kernelHeight)) ∧
      (∀ rank size inbox inputImage,
        mainConvolution A rank size inbox mode inputImage kernel kernelWidth kernelHeight
          ≠ some (.error .invalidKernel)) ∧
      ((argv.length : Int) < 6 → kernelWidth = 3 ∧ kernelHeight = 3 ∧
        kernel = [ninth, ninth, ninth, ninth, ninth, ninth, ninth, ninth, ninth]) ∧
      ((argv.length : Int) ≥ 6 →
        stoi (argv.getD 4 "") = some kernelWidth ∧
        stoi (argv.getD 5 "") = some kernelHeight ∧
        (argv.length : Int) = wrapInt (6 + wrapInt (kernelWidth * kernelHeight)) ∧
        (kernel.length : Int) = (argv.length : Int) - 6 ∧
        (argv.drop 6).map stod = kernel.map some ∧
        (-2147483648 ≤ kernelWidth * kernelHeight →
          6 + kernelWidth * kernelHeight < 2147483648 →
          (kernel.length : Int) = kernelWidth * kernelHeight))) ∧
    ((argv.length : Int) ≥ 6 → ∀ kernelWidth kernelHeight,
      stoi (argv.getD 4 "") = some kernelWidth →
      stoi (argv.getD 5 "") = some kernelHeight →
      (argv.length : Int) ≠ wrapInt (6 + wrapInt (kernelWidth * kernelHeight)) →
      mainArguments A stoi stod ninth argv = .usage) ∧
    ((argv.length : Int) ≥ 4 → (argv.length : Int) < 6 →
      mainArguments A stoi stod ninth argv
        = .proceed (argv.getD 1 "") (argv.getD 2 "") (argv.getD 3 "") 3 3
            [ninth, ninth, ninth, ninth, ninth, ninth, ninth, ninth, ninth]) ∧
    ((argv.length : Int) ≥ 6 → ∀ kernelWidth kernelHeight kernel,
      stoi (argv.getD 4 "") = some kernelWidth →
      stoi (argv.getD 5 "") = some kernelHeight →
      (argv.length : Int) = wrapInt (6 + wrapInt (kernelWidth * kernelHeight)) →
      (argv.drop 6).map stod = kernel.map some →
      mainArguments A stoi stod ninth argv
        = .proceed (argv.getD 1 "") (argv.getD 2 "") (argv.getD 3 "") kernelWidth
            kernelHeight kernel) := by
  have key : ∀ mode inputFileName outputFileName kernelWidth kernelHeight kernel,
      mainArguments A stoi stod ninth argv
        = .proceed mode inputFileName outputFileName kernelWidth kernelHeight kernel →
      (kernel.length : Int) = toSizeT (wrapInt (kernelWidth * kernelHeight)) ∧
      ((argv.length : Int) < 6 → kernelWidth = 3 ∧ kernelHeight = 3 ∧
        kernel = [ninth, ninth, ninth, ninth, ninth, ninth, ninth, ninth, ninth]) ∧
      ((argv.length : Int) ≥ 6 →
        stoi (argv.getD 4 "") = some kernelWidth ∧
        stoi (argv.getD 5 "") = some kernelHeight ∧
        (argv.length : Int) = wrapInt (6 + wrapInt (kernelWidth * kernelHeight)) ∧
        (kernel.length : Int) = (argv.length : Int) - 6 ∧
        (argv.drop 6).map stod = kernel.map some ∧
        (-2147483648 ≤ kernelWidth * kernelHeight →
          6 + kernelWidth * kernelHeight < 2147483648 →
          (kernel.length : Int) = kernelWidth * kernelHeight)) := by
    intro mode inputFileName outputFileName kernelWidth kernelHeight kernel h
    unfold mainArguments at h
    simp only at h
    by_cases h4 : (argv.length : Int) < 4
    · rw [if_pos h4] at h; cases h
    · rw [if_neg h4] at h
      by_cases h6 : (argv.length : Int) ≥ 6
      · rw [if_pos h6] at h
        cases hw : stoi (argv.getD 4 "") with
        | none => rw [hw] at h; cases h
        | some kw =>
          rw [hw] at h
          simp only at h
          cases hh : stoi (argv.getD 5 "") with
          | none => rw [hh] at h; cases h
          | some kh =>
            rw [hh] at h
            simp only at h
            by_cases hc : (argv.length : Int) ≠ wrapInt (6 + wrapInt (kw * kh))
            · rw [if_pos hc] at h; cases h
            · rw [if_neg hc] at h
              cases hp : parseCoefficients stod (argv.drop 6) [] with
              | none => rw [hp] at h; cases h
              | some ker =>
                rw [hp] at h
                simp only [ArgOutcome.proceed.injEq] at h
                obtain ⟨_, _, _, rfl, rfl, rfl⟩ := h
                obtain ⟨vals, v1, v2⟩ := parseCoefficients_spec stod _ _ _ hp
                rw [List.nil_append] at v1
                have hlen : ker.length = (argv.drop 6).length := by
                  have := congrArg List.length v2
                  rw [List.length_map, List.length_map] at this
                  rw [v1]; exact this.symm
                rw [List.length_drop] at hlen
                have hc' : (argv.length : Int) = wrapInt (6 + wrapInt (kw * kh)) :=
                  not_not.mp hc
                have hsize : (ker.length : Int) = toSizeT (wrapInt (kw * kh)) := by
                  unfold wrapInt at hc'
                  unfold toSizeT wrapInt
                  omega
                refine ⟨hsize, fun hlt => absurd h6 (by omega), fun _ => ?_⟩
                refine ⟨rfl, rfl, hc', by omega, by rw [v1]; exact v2, fun b1 b2 => ?_⟩
                rw [wrapInt_eq _ b1 (by omega), wrapInt_eq _ (by omega) b2] at hc'
                omega
      · rw [if_neg h6] at h
        simp only [ArgOutcome.proceed.injEq] at h
        obtain ⟨_, _, _, rfl, rfl, rfl⟩ := h
        exact ⟨sizeCheck_fits _ _ _ (by decide) (by decide) (by decide) rfl,
          fun _ => ⟨rfl, rfl, rfl⟩, fun hge => absurd hge h6⟩
  refine ⟨?_, ?_, ?_, ?_⟩
  · intro mode inputFileName outputFileName kernelWidth kernelHeight kernel h
    obtain ⟨k1, k2, k3⟩ := key mode inputFileName outputFileName kernelWidth kernelHeight
      kernel h
    refine ⟨k1, ?_, k2, k3⟩
    obtain ⟨s1, s2, s3⟩ := strategies_ne_invalid A kernel kernelWidth kernelHeight k1
    intro rank size inbox inputImage
    unfold mainConvolution
    split
    · intro hc
      exact s1 inputImage (Option.some.inj hc)
    · split
      · intro hc
        exact s2 inputImage (Option.some.inj hc)
      · split
        · intro hc
          have hc' := Option.some.inj hc
          cases hr : applyDistributedParallelConvolution A rank size inbox inputImage kernel
              kernelWidth kernelHeight with
          | error e =>
            rw [hr] at hc'
            have he : e = ConvError.invalidKernel := Except.error.inj hc'
            rw [he] at hr
            exact s3 rank size inbox inputImage hr
          | ok r =>
            rw [hr] at hc'
            cases hc'
        · intro hc; cases hc
  · intro h6 kernelWidth kernelHeight hw hh hne
    unfold mainArguments
    simp only
    rw [if_neg (by omega), if_pos h6, hw]
    simp only
    rw [hh]
    simp only
    rw [if_pos hne]
  · intro h4 h6
    unfold mainArguments
    simp only
    rw [if_neg (by omega), if_neg (by omega)]
  · intro h6 kernelWidth kernelHeight kernel hw hh heq hvals
    unfold mainArguments
    simp only
    rw [if_neg (by omega), if_pos h6, hw]
    simp only
    rw [hh]
    simp only
    rw [if_neg (not_not.mpr heq), parseCoefficients_ok stod _ [] kernel hvals]
    rfl

/-- C15 (fails on the code): `main` tests `argc` against `6 + kernelWidth * kernelHeight`
computed in `int`. The command line `./program S input.bmp output.bmp 65536 65536` has
`argc = 6`, and `6 + 65536 * 65536` is 6 in `int`: `main` does not end in `printUsage` but
enters its `try` block with `kernelWidth = kernelHeight = 65536` and a kernel without
coefficients, not `65536 * 65536` of them, and on a 1x1 image the convolution call then
reads a coefficient of that empty kernel. A command line that announces a 1x2 kernel and
gives its two coefficients goes on with exactly these, as the claim says. -/
theorem main_accepts_wrapped_size :
    mainArguments ExactArith (fun s => if s = "65536" then some 65536 else none)
        (fun _ => none) ((1 : ℚ) / 9)
        ["./program", "S", "input.bmp", "output.bmp", "65536", "65536"]
      = .proceed "S" "input.bmp" "output.bmp" 65536 65536 [] ∧
    ((([] : List ℚ).length : Int) ≠ 65536 * 65536) ∧
    (((["./program", "S", "input.bmp", "output.bmp", "65536", "65536"] : List String).length
        : Int) ≠ 6 + 65536 * 65536) ∧
    wrapInt (6 + wrapInt (65536 * 65536)) = 6 ∧
    mainConvolution ExactArith 0 1 (fun _ => none) "S" ⟨1, 1, [10, 20, 30]⟩ ([] : List ℚ)
        65536 65536 = some (.error .outOfBounds) ∧
    mainArguments ExactArith
        (fun s => if s = "1" then some 1 else if s = "2" then some 2 else none)
        (fun s => if s = "0.5" then some ((1 : ℚ) / 2) else if s = "-3" then some (-3)
          else none) ((1 : ℚ) / 9)
        ["./program", "P", "input.bmp", "output.bmp", "1", "2", "0.5", "-3"]
      = .proceed "P" "input.bmp" "output.bmp" 1 2 [(1 : ℚ) / 2, -3] := by
  refine ⟨rfl, by decide, by decide, by decide, ?_, rfl⟩
  unfold mainConvolution
  rw [if_pos rfl, applyConvolution_empty_kernel]

/-- C11 (as stated, fails): for the height field `biHeight = -h` with `h = 2147483648`
the image height is not set to `h`. The header-only file `sampleIntMin` (magic `0x4D42`,
24 bits, no compression, `biWidth = 0`, `biHeight = -2147483648`) is loaded as an image of
height `-2147483648`: the negation of that height is not an `int`. -/
theorem loadBMP_height_int_min :
    (BMPFileHeader.decode (sampleIntMin.take 14)).bfType = 0x4D42 ∧
    (BMPInfoHeader.decode ((sampleIntMin.drop 14).take 40)).biBitCount = 24 ∧
    (BMPInfoHeader.decode ((sampleIntMin.drop 14).take 40)).biCompression = 0 ∧
    (BMPInfoHeader.decode ((sampleIntMin.drop 14).take 40)).biWidth = 0 ∧
    (BMPInfoHeader.decode ((sampleIntMin.drop 14).take 40)).biHeight = -2147483648 ∧
    loadBMP (some sampleIntMin) = .ok ⟨0, -2147483648, []⟩ ∧
    ¬ ∃ data, loadBMP (some sampleIntMin) = .ok ⟨0, 2147483648, data⟩ := by
  have h : loadBMP (some sampleIntMin) = .ok ⟨0, -2147483648, []⟩ := by decide!
  refine ⟨by decide, by decide, by decide, by decide, by decide, h, ?_⟩
  rintro ⟨data, hd⟩
  rw [h] at hd
  have hheight : (-2147483648 : Int) = 2147483648 :=
    congrArg BMPImage.height (Except.ok.inj hd)
  exact absurd hheight (by decide)

/-- C11 (amended): `loadBMP` returns the pixel data top-down and in R,G,B order whatever the
stored orientation, on a file whose height has a negation in `int` and whose row size and
pixel data size fit an `int`. On a file with magic `0x4D42`, 24 bits, no compression,
width `W >= 0` and at least `h` rows of `rowPadded` bytes from `bfOffBits` on, with
`0 < h < 2^31`, `W*3 + 3 < 2^31` and `W*h*3 < 2^31`: if `biHeight = h` the stored row `i`
goes to the image row `h-1-i`; if `biHeight = -h` the stored row `i` goes to the image row
`i` and the image height is `h`; in both cases the image has `W*h*3` bytes and
`data[(destRow*W+j)*3 + c]` is the stored byte `j*3 + (2-c)` of that row, so the stored
`(B,G,R)` becomes `(R,G,B)` and no padding byte is copied. -/
theorem loadBMP_top_down_rgb (bytes : List Byte) (W h : Int) (off : Nat)
    (hlen : 54 ≤ bytes.length)
    (hmagic : (BMPFileHeader.decode (bytes.take 14)).bfType = 0x4D42)
    (hoff : (BMPFileHeader.decode (bytes.take 14)).bfOffBits = off)
    (hbits : (BMPInfoHeader.decode ((bytes.drop 14).take 40)).biBitCount = 24)
    (hcomp : (BMPInfoHeader.decode ((bytes.drop 14).take 40)).biCompression = 0)
    (hW : (BMPInfoHeader.decode ((bytes.drop 14).take 40)).biWidth = W)
    (hw : 0 ≤ W) (hh : 0 < h) (hh1 : h < 2147483648)
    (hrow : W * 3 + 3 < 2147483648) (hsize : W * h * 3 < 2147483648)
    (hfile : (off : Int) + h * padRow (W * 3) ≤ bytes.length) :
    ((BMPInfoHeader.decode ((bytes.drop 14).take 40)).biHeight = h →
      ∃ data, loadBMP (some bytes) = .ok ⟨W, h, data⟩ ∧
        (data.length : Int) = W * h * 3 ∧
        ∀ (i j : Int) (c : Nat), 0 ≤ i → i < h → 0 ≤ j → j < W → c < 3 →
          data[(((h - 1 - i) * W + j) * 3 + c).toNat]?
            = some (bytes.getD (off + (i * padRow (W * 3) + j * 3 + (2 - (c : Int))).toNat)
                0)) ∧
    ((BMPInfoHeader.decode ((bytes.drop 14).take 40)).biHeight = -h →
      ∃ data, loadBMP (some bytes) = .ok ⟨W, h, data⟩ ∧
        (data.length : Int) = W * h * 3 ∧
        ∀ (i j : Int) (c : Nat), 0 ≤ i → i < h → 0 ≤ j → j < W → c < 3 →
          data[((i * W + j) * 3 + c).toNat]?
            = some (bytes.getD (off + (i * padRow (W * 3) + j * 3 + (2 - (c : Int))).toNat)
                0)) := by
  constructor
  · intro hH
    have hnn : ¬ h < 0 := by omega
    obtain ⟨data, l1, l2, l3⟩ := loadBMP_spec bytes _ _ hlen rfl rfl hmagic hbits hcomp
      (by rw [hW]; exact hw) (by rw [hH]; omega) (by rw [hW]; exact hrow)
      (by rw [hH, hW, if_neg hnn]; exact hsize)
      (by rw [hH, hW, hoff, if_neg hnn]; exact hfile)
    simp only [hH, hW, hoff, if_neg hnn] at l1 l2 l3
    exact ⟨data, l1, l2, l3⟩
  · intro hH
    have hneg : -h < 0 := by omega
    obtain ⟨data, l1, l2, l3⟩ := loadBMP_spec bytes _ _ hlen rfl rfl hmagic hbits hcomp
      (by rw [hW]; exact hw) (by rw [hH]; omega) (by rw [hW]; exact hrow)
      (by rw [hH, hW, if_pos hneg, neg_neg]; exact hsize)
      (by rw [hH, hW, hoff, if_pos hneg, neg_neg]; exact hfile)
    simp only [hH, hW, hoff, if_pos hneg, neg_neg] at l1 l2 l3
    exact ⟨data, l1, l2, l3⟩

/-- Witness for C11 (amended): the top-down and the bottom-up sample file of 1x2 pixels
are both loaded as the image with rows `(1,2,3)` and `(4,5,6)`. -/
theorem loadBMP_top_down_rgb_witness :
    loadBMP (some sampleTopDown) = .ok ⟨1, 2, [1, 2, 3, 4, 5, 6]⟩ ∧
    loadBMP (some sampleBottomUp) = .ok ⟨1, 2, [1, 2, 3, 4, 5, 6]⟩ ∧
    (∃ data, loadBMP (some sampleTopDown) = .ok ⟨1, 2, data⟩ ∧
      (data.length : Int) = 1 * 2 * 3 ∧
      ∀ (i j : Int) (c : Nat), 0 ≤ i → i < 2 → 0 ≤ j → j < 1 → c < 3 →
        data[((i * 1 + j) * 3 + c).toNat]?
          = some (sampleTopDown.getD
              (54 + (i * padRow (1 * 3) + j * 3 + (2 - (c : Int))).toNat) 0)) ∧
    (∃ data, loadBMP (some sampleBottomUp) = .ok ⟨1, 2, data⟩ ∧
      (data.length : Int) = 1 * 2 * 3 ∧
      ∀ (i j : Int) (c : Nat), 0 ≤ i → i < 2 → 0 ≤ j → j < 1 → c < 3 →
        data[(((2 - 1 - i) * 1 + j) * 3 + c).toNat]?
          = some (sampleBottomUp.getD
              (54 + (i * padRow (1 * 3) + j * 3 + (2 - (c : Int))).toNat) 0)) :=
  ⟨by decide!, by decide!,
    (loadBMP_top_down_rgb sampleTopDown 1 2 54 (by decide) (by decide) (by decide)
      (by decide) (by decide) (by decide) (by decide) (by decide) (by decide) (by decide)
      (by decide) (by decide!)).2 (by decide),
    (loadBMP_top_down_rgb sampleBottomUp 1 2 54 (by decide) (by decide) (by decide)
      (by decide) (by decide) (by decide) (by decide) (by decide) (by decide) (by decide)
      (by decide) (by decide!)).1 (by decide)⟩

/-- C12: `saveToFile` emits, after the two headers (14 and 40 bytes), exactly `height` rows
of `rowPadded = (width*3 + 3) & ~3` bytes, `rowPadded` being the smallest multiple of 4 that
is at least `width*3`; the `k`-th emitted row is the image row `height-1-k`; byte `j*3 + c`
of it is channel `2 - c` of pixel `j` (so B, G, R); and the bytes from `width*3` on are 0. -/
theorem saveToFile_rows (image : BMPImage)
    (hw : 0 ≤ image.width) (hh : 0 ≤ image.height)
    (hdata : (image.data.length : Int) = image.width * image.height * 3) :
    ∃ pixels, saveToFile image
        = .ok ((savedFileHeader image).encode ++ (savedInfoHeader image).encode ++ pixels) ∧
      (savedFileHeader image).encode.length = 14 ∧
      (savedInfoHeader image).encode.length = 40 ∧
      (pixels.length : Int) = image.height * padRow (image.width * 3) ∧
      padRow (image.width * 3) % 4 = 0 ∧ image.width * 3 ≤ padRow (image.width * 3) ∧
      (∀ m : Int, m % 4 = 0 → image.width * 3 ≤ m → padRow (image.width * 3) ≤ m) ∧
      (∀ (k j : Int) (c : Nat), 0 ≤ k → k < image.height → 0 ≤ j → j < image.width → c < 3 →
        pixels[(k * padRow (image.width * 3) + j * 3 + c).toNat]?
          = some (image.data.getD (((image.height - 1 - k) * image.width + j) * 3
              + (2 - (c : Int))).toNat 0)) ∧
      (∀ (k t : Int), 0 ≤ k → k < image.height → image.width * 3 ≤ t →
        t < padRow (image.width * 3) →
        pixels[(k * padRow (image.width * 3) + t).toNat]? = some 0) := by
  obtain ⟨px, s1, s2, s3⟩ := saveToFile_spec image hw hh hdata
  obtain ⟨pb1, pb2, pb3⟩ := padRow_bounds (image.width * 3) (by omega)
  refine ⟨px, s1, fileEncode_length _, infoEncode_length _, s2, pb3, pb1,
    fun m hm1 hm2 => by omega, ?_, ?_⟩
  · intro k j c a1 a2 a3 a4 a5
    have hkP : 0 ≤ k * padRow (image.width * 3) := mul_nonneg a1 (by omega)
    have key := s3 k (j * 3 + (c : Int)).toNat a1 a2 (by omega)
    rw [if_pos (by omega)] at key
    have e1 : (k * padRow (image.width * 3) + ((j * 3 + (c : Int)).toNat : Int)).toNat
        = (k * padRow (image.width * 3) + j * 3 + c).toNat := by omega
    have e2 : (((image.height - 1 - k) * image.width
          + ((j * 3 + (c : Int)).toNat : Int) / 3) * 3
        + (2 - ((j * 3 + (c : Int)).toNat : Int) % 3)).toNat
        = (((image.height - 1 - k) * image.width + j) * 3 + (2 - (c : Int))).toNat := by
      have h1 : ((j * 3 + (c : Int)).toNat : Int) = j * 3 + c := by omega
      rw [h1]
      have h2 : (j * 3 + (c : Int)) / 3 = j := by omega
      have h3 : (j * 3 + (c : Int)) % 3 = c := by omega
      rw [h2, h3]
    rw [e1, e2] at key
    exact key
  · intro k t a1 a2 a3 a4
    have hkP : 0 ≤ k * padRow (image.width * 3) := mul_nonneg a1 (by omega)
    have key := s3 k t.toNat a1 a2 (by omega)
    rw [if_neg (by omega)] at key
    have e1 : (k * padRow (image.width * 3) + (t.toNat : Int)).toNat
        = (k * padRow (image.width * 3) + t).toNat := by omega
    rw [e1] at key
    exact key

/-- Witness for C12: a 1x2 image, whose rows are padded from 3 to 4 bytes. -/
theorem saveToFile_rows_witness :
    saveToFile ⟨1, 2, [1, 2, 3, 4, 5, 6]⟩ = .ok sampleBottomUp ∧
    ∃ pixels, saveToFile ⟨1, 2, [1, 2, 3, 4, 5, 6]⟩
        = .ok ((savedFileHeader ⟨1, 2, [1, 2, 3, 4, 5, 6]⟩).encode
          ++ (savedInfoHeader ⟨1, 2, [1, 2, 3, 4, 5, 6]⟩).encode ++ pixels) ∧
      (pixels.length : Int) = 2 * padRow (1 * 3) :=
  ⟨by decide!,
    (saveToFile_rows ⟨1, 2, [1, 2, 3, 4, 5, 6]⟩ (by decide) (by decide) (by decide)).elim
      (fun pixels h => ⟨pixels, h.1, h.2.2.2.1⟩)⟩

/-- C13: `loadBMP` fails, returning no image, on every file whose header has
`bfType != 0x4D42`, or `biBitCount != 24`, or `biCompression != 0`. The magic number is
decided first (from the first 14 bytes alone), then the bit depth, then the compression
(from the first 54 bytes alone): the failure is the same whatever the bytes that follow
the headers. -/
theorem loadBMP_rejects (bytes : List Byte) :
    (14 ≤ bytes.length → (BMPFileHeader.decode (bytes.take 14)).bfType ≠ 0x4D42 →
      loadBMP (some bytes) = .error .badMagic) ∧
    (54 ≤ bytes.length → (BMPFileHeader.decode (bytes.take 14)).bfType = 0x4D42 →
      (BMPInfoHeader.decode ((bytes.drop 14).take 40)).biBitCount ≠ 24 →
      loadBMP (some bytes) = .error .badBitCount) ∧
    (54 ≤ bytes.length → (BMPFileHeader.decode (bytes.take 14)).bfType = 0x4D42 →
      (BMPInfoHeader.decode ((bytes.drop 14).take 40)).biBitCount = 24 →
      (BMPInfoHeader.decode ((bytes.drop 14).take 40)).biCompression ≠ 0 →
      loadBMP (some bytes) = .error .compressed) ∧
    ((BMPFileHeader.decode (bytes.take 14)).bfType ≠ 0x4D42 ∨
        (BMPInfoHeader.decode ((bytes.drop 14).take 40)).biBitCount ≠ 24 ∨
        (BMPInfoHeader.decode ((bytes.drop 14).take 40)).biCompression ≠ 0 →
      ∃ e, loadBMP (some bytes) = .error e ∧
        (e = .fileHeaderShort ∨ e = .badMagic ∨ e = .infoHeaderShort ∨ e = .badBitCount ∨
          e = .compressed)) ∧
    (∀ rest rest' : List Byte, 54 ≤ bytes.length →
      ((BMPFileHeader.decode (bytes.take 14)).bfType ≠ 0x4D42 ∨
        (BMPInfoHeader.decode ((bytes.drop 14).take 40)).biBitCount ≠ 24 ∨
        (BMPInfoHeader.decode ((bytes.drop 14).take 40)).biCompression ≠ 0) →
      loadBMP (some (bytes.take 54 ++ rest)) = loadBMP (some (bytes.take 54 ++ rest'))) := by
  have step : ∀ b : List Byte,
      (BMPFileHeader.decode (b.take 14)).bfType ≠ 0x4D42 ∨
        (BMPInfoHeader.decode ((b.drop 14).take 40)).biBitCount ≠ 24 ∨
        (BMPInfoHeader.decode ((b.drop 14).take 40)).biCompression ≠ 0 →
      loadBMP (some b)
        = if (b.take 14).length ≠ 14 then .error .fileHeaderShort
          else if (BMPFileHeader.decode (b.take 14)).bfType ≠ 0x4D42 then .error .badMagic
          else if ((b.drop 14).take 40).length ≠ 40 then .error .infoHeaderShort
          else if (BMPInfoHeader.decode ((b.drop 14).take 40)).biBitCount ≠ 24 then
            .error .badBitCount
          else .error .compressed := by
    intro b hbad
    unfold loadBMP
    simp only
    by_cases c1 : (b.take 14).length ≠ 14
    · simp only [if_pos c1]
    · simp only [if_neg c1]
      by_cases c2 : (BMPFileHeader.decode (b.take 14)).bfType ≠ 0x4D42
      · simp only [if_pos c2]
      · simp only [if_neg c2]
        by_cases c3 : ((b.drop 14).take 40).length ≠ 40
        · simp only [if_pos c3]
        · simp only [if_neg c3]
          by_cases c4 : (BMPInfoHeader.decode ((b.drop 14).take 40)).biBitCount ≠ 24
          · simp only [if_pos c4]
          · have c5 : (BMPInfoHeader.decode ((b.drop 14).take 40)).biCompression ≠ 0 := by
              rcases hbad with h | h | h
              · exact absurd h c2
              · exact absurd h c4
              · exact h
            simp only [if_neg c4, if_pos c5]
  refine ⟨?_, ?_, ?_, ?_, ?_⟩
  · intro hlen hm
    have t14 : (bytes.take 14).length = 14 := by rw [List.length_take]; omega
    rw [step bytes (Or.inl hm), if_neg (by rw [t14]; simp), if_pos hm]
  · intro hlen hm hb
    have t14 : (bytes.take 14).length = 14 := by rw [List.length_take]; omega
    have t40 : ((bytes.drop 14).take 40).length = 40 := by
      rw [List.length_take, List.length_drop]; omega
    rw [step bytes (Or.inr (Or.inl hb)), if_neg (by rw [t14]; simp),
      if_neg (not_not.mpr hm), if_neg (by rw [t40]; simp), if_pos hb]
  · intro hlen hm hb hc
    have t14 : (bytes.take 14).length = 14 := by rw [List.length_take]; omega
    have t40 : ((bytes.drop 14).take 40).length = 40 := by
      rw [List.length_take, List.length_drop]; omega
    rw [step bytes (Or.inr (Or.inr hc)), if_neg (by rw [t14]; simp),
      if_neg (not_not.mpr hm), if_neg (by rw [t40]; simp), if_neg (not_not.mpr hb)]
  · intro hbad
    rw [step bytes hbad]
    split
    · exact ⟨_, rfl, Or.inl rfl⟩
    · split
      · exact ⟨_, rfl, Or.inr (Or.inl rfl)⟩
      · split
        · exact ⟨_, rfl, Or.inr (Or.inr (Or.inl rfl))⟩
        · split
          · exact ⟨_, rfl, Or.inr (Or.inr (Or.inr (Or.inl rfl)))⟩
          · exact ⟨_, rfl, Or.inr (Or.inr (Or.inr (Or.inr rfl)))⟩
  · intro rest rest' hlen hbad
    have h54 : (bytes.take 54).length = 54 := by rw [List.length_take]; omega
    have e14 : ∀ r : List Byte, (bytes.take 54 ++ r).take 14 = bytes.take 14 := by
      intro r
      rw [List.take_append_of_le_length (by omega), List.take_take]
      rfl
    have e40 : ∀ r : List Byte, ((bytes.take 54 ++ r).drop 14).take 40
        = (bytes.drop 14).take 40 := by
      intro r
      rw [List.drop_append_of_le_length (by omega),
        List.take_append_of_le_length (by rw [List.length_drop]; omega)]
      apply List.ext_getElem?
      intro n
      simp only [List.getElem?_take, List.getElem?_drop]
      split
      · rw [if_pos (by omega)]
      · rfl
    have hbad' : ∀ r : List Byte,
        (BMPFileHeader.decode ((bytes.take 54 ++ r).take 14)).bfType ≠ 0x4D42 ∨
        (BMPInfoHeader.decode (((bytes.take 54 ++ r).drop 14).take 40)).biBitCount ≠ 24 ∨
        (BMPInfoHeader.decode (((bytes.take 54 ++ r).drop 14).take 40)).biCompression ≠ 0 := by
      intro r
      rw [e14, e40]
      exact hbad
    rw [step _ (hbad' rest), step _ (hbad' rest')]
    simp only [e14, e40]

/-- Witness for C13: the sample file with its magic number, bit depth or compression
field altered. -/
theorem loadBMP_rejects_witness :
    loadBMP (some (sampleBottomUp.set 0 0)) = .error .badMagic ∧
    loadBMP (some (sampleBottomUp.set 28 32)) = .error .badBitCount ∧
    loadBMP (some (sampleBottomUp.set 30 1)) = .error .compressed ∧
    loadBMP (some ((sampleBottomUp.set 0 0).set 28 32)) = .error .badMagic :=
  ⟨(loadBMP_rejects (sampleBottomUp.set 0 0)).1 (by decide) (by decide),
    (loadBMP_rejects (sampleBottomUp.set 28 32)).2.1 (by decide) (by decide) (by decide),
    (loadBMP_rejects (sampleBottomUp.set 30 1)).2.2.1 (by decide) (by decide) (by decide)
      (by decide),
    (loadBMP_rejects ((sampleBottomUp.set 0 0).set 28 32)).1 (by decide) (by decide)⟩

end ImageConvolution
